import Mathlib

/-! ## oddbit-project/argv: a shallow embedding of the struct-tag argument mapper

The embedding follows `argv.go` and `errors.go`.

* Go strings are modelled by `String`.  The code only ever tests strings for the
  ASCII characters `-` and `,`, for ASCII digits and signs and for white space, and
  on those UTF-8 bytes and code points coincide.
* A Go `map[string]T` is modelled by an association list with unique keys:
  `m[k] = v` is `mapSet`, `m[k]` is `List.lookup`, `len(m)` is `List.length`.  The
  code never ranges over a map, so the order of the list is not observable.
* A destination record is seen through `reflect`: a struct value is the sequence
  of its fields (`Struct`), each with the facts the code asks `reflect` for.
* A type is identified by its name (`Type.String()`), as the `switch fType` and the
  registry of parsers identify it.  A value returned by a registered parser comes
  with the name of its dynamic type, and `field.Set` tests assignability.
* A `[]string` is the nil slice or a slice with its elements (`StrSlice`).
* `strconv.ParseBool`, `strconv.ParseUint`, `strconv.ParseInt`, `strings.Split` and
  `strings.TrimSpace` are modelled after the Go standard library;
  `strconv.ParseFloat` and `time.Parse` are parameters of the environment.
* A run either returns (`Outcome.nil`, `Outcome.err`) or panics inside `reflect`
  (`Outcome.panic`).
-/

namespace Argv

/-! ## Errors (`errors.go`) -/

/-- The two sentinel errors a `*strconv.NumError` can wrap. -/
inductive NumErr
  | ErrSyntax
  | ErrRange
  deriving DecidableEq, Repr

/-- Go's `strconv.NumError`: the failing function, the input and the reason. -/
structure NumError where
  Func : String
  Num : String
  Err : NumErr
  deriving DecidableEq, Repr

/-- An underlying `error` value carried by `ErrInvalidValue`: a `*strconv.NumError`,
or any other error (from `time.Parse`, `strconv.ParseFloat` or a registered
parser), identified by its message. -/
inductive Cause
  | num (e : NumError)
  | other (msg : String)
  deriving DecidableEq, Repr

def ErrTypeReadOnly : Nat := 1
def ErrTypeMissingValue : Nat := 2
def ErrTypeInvalidValue : Nat := 3
def ErrTypeNotSupported : Nat := 4

/-- Go's `FieldError` struct; the third Go field (`FieldError error`) is `Cause`. -/
structure FieldError where
  FieldName : String
  ErrorType : Nat
  Cause : Option Cause
  deriving DecidableEq, Repr

/-- A Go `error` value returned by this package: one of the `utils.Error` string
constants, or a `FieldError`. -/
inductive Error
  | global (msg : String)
  | field (e : FieldError)
  deriving DecidableEq, Repr

def ErrEmptyArgs : Error := .global "empty argument list"
def ErrInvalidDest : Error := .global "dest must be a ptr"
def ErrInvalidDestType : Error := .global "invalid argument type; dest must be a struct"
def ErrInvalidParameterCount : Error := .global "invalid parameter count"

def ErrReadOnly (fieldName : String) : Error :=
  .field { FieldName := fieldName, ErrorType := ErrTypeReadOnly, Cause := none }

def ErrMissingValue (fieldName : String) : Error :=
  .field { FieldName := fieldName, ErrorType := ErrTypeMissingValue, Cause := none }

def ErrInvalidValue (fieldName : String) (fieldError : Cause) : Error :=
  .field { FieldName := fieldName, ErrorType := ErrTypeInvalidValue, Cause := some fieldError }

def ErrNotSupported (fieldName : String) : Error :=
  .field { FieldName := fieldName, ErrorType := ErrTypeNotSupported, Cause := none }

/-- How a call ends: `nil` is Go's `nil` error, `err e` a returned error, `panic` a
run-time panic raised by `reflect`. -/
inductive Outcome
  | nil
  | err (e : Error)
  | panic
  deriving DecidableEq, Repr

/-! ## Go maps as association lists -/

/-- The Go assignment `m[k] = v`: replace the entry for `k`, or add one. -/
def mapSet {α : Type} (m : List (String × α)) (k : String) (v : α) : List (String × α) :=
  match m with
  | [] => [(k, v)]
  | (k', v') :: rest => if k' = k then (k, v) :: rest else (k', v') :: mapSet rest k v

/-- The argument mapping built by `extractArgs`. -/
abbrev Args := List (String × String)

/-! ## Tokenizer and tag extractor -/

/-- The prefix stripping of `extractArgs`: `argName[2:]` when the name starts with
`--`, else `argName[1:]` when it starts with `-`, else the name itself. -/
def stripPrefix (argName : String) : String :=
  match argName.data with
  | '-' :: '-' :: r => ⟨r⟩
  | '-' :: r => ⟨r⟩
  | _ => argName

/-- The loop of `extractArgs` (`i += 2`), started on an even-length list. -/
def extractLoop : List String → Args → Args
  | a :: b :: rest, result => extractLoop rest (mapSet result (stripPrefix a) b)
  | _, result => result

/-- Go's `extractArgs`. -/
def extractArgs (args : List String) : Except Error Args :=
  if args.length % 2 > 0 then .error ErrInvalidParameterCount
  else .ok (extractLoop args [])

/-- Go's `strings.Split(s, sep)` for a one-character separator: always at least one
piece. -/
def splitChars (sep : Char) : List Char → List (List Char)
  | [] => [[]]
  | c :: cs =>
    if c = sep then [] :: splitChars sep cs
    else
      match splitChars sep cs with
      | [] => [[c]]
      | h :: t => (c :: h) :: t

/-- Go's `strings.Split(s, ",")`. -/
def splitComma (s : String) : List String :=
  (splitChars ',' s.data).map String.mk

/-- Go's `parseTag`. -/
def parseTag (tag : String) : String × Bool :=
  if tag.length = 0 then ("", false)
  else
    match splitComma tag with
    | [] => ("", false)
    | [t0] => (t0, false)
    | t0 :: t1 :: _ => (t0, t1 = "optional")

/-! ## `strconv` -/

def syntaxError (fn str : String) : NumError := { Func := fn, Num := str, Err := .ErrSyntax }

def rangeError (fn str : String) : NumError := { Func := fn, Num := str, Err := .ErrRange }

/-- Go's `strconv.ParseBool`. -/
def ParseBool (str : String) : Except NumError Bool :=
  if str = "1" ∨ str = "t" ∨ str = "T" ∨ str = "TRUE" ∨ str = "true" ∨ str = "True" then .ok true
  else if str = "0" ∨ str = "f" ∨ str = "F" ∨ str = "FALSE" ∨ str = "false" ∨ str = "False" then
    .ok false
  else .error (syntaxError "ParseBool" str)

/-- The constant `maxUint64/10 + 1` of `strconv.ParseUint` for base 10: the smallest
number whose tenfold exceeds `maxUint64`. -/
def cutoff10 : Nat := (2 ^ 64 - 1) / 10 + 1

/-- The digit loop of `strconv.ParseUint` for base 10 over `uint64` (arithmetic
modulo `2^64`).  A byte that is not an ASCII digit is a syntax error (a letter has
digit value at least 10, the base); the result on a range error is `maxVal`. -/
def parseUintLoop (s0 : String) (maxVal : Nat) : List Char → Nat → Nat × Option NumError
  | [], n => (n, none)
  | c :: cs, n =>
    if 48 ≤ c.toNat ∧ c.toNat ≤ 57 then
      let d := c.toNat - 48
      if n ≥ cutoff10 then (maxVal, some (rangeError "ParseUint" s0))
      else
        let n10 := (n * 10) % 2 ^ 64
        let n1 := (n10 + d) % 2 ^ 64
        if n1 < n10 ∨ n1 > maxVal then (maxVal, some (rangeError "ParseUint" s0))
        else parseUintLoop s0 maxVal cs n1
    else (0, some (syntaxError "ParseUint" s0))

/-- Go's `strconv.ParseUint(s, 10, bitSize)` for `1 ≤ bitSize ≤ 64`. -/
def ParseUint (s : String) (bitSize : Nat) : Nat × Option NumError :=
  if s = "" then (0, some (syntaxError "ParseUint" s))
  else parseUintLoop s (2 ^ bitSize - 1) s.data 0

/-- Go's `strconv.ParseInt(s, 10, bitSize)` for `1 ≤ bitSize ≤ 64`: pick off the
sign, convert unsigned, check the range. -/
def ParseInt (s : String) (bitSize : Nat) : Int × Option NumError :=
  match s.data with
  | [] => (0, some (syntaxError "ParseInt" s))
  | c :: cs =>
    let neg : Bool := c = '-'
    let body : List Char := if c = '+' ∨ c = '-' then cs else c :: cs
    match ParseUint ⟨body⟩ bitSize with
    | (_, some { Func := _, Num := _, Err := .ErrSyntax }) => (0, some (syntaxError "ParseInt" s))
    | (un, _) =>
      let cutoff : Nat := 2 ^ (bitSize - 1)
      if neg = false ∧ un ≥ cutoff then ((cutoff : Int) - 1, some (rangeError "ParseInt" s))
      else if neg = true ∧ un > cutoff then (-(cutoff : Int), some (rangeError "ParseInt" s))
      else (if neg then -(un : Int) else (un : Int), none)

/-- Go's `parseBool`. -/
def parseBool (s : String) : Except NumError Bool := ParseBool s

/-- Go's `parseUint`: the value is only meaningful when the error is `none`. -/
def parseUint (s : String) (size : Nat) : Nat × Option NumError := ParseUint s size

/-- Go's `parseInt`. -/
def parseInt (s : String) (size : Nat) : Int × Option NumError := ParseInt s size

/-! ## `strings.TrimSpace` and `parseStringArray` -/

/-- Go's `unicode.IsSpace`. -/
def isSpace (c : Char) : Bool :=
  let n := c.toNat
  (9 ≤ n ∧ n ≤ 13) ∨ n = 32 ∨ n = 0x85 ∨ n = 0xA0 ∨ n = 0x1680 ∨ (0x2000 ≤ n ∧ n ≤ 0x200A) ∨
    n = 0x2028 ∨ n = 0x2029 ∨ n = 0x202F ∨ n = 0x205F ∨ n = 0x3000

/-- Go's `strings.TrimSpace`. -/
def trimSpace (s : String) : String :=
  ⟨((s.data.dropWhile isSpace).reverse.dropWhile isSpace).reverse⟩

/-- A Go `[]string`: the nil slice (the zero value of the type), or a slice that
is not nil, with its elements in order; `make([]string, 0)` is `of []`. -/
inductive StrSlice
  | nil
  | of (elems : List String)
  deriving DecidableEq, Repr

/-- Go's `parseStringArray`: `result` starts as `make([]string, 0)`, which is not
nil, and `append` keeps it so. -/
def parseStringArray (s : String) : StrSlice :=
  if s.length = 0 then .of []
  else .of ((splitComma s).map trimSpace)

/-! ## Records as `reflect` sees them -/

/-- A value of a field whose kind is not `reflect.Struct`.  `float` stands for a
floating-point number (its IEEE-754 bits), `dyn` for a value of any other type. -/
inductive Prim
  | bool (b : Bool)
  | int (i : Int)
  | uint (n : Nat)
  | float (bits : Nat)
  | str (s : String)
  | strs (l : StrSlice)
  | dyn (repr : String)
  deriving DecidableEq, Repr

/-- What the code asks `reflect` about a struct field: `typ` is
`field.Type().String()`, `tag` is `Tag.Get("argv")`, `kindInterface` says whether
the kind of the field is `reflect.Interface`, `canInterface` and `canSet` are the
answers of `CanInterface()` and `CanSet()`.  (For a struct reached through a
pointer `reflect` answers both alike: true exactly for an exported field.  The
model does not rely on that.) -/
structure FieldInfo where
  typ : String
  tag : String
  kindInterface : Bool
  canInterface : Bool
  canSet : Bool
  deriving DecidableEq, Repr

/-- A struct value: its fields in declaration order.  `leaf` is a field that holds
a value that is not a struct, `sub` a field that holds a struct value.  The kind of
a field is `reflect.Interface` when `kindInterface` is set (a field of interface
type holds a value of either sort); otherwise the kind of a `sub` field is
`reflect.Struct` and the kind of a `leaf` field is neither. -/
inductive Struct
  | nil
  | leaf (info : FieldInfo) (v : Prim) (rest : Struct)
  | sub (info : FieldInfo) (inner : Struct) (rest : Struct)
  deriving DecidableEq, Repr

/-- A Go value handed to `field.Set`. -/
inductive Val
  | prim (p : Prim)
  | struct (s : Struct)
  deriving DecidableEq, Repr

/-- The `dest any` argument: the untyped `nil`, a value that is not a pointer, a
pointer to something that is not a struct, a nil pointer to a struct type with
`numField` fields, or a pointer to a struct value. -/
inductive Dest
  | untypedNil
  | notPtr
  | ptrNonStruct
  | nilPtrStruct (numField : Nat)
  | ptrStruct (s : Struct)
  deriving DecidableEq, Repr

/-- The `any` returned by a parser, as `reflect.ValueOf` sees it: `typ` is the name
of its dynamic type (`reflect.TypeOf(v).String()`), `none` for the untyped nil, on
which `reflect.ValueOf` gives the zero `Value`; `val` is the value. -/
structure Any where
  typ : Option String
  val : Val
  deriving DecidableEq, Repr

/-- Go's `FieldParser`. -/
abbrev FieldParser := String → Except Cause Any

/-- The process-wide state (`reservedFieldTypes`, `fieldParser`) and the library
facts that are not modelled: `mapTime` is `time.Parse(time.RFC3339, ·)` (a
`time.Time` is a struct value), `parseFloat` is `strconv.ParseFloat` (the bits of
the number), and `assignable t f` says whether `reflect` finds a value whose
dynamic type is named `t` assignable to a field whose type is named `f`, for two
different types (`f` is an interface type that `t` implements, or the two have the
same underlying type and one of them is not a defined type). -/
structure Env where
  reservedFieldTypes : List String
  fieldParser : List (String × FieldParser)
  mapTime : String → Except Cause Struct
  parseFloat : String → Nat → Except Cause Nat
  assignable : String → String → Bool

/-- Go's `AddParser`. -/
def AddParser (env : Env) (typ : String) (fn : FieldParser) : Env :=
  { env with fieldParser := mapSet env.fieldParser typ fn }

/-- Go's `AddReservedType`. -/
def AddReservedType (env : Env) (t : String) : Env :=
  { env with reservedFieldTypes := env.reservedFieldTypes ++ [t] }

/-- The `for _, v := range` loop of `isReserved` over a list of reserved names. -/
def isReservedIn : List String → String → Bool
  | [], _ => false
  | v :: vs, t => if v = t then true else isReservedIn vs t

/-- Go's `isReserved`. -/
def isReserved (env : Env) (t : String) : Bool :=
  isReservedIn env.reservedFieldTypes t

/-! ## The field mapper -/

/-- What the else-branch of the loop of `parseArgv` (lines 145-250) does with one
field: go on to the next field without writing (`skip`), write a value and go on
(`set`), return an error (`fail`), or panic. -/
inductive Action
  | skip
  | set (v : Val)
  | fail (e : Error)
  | panic
  deriving DecidableEq, Repr

/-- The `switch fType` of `parseArgv`: the coercion of the raw value `fValue` for a
field of type `fType`, with the name of the type of the value that is stored.
`none` is the `default` case without a registered parser.  A typed setter
(`SetBool`, `SetInt`, `SetUint`, `SetFloat`, `SetString`) stores a value of the
type of the field; `mapTime` returns a `time.Time` and `parseStringArray` a
`[]string`, the case labels themselves. -/
def coerceAny (env : Env) (fType fValue : String) : Option (Except Cause Any) :=
  if fType = "time.Time" then
    match env.mapTime fValue with
    | .ok v => some (.ok ⟨some fType, .struct v⟩)
    | .error err => some (.error err)
  else if fType = "bool" then
    match parseBool fValue with
    | .ok v => some (.ok ⟨some fType, .prim (.bool v)⟩)
    | .error err => some (.error (.num err))
  else if fType = "byte" ∨ fType = "uint8" then
    match parseUint fValue 8 with
    | (v, none) => some (.ok ⟨some fType, .prim (.uint v)⟩)
    | (_, some err) => some (.error (.num err))
  else if fType = "int8" then
    match parseInt fValue 8 with
    | (v, none) => some (.ok ⟨some fType, .prim (.int v)⟩)
    | (_, some err) => some (.error (.num err))
  else if fType = "uint" ∨ fType = "uint32" then
    match parseUint fValue 32 with
    | (v, none) => some (.ok ⟨some fType, .prim (.uint v)⟩)
    | (_, some err) => some (.error (.num err))
  else if fType = "uint64" then
    match parseUint fValue 64 with
    | (v, none) => some (.ok ⟨some fType, .prim (.uint v)⟩)
    | (_, some err) => some (.error (.num err))
  else if fType = "int" ∨ fType = "int32" then
    match parseInt fValue 32 with
    | (v, none) => some (.ok ⟨some fType, .prim (.int v)⟩)
    | (_, some err) => some (.error (.num err))
  else if fType = "int64" then
    match parseInt fValue 64 with
    | (v, none) => some (.ok ⟨some fType, .prim (.int v)⟩)
    | (_, some err) => some (.error (.num err))
  else if fType = "float32" then
    match env.parseFloat fValue 32 with
    | .ok v => some (.ok ⟨some fType, .prim (.float v)⟩)
    | .error err => some (.error err)
  else if fType = "float64" then
    match env.parseFloat fValue 64 with
    | .ok v => some (.ok ⟨some fType, .prim (.float v)⟩)
    | .error err => some (.error err)
  else if fType = "string" then some (.ok ⟨some fType, .prim (.str fValue)⟩)
  else if fType = "[]string" then some (.ok ⟨some fType, .prim (.strs (parseStringArray fValue))⟩)
  else
    match List.lookup fType env.fieldParser with
    | some fn => some (fn fValue)
    | none => none

/-- The value that the `switch fType` yields, without the name of its type. -/
def coerce (env : Env) (fType fValue : String) : Option (Except Cause Val) :=
  match coerceAny env fType fValue with
  | none => none
  | some (.error err) => some (.error err)
  | some (.ok a) => some (.ok a.val)

/-- The test that `field.Set(reflect.ValueOf(v))` makes before it stores: the value
is valid (not the untyped nil) and its type is the type of the field or assignable
to it.  The test is vacuous for the typed setters. -/
def assignableTo (env : Env) (valTyp : Option String) (fType : String) : Bool :=
  match valTyp with
  | none => false
  | some t => t = fType || env.assignable t fType

/-- The else-branch of the loop of `parseArgv` for a field with the given
`reflect` facts; `isInterface` is `kind == reflect.Interface`.  `field.Set*` panics
on a field that is not settable, which only a field of interface kind can be at
that point, and on a value that is not assignable to the field. -/
def fieldAction (env : Env) (args : Args) (isInterface : Bool) (info : FieldInfo) : Action :=
  let (fieldName, optional) := parseTag info.tag
  if fieldName.length = 0 then .skip
  else if !info.canInterface then .skip
  else if !isInterface && !info.canSet then .fail (ErrReadOnly fieldName)
  else
    match List.lookup fieldName args with
    | none => if !optional then .fail (ErrMissingValue fieldName) else .skip
    | some fValue =>
      match coerceAny env info.typ fValue with
      | none => .fail (ErrNotSupported fieldName)
      | some (.error err) => .fail (ErrInvalidValue fieldName err)
      | some (.ok a) =>
        if info.canSet && assignableTo env a.typ info.typ then .set a.val else .panic

/-- Carry out an action on a field whose kind is neither `reflect.Struct` nor
`reflect.Interface`: a struct value is not assignable to it, whatever the names of
the types, and `field.Set` panics. -/
def setLeaf (a : Action) (p : Prim) : Prim × Outcome :=
  match a with
  | .skip => (p, .nil)
  | .set (.prim q) => (q, .nil)
  | .set (.struct _) => (p, .panic)
  | .fail e => (p, .err e)
  | .panic => (p, .panic)

/-- Carry out an action on a field whose kind is `reflect.Struct`: a value that is
not a struct is not assignable to it, and `field.Set` panics. -/
def setSub (a : Action) (s : Struct) : Struct × Outcome :=
  match a with
  | .skip => (s, .nil)
  | .set (.struct t) => (t, .nil)
  | .set (.prim _) => (s, .panic)
  | .fail e => (s, .err e)
  | .panic => (s, .panic)

/-- Carry out an action on a field whose kind is `reflect.Interface`: it stores a
value of either sort. -/
def setInterface (a : Action) (cur : Val) : Val × Outcome :=
  match a with
  | .skip => (cur, .nil)
  | .set v => (v, .nil)
  | .fail e => (cur, .err e)
  | .panic => (cur, .panic)

/-- The field with the given facts holding the given value, before the fields
`rest`. -/
def fieldNode (info : FieldInfo) (v : Val) (rest : Struct) : Struct :=
  match v with
  | .prim p => .leaf info p rest
  | .struct t => .sub info t rest

/-- The `for` loop of `parseArgv` over the fields of a struct value, together with
the recursive call `parseArgv(v.Field(i).Addr().Interface(), args)` on a nested
struct (which starts with the `len(args) == 0` test; its destination is a non-nil
pointer to a struct).  `kind == reflect.Struct` holds for a `sub` field that is not
of interface kind.  `Addr().Interface()` panics on a field for which
`CanInterface()` is false.  Returns the struct value afterwards and the outcome. -/
def parseFields (env : Env) (args : Args) : Struct → Struct × Outcome
  | .nil => (.nil, .nil)
  | .leaf info v rest =>
    if info.kindInterface then
      match setInterface (fieldAction env args info.kindInterface info) (.prim v) with
      | (v', .nil) =>
        let r := parseFields env args rest
        (fieldNode info v' r.1, r.2)
      | (v', o) => (fieldNode info v' rest, o)
    else
      match setLeaf (fieldAction env args info.kindInterface info) v with
      | (v', .nil) =>
        let r := parseFields env args rest
        (.leaf info v' r.1, r.2)
      | (v', o) => (.leaf info v' rest, o)
  | .sub info inner rest =>
    if info.kindInterface then
      match setInterface (fieldAction env args info.kindInterface info) (.struct inner) with
      | (v', .nil) =>
        let r := parseFields env args rest
        (fieldNode info v' r.1, r.2)
      | (v', o) => (fieldNode info v' rest, o)
    else if !isReserved env info.typ then
      if !info.canInterface then (.sub info inner rest, .panic)
      else
        let ri := if args.length = 0 then (inner, Outcome.nil) else parseFields env args inner
        match ri with
        | (inner', .nil) =>
          let r := parseFields env args rest
          (.sub info inner' r.1, r.2)
        | (inner', o) => (.sub info inner' rest, o)
    else
      match setSub (fieldAction env args info.kindInterface info) inner with
      | (inner', .nil) =>
        let r := parseFields env args rest
        (.sub info inner' r.1, r.2)
      | (inner', o) => (.sub info inner' rest, o)

/-- Go's `parseArgv`: returns the destination afterwards and the outcome.
`t.Kind()` panics on the untyped nil; on a nil pointer to a struct `v.Elem()` is
the zero `Value`, on which `v.Field(i)` panics in the first iteration. -/
def parseArgv (env : Env) (dest : Dest) (args : Args) : Dest × Outcome :=
  if args.length = 0 then (dest, .nil)
  else
    match dest with
    | .untypedNil => (dest, .panic)
    | .notPtr => (dest, .err ErrInvalidDest)
    | .ptrNonStruct => (dest, .err ErrInvalidDestType)
    | .nilPtrStruct numField => if numField = 0 then (dest, .nil) else (dest, .panic)
    | .ptrStruct s =>
      let r := parseFields env args s
      (.ptrStruct r.1, r.2)

/-- Go's `ParseArgv`. -/
def ParseArgv (env : Env) (dest : Dest) (argv : List String) : Dest × Outcome :=
  if argv.length = 0 then (dest, .err ErrEmptyArgs)
  else
    match extractArgs argv with
    | .error err => (dest, .err err)
    | .ok args => parseArgv env dest args

/-! ## The name enumerator -/

/-- The `for` loop of `ParseNames` over the fields of a struct value, with the
recursive call on a nested struct (a `sub` field that is not of interface kind);
`none` is a panic of `Addr().Interface()`.  (The recursive call cannot return an
error: its destination is a pointer to a struct.) -/
def namesOfFields (env : Env) : Struct → Option (List String)
  | .nil => some []
  | .leaf info _ rest =>
    let fieldName := (parseTag info.tag).1
    if fieldName.length = 0 then namesOfFields env rest
    else if !info.canInterface then namesOfFields env rest
    else (namesOfFields env rest).map (fieldName :: ·)
  | .sub info inner rest =>
    if !info.kindInterface && !isReserved env info.typ then
      if !info.canInterface then none
      else
        match namesOfFields env inner with
        | none => none
        | some vals => (namesOfFields env rest).map (vals ++ ·)
    else
      let fieldName := (parseTag info.tag).1
      if fieldName.length = 0 then namesOfFields env rest
      else if !info.canInterface then namesOfFields env rest
      else (namesOfFields env rest).map (fieldName :: ·)

/-- The result of `ParseNames`: a list of names, an error, or a panic. -/
inductive NamesResult
  | names (l : List String)
  | err (e : Error)
  | panic
  deriving DecidableEq, Repr

/-- Go's `ParseNames`. -/
def ParseNames (env : Env) (dest : Dest) : NamesResult :=
  match dest with
  | .untypedNil => .panic
  | .notPtr => .err ErrInvalidDest
  | .ptrNonStruct => .err ErrInvalidDestType
  | .nilPtrStruct numField => if numField = 0 then .names [] else .panic
  | .ptrStruct s =>
    match namesOfFields env s with
    | some l => .names l
    | none => .panic

/-! ## The traversal order, as a specification -/

/-- One stop of the depth-first traversal in declaration order: a field that is
treated as a leaf, with its current value (a field that holds a struct is a leaf
when it is of interface kind or its type is reserved), or a nested struct that
cannot be entered because `Addr().Interface()` panics on it. -/
inductive Visit
  | field (info : FieldInfo) (v : Val)
  | blocked (info : FieldInfo) (inner : Struct)
  deriving DecidableEq, Repr

/-- The fields of a struct value in depth-first declaration order, nested
structs expanded in place. -/
def visits (env : Env) : Struct → List Visit
  | .nil => []
  | .leaf info p rest => .field info (.prim p) :: visits env rest
  | .sub info inner rest =>
    if info.kindInterface || isReserved env info.typ then
      .field info (.struct inner) :: visits env rest
    else if info.canInterface then visits env inner ++ visits env rest
    else .blocked info inner :: visits env rest

/-- What the mapper does at one stop of the traversal. -/
def visitAction (env : Env) (args : Args) : Visit → Action
  | .field info _ => fieldAction env args info.kindInterface info
  | .blocked _ _ => .panic

/-- The stop afterwards, and whether the traversal goes on (`Outcome.nil`). -/
def visitStep (env : Env) (args : Args) (x : Visit) : Visit × Outcome :=
  match x with
  | .field info cur =>
    if info.kindInterface then
      let r := setInterface (visitAction env args x) cur
      (.field info r.1, r.2)
    else
      match cur with
      | .prim p =>
        let r := setLeaf (visitAction env args x) p
        (.field info (.prim r.1), r.2)
      | .struct s =>
        let r := setSub (visitAction env args x) s
        (.field info (.struct r.1), r.2)
  | .blocked info inner => (.blocked info inner, .panic)

/-- Fail-fast processing of the stops in order: the first stop that does not go
on ends the run, and the later stops are left as they are. -/
def runVisits (env : Env) (args : Args) : List Visit → List Visit × Outcome
  | [] => ([], .nil)
  | x :: xs =>
    match visitStep env args x with
    | (x', .nil) =>
      let r := runVisits env args xs
      (x' :: r.1, r.2)
    | (x', o) => (x' :: xs, o)

/-- The prefix-stripped flag names of a token list, with the value paired to
each: the pairs `(strip_prefix(tokens[2i]), tokens[2i+1])`. -/
def tokenPairs : List String → List (String × String)
  | a :: b :: rest => (stripPrefix a, b) :: tokenPairs rest
  | _ => []

/-! ## Decimal literals, as a specification -/

/-- An ASCII decimal digit, `'0'` to `'9'`. -/
def isDigit (c : Char) : Bool := 48 ≤ c.toNat ∧ c.toNat ≤ 57

/-- The number written by a string of decimal digits after the number `n`
(Horner's rule). -/
def digitsFrom (n : Nat) (cs : List Char) : Nat :=
  cs.foldl (fun m c => 10 * m + (c.toNat - 48)) n

/-- The value of a well-formed unsigned base-10 literal: one or more decimal
digits, no sign. -/
def unsignedLiteral (s : String) : Option Nat :=
  if s.data ≠ [] ∧ s.data.all isDigit = true then some (digitsFrom 0 s.data) else none

/-- The value of a well-formed signed base-10 literal: an optional sign `+` or
`-`, then one or more decimal digits. -/
def signedLiteral (s : String) : Option Int :=
  match s.data with
  | '-' :: cs => Option.map (fun n : Nat => -(n : Int)) (unsignedLiteral ⟨cs⟩)
  | '+' :: cs => Option.map (fun n : Nat => (n : Int)) (unsignedLiteral ⟨cs⟩)
  | _ => Option.map (fun n : Nat => (n : Int)) (unsignedLiteral s)

/-- The `size` argument that the `switch fType` of `parseArgv` passes to `parseInt`
for a signed integer type. -/
def signedBits (fType : String) : Option Nat :=
  if fType = "int8" then some 8
  else if fType = "int" ∨ fType = "int32" then some 32
  else if fType = "int64" then some 64
  else none

/-- The `size` argument that the `switch fType` of `parseArgv` passes to
`parseUint` for an unsigned integer type. -/
def unsignedBits (fType : String) : Option Nat :=
  if fType = "byte" ∨ fType = "uint8" then some 8
  else if fType = "uint" ∨ fType = "uint32" then some 32
  else if fType = "uint64" then some 64
  else none

/-- The bit width of a Go integer type as declared, on a machine whose word has
`wordSize` bits: `int` and `uint` have the width of the machine word. -/
def declaredBits (wordSize : Nat) (fType : String) : Option Nat :=
  if fType = "int8" ∨ fType = "uint8" ∨ fType = "byte" then some 8
  else if fType = "int32" ∨ fType = "uint32" then some 32
  else if fType = "int64" ∨ fType = "uint64" then some 64
  else if fType = "int" ∨ fType = "uint" then some wordSize
  else none

/-- The truth value written by a boolean literal. -/
def boolLiteral (raw : String) : Option Bool :=
  if raw ∈ ["1", "t", "T", "TRUE", "true", "True"] then some true
  else if raw ∈ ["0", "f", "F", "FALSE", "false", "False"] then some false
  else none

/-- The value denoted by a literal for a field of type string, bool or integer,
when the literal is well formed and in the range the mapper gives the type
(`signedBits`, `unsignedBits`); a string denotes itself. -/
def literalValue (fType raw : String) : Option Prim :=
  if fType = "string" then some (.str raw)
  else if fType = "bool" then Option.map Prim.bool (boolLiteral raw)
  else
    match signedBits fType, unsignedBits fType with
    | some b, _ =>
      match signedLiteral raw with
      | some v =>
        if -((2 ^ (b - 1) : Nat) : Int) ≤ v ∧ v < ((2 ^ (b - 1) : Nat) : Int) then some (.int v)
        else none
      | none => none
    | none, some b =>
      match unsignedLiteral raw with
      | some v => if v < 2 ^ b then some (.uint v) else none
      | none => none
    | none, none => none

/-- A flat record: fields of non-struct kind only. -/
def flat : List (FieldInfo × Prim) → Struct
  | [] => .nil
  | (info, v) :: rest => .leaf info v (flat rest)

/-- What a passed stop looks like afterwards: a participating field whose
argument is present holds the coerced value, any other field its old value. -/
def PassedStop (env : Env) (args : Args) (y y' : Visit) : Prop :=
  ∃ info cur cur', y = .field info cur ∧ y' = .field info cur' ∧
    (∀ raw, (parseTag info.tag).1.length ≠ 0 → info.canInterface = true →
      List.lookup (parseTag info.tag).1 args = some raw →
      coerce env info.typ raw = some (.ok cur')) ∧
    (((parseTag info.tag).1.length = 0 ∨ info.canInterface = false ∨
      List.lookup (parseTag info.tag).1 args = none) → cur' = cur)

/-! ## Data for the examples -/

/-- The process state at start-up: `time.Time` is the only reserved type and no
parser is registered.  The examples have no field of type time or float; the two
library functions reject every input.  Every type implements the empty interface,
and the examples have no other two types of which one is assignable to the other. -/
def startEnv : Env :=
  { reservedFieldTypes := ["time.Time"]
    fieldParser := []
    mapTime := fun _ => .error (.other "time.Parse")
    parseFloat := fun _ _ => .error (.other "strconv.ParseFloat")
    assignable := fun _ f => decide (f = "interface {}") }

/-- An exported field of a type that is not an interface. -/
def exported (typ tag : String) : FieldInfo :=
  { typ := typ, tag := tag, kindInterface := false, canInterface := true, canSet := true }

/-- An unexported field of a type that is not an interface. -/
def unexported (typ tag : String) : FieldInfo :=
  { typ := typ, tag := tag, kindInterface := false, canInterface := false, canSet := false }

/-- The zero value of `ArgStructInt` of `argv_test.go`. -/
def ArgStructInt : Struct :=
  .leaf (exported "int8" "arg1") (.int 0)
    (.leaf (exported "int32" "arg2") (.int 0)
      (.leaf (exported "int" "arg3") (.int 0)
        (.leaf (exported "int64" "arg4") (.int 0) .nil)))

/-- The zero value of `CertInfo` of `examples/nested/main.go`, with its nested
`AlgorithmDetails`. -/
def CertInfo : Struct :=
  .leaf (exported "string" "CN") (.str "")
    (.leaf (exported "string" "OU") (.str "")
      (.leaf (exported "string" "O,optional") (.str "")
        (.sub (exported "main.AlgorithmDetails" "")
          (.leaf (exported "string" "alg") (.str "")
            (.leaf (exported "uint" "bits") (.uint 0) .nil))
          (.leaf (exported "uint32" "days") (.uint 0) .nil))))

/-! ## Further specification-level definitions -/

/-- The case labels of the `switch fType` of `parseArgv`: the built-in types. -/
def builtinTypes : List String :=
  ["time.Time", "bool", "byte", "uint8", "int8", "uint", "uint32", "uint64", "int", "int32",
    "int64", "float32", "float64", "string", "[]string"]

/-- The name that a field treated as a leaf contributes to the enumeration: its
tag name when that is non-empty and the field is accessible, otherwise nothing. -/
def leafName (info : FieldInfo) : List String :=
  if (parseTag info.tag).1.length ≠ 0 ∧ info.canInterface = true then [(parseTag info.tag).1]
  else []

/-- The enumeration of names in the words of the specification: the
concatenation, over the fields in declaration order, of the enumeration of a
nested record whose type is not reserved, and of the name of any other field. -/
def namesSpec (env : Env) : Struct → List String
  | .nil => []
  | .leaf info _ rest => leafName info ++ namesSpec env rest
  | .sub info inner rest =>
    (if info.kindInterface || isReserved env info.typ then leafName info
      else namesSpec env inner) ++ namesSpec env rest

/-- The name contributed by one stop of the traversal. -/
def visitName : Visit → Option String
  | .field info _ =>
    if (parseTag info.tag).1.length ≠ 0 ∧ info.canInterface = true then some (parseTag info.tag).1
    else none
  | .blocked _ _ => none

/-- A record that the traversal can enter everywhere: every nested struct (a field
of struct kind) whose type is not reserved is accessible (`CanInterface`), at every
depth. -/
def Enterable (env : Env) : Struct → Bool
  | .nil => true
  | .leaf _ _ rest => Enterable env rest
  | .sub info inner rest =>
    (info.kindInterface || isReserved env info.typ ||
      (info.canInterface && Enterable env inner)) && Enterable env rest

/-- A record with a nested struct in an unexported field, as in
`type limits struct { Max uint32 "argv:max" }` and
`type Config struct { Name string "argv:name"; lim limits }`. -/
def ConfigPrivate : Struct :=
  .leaf (exported "string" "name") (.str "")
    (.sub (unexported "main.limits" "")
      (.leaf (exported "uint32" "max") (.uint 0) .nil)
      .nil)

/-- What a stop looks like after a successful call when its field is tagged,
accessible and not optional: the flag is among the prefix-stripped flag names,
and the field holds the coercion of the value paired with the last such flag. -/
def SatisfiedStop (env : Env) (tokens : List String) (y y' : Visit) : Prop :=
  ∃ info cur cur', y = .field info cur ∧ y' = .field info cur' ∧
    ((parseTag info.tag).1.length ≠ 0 → info.canInterface = true →
      (parseTag info.tag).2 = false →
      (parseTag info.tag).1 ∈ (tokenPairs tokens).map Prod.fst ∧
      ∃ raw, List.lookup (parseTag info.tag).1 (tokenPairs tokens).reverse = some raw ∧
        coerce env info.typ raw = some (.ok cur'))

/-! ## Specification-level definitions: participation and idempotence -/

/-- Two values of the same sort: both structs, or neither. -/
def sameSort : Val → Val → Bool
  | .prim _, .prim _ => true
  | .struct _, .struct _ => true
  | _, _ => false

/-- The coercion for the field accepts the raw value: it returns a value and no
error, and the field can store the value, that is, the value is not the untyped
nil, its type is the type of the field or assignable to it, and it is a struct
exactly when the field holds one, unless the field is of interface kind. -/
def accepts (env : Env) (info : FieldInfo) (cur : Val) (raw : String) : Bool :=
  match coerceAny env info.typ raw with
  | some (.ok a) =>
    assignableTo env a.typ info.typ && (info.kindInterface || sameSort cur a.val)
  | _ => false

/-- The token list supplies the field of a stop: when the field participates
(non-empty tag name, accessible), the value paired with the last occurrence of
its flag exists and is accepted by the coercion of the field. -/
def stopSupplied (env : Env) (tokens : List String) : Visit → Bool
  | .field info cur =>
    if (parseTag info.tag).1.length ≠ 0 ∧ info.canInterface = true then
      match List.lookup (parseTag info.tag).1 (tokenPairs tokens).reverse with
      | some raw => accepts env info cur raw
      | none => false
    else true
  | .blocked _ _ => true

/-- The two answers of `reflect` agree at a stop: an accessible field
(`CanInterface`) is settable (`CanSet`), as for every field of a struct reached
through a pointer. -/
def stopWritable : Visit → Bool
  | .field info _ => !info.canInterface || info.canSet
  | .blocked _ _ => true

/-- What a stop looks like after a successful call: it is the same field, and
when the field has no tag name or its tag name is not a key of the argument
mapping it holds the value it held before. -/
def KeptStop (args : Args) (y y' : Visit) : Prop :=
  (∀ info cur, y = .field info cur →
    ∃ cur', y' = .field info cur' ∧
      (((parseTag info.tag).1.length = 0 ∨ List.lookup (parseTag info.tag).1 args = none) →
        cur' = cur)) ∧
  (∀ info inner, y = .blocked info inner → y' = y)

/-- The argument mapping of the tokens `CN x OU y alg rsa bits 2048 days 30`. -/
def certArgs : Args :=
  [("CN", "x"), ("OU", "y"), ("alg", "rsa"), ("bits", "2048"), ("days", "30")]

/-- The record `CertInfo` after a successful call with `certArgs`. -/
def CertInfoFilled : Struct :=
  .leaf (exported "string" "CN") (.str "x")
    (.leaf (exported "string" "OU") (.str "y")
      (.leaf (exported "string" "O,optional") (.str "")
        (.sub (exported "main.AlgorithmDetails" "")
          (.leaf (exported "string" "alg") (.str "rsa")
            (.leaf (exported "uint" "bits") (.uint 2048) .nil))
          (.leaf (exported "uint32" "days") (.uint 30) .nil))))

/-- The field number `i` of a struct value, as `v.Field(i)` with `t.Field(i)`: the
facts about the field and its value. -/
def Field : Struct → Nat → Option (FieldInfo × Val)
  | .nil, _ => none
  | .leaf info v _, 0 => some (info, .prim v)
  | .sub info inner _, 0 => some (info, .struct inner)
  | .leaf _ _ rest, i + 1 => Field rest i
  | .sub _ _ rest, i + 1 => Field rest i

/-- The zero value of `ArgStructString` of `argv_test.go`: the string is empty and
the slice is nil. -/
def ArgStructString : Struct :=
  .leaf (exported "string" "arg1") (.str "")
    (.leaf (exported "[]string" "arg2") (.strs .nil) .nil)

/-- An exported field of the empty interface type (`any`). -/
def exportedAny (tag : String) : FieldInfo :=
  { typ := "interface {}", tag := tag, kindInterface := true, canInterface := true,
    canSet := true }

/-- A registered parser that returns the `int16` value 7. -/
def sevenParser : FieldParser := fun _ => .ok ⟨some "int16", .prim (.int 7)⟩

/-- A registered parser that returns the string `oops`. -/
def oopsParser : FieldParser := fun _ => .ok ⟨some "string", .prim (.str "oops")⟩

/-- A registered parser that returns a struct value, of a type `main.Point` with
the fields `X` and `Y`. -/
def pointParser : FieldParser := fun _ =>
  .ok ⟨some "main.Point",
    .struct (.leaf (exported "int" "") (.int 1) (.leaf (exported "int" "") (.int 2) .nil))⟩

/-- A registered parser that returns the untyped nil. -/
def nilParser : FieldParser := fun _ => .ok ⟨none, .prim (.dyn "nil")⟩

/-- The process state after `AddParser("interface {}", pointParser)`. -/
def pointEnv : Env := AddParser startEnv "interface {}" pointParser

/-- The value of `main.Point` that `pointParser` returns. -/
def pointValue : Struct :=
  .leaf (exported "int" "") (.int 1) (.leaf (exported "int" "") (.int 2) .nil)

/-- The zero value of a record `struct { P any "argv:p"; N int "argv:n" }`: the
interface holds nil. -/
def AnyThenInt : Struct :=
  .leaf (exportedAny "p") (.dyn "nil") (.leaf (exported "int" "n") (.int 0) .nil)

/-- The error that a field produces, in the words of the specification.  A field
participates when its tag name is not empty and it is accessible.  A participating
field that is read-only (not settable, and not of interface kind) produces
`ReadOnly`; otherwise, when its name is not a key of the mapping, it produces
`MissingValue` unless it is optional; when its name is a key, it produces
`NotSupported` when there is no coercion for its type and `InvalidValue` when the
coercion rejects the raw value.  No other field produces an error. -/
def errorOf (env : Env) (args : Args) : Visit → Option Error
  | .field info _ =>
    if (parseTag info.tag).1.length = 0 ∨ info.canInterface = false then none
    else if info.kindInterface = false ∧ info.canSet = false then
      some (ErrReadOnly (parseTag info.tag).1)
    else
      match List.lookup (parseTag info.tag).1 args with
      | none =>
        if (parseTag info.tag).2 = true then none
        else some (ErrMissingValue (parseTag info.tag).1)
      | some raw =>
        match coerce env info.typ raw with
        | none => some (ErrNotSupported (parseTag info.tag).1)
        | some (.error c) => some (ErrInvalidValue (parseTag info.tag).1 c)
        | some (.ok _) => none
  | .blocked _ _ => none

/-! ## Lemmas: Go maps -/

theorem lookup_cons_eq {α : Type} (k a : String) (b : α) (es : List (String × α)) :
    List.lookup k ((a, b) :: es) = if k = a then some b else List.lookup k es := by
  by_cases h : k = a
  · simp [List.lookup, h]
  · have : (k == a) = false := by simpa using h
    simp [List.lookup, h, this]

theorem lookup_mapSet {α : Type} (m : List (String × α)) (k k' : String) (v : α) :
    List.lookup k (mapSet m k' v) = if k = k' then some v else List.lookup k m := by
  induction m with
  | nil => simp [mapSet, lookup_cons_eq]
  | cons p rest ih =>
    obtain ⟨k1, v1⟩ := p
    by_cases h1 : k1 = k'
    · subst h1
      by_cases h : k = k1 <;> simp [mapSet, lookup_cons_eq, h]
    · by_cases h : k = k'
      · subst h
        have : ¬ k = k1 := fun e => h1 e.symm
        simp [mapSet, lookup_cons_eq, h1, ih, this]
      · by_cases h2 : k = k1 <;> simp [mapSet, lookup_cons_eq, h1, h, ih, h2]

theorem keys_mapSet {α : Type} (m : List (String × α)) (k : String) (v : α) :
    (mapSet m k v).map Prod.fst =
      if k ∈ m.map Prod.fst then m.map Prod.fst else m.map Prod.fst ++ [k] := by
  induction m with
  | nil => simp [mapSet]
  | cons p rest ih =>
    obtain ⟨k1, v1⟩ := p
    by_cases h1 : k1 = k
    · simp [mapSet, h1]
    · have h1' : ¬ k = k1 := fun e => h1 e.symm
      by_cases h2 : k ∈ rest.map Prod.fst
      · simp only [mapSet, h1, if_false, List.map_cons, ih, h2, if_true, List.mem_cons, or_true]
      · simp only [mapSet, h1, if_false, List.map_cons, ih, h2, List.mem_cons, h1', or_self,
          List.cons_append]

theorem keys_mapSet_nodup {α : Type} (m : List (String × α)) (k : String) (v : α)
    (h : (m.map Prod.fst).Nodup) : ((mapSet m k v).map Prod.fst).Nodup := by
  rw [keys_mapSet]
  split
  · exact h
  · rename_i hk
    rw [List.nodup_append]
    refine ⟨h, List.nodup_singleton k, ?_⟩
    intro a ha hb
    simp at hb
    subst hb
    exact hk ha

theorem mem_keys_mapSet {α : Type} (m : List (String × α)) (k a : String) (v : α) :
    a ∈ (mapSet m k v).map Prod.fst ↔ a = k ∨ a ∈ m.map Prod.fst := by
  rw [keys_mapSet]
  split
  · rename_i hk
    constructor
    · intro h; exact Or.inr h
    · rintro (h | h)
      · rw [h]; exact hk
      · exact h
  · simp [List.mem_append, or_comm]

/-! ## Lemmas: the tokenizer -/

theorem lookup_append_eq {α : Type} (k : String) (l1 l2 : List (String × α)) :
    List.lookup k (l1 ++ l2) = (List.lookup k l1).orElse (fun _ => List.lookup k l2) := by
  induction l1 with
  | nil => simp
  | cons p rest ih =>
    obtain ⟨a, b⟩ := p
    by_cases h : k = a
    · simp [lookup_cons_eq, h]
    · simp [lookup_cons_eq, h, ih]

theorem lookup_extractLoop (n : Nat) : ∀ (t : List String), t.length ≤ n → ∀ (acc : Args) (k : String),
    List.lookup k (extractLoop t acc) =
      (List.lookup k (tokenPairs t).reverse).orElse (fun _ => List.lookup k acc) := by
  induction n with
  | zero =>
    intro t ht acc k
    have : t = [] := List.length_eq_zero.mp (Nat.le_zero.mp ht)
    subst this
    simp [extractLoop, tokenPairs]
  | succ n ih =>
    intro t ht acc k
    match t, ht with
    | [], _ => simp [extractLoop, tokenPairs]
    | [a], _ => simp [extractLoop, tokenPairs]
    | a :: b :: rest, ht =>
      have hr : rest.length ≤ n := by simp at ht; omega
      rw [extractLoop, ih rest hr, tokenPairs, List.reverse_cons, lookup_mapSet, lookup_append_eq]
      cases hl : List.lookup k (tokenPairs rest).reverse with
      | some v => simp
      | none =>
        by_cases h : k = stripPrefix a
        · simp [lookup_cons_eq, h]
        · simp [lookup_cons_eq, h]

theorem keys_extractLoop_nodup (n : Nat) : ∀ (t : List String), t.length ≤ n → ∀ (acc : Args),
    (acc.map Prod.fst).Nodup → ((extractLoop t acc).map Prod.fst).Nodup := by
  induction n with
  | zero =>
    intro t ht acc h
    have : t = [] := List.length_eq_zero.mp (Nat.le_zero.mp ht)
    subst this
    simpa [extractLoop] using h
  | succ n ih =>
    intro t ht acc h
    match t, ht with
    | [], _ => simpa [extractLoop] using h
    | [a], _ => simpa [extractLoop] using h
    | a :: b :: rest, ht =>
      have hr : rest.length ≤ n := by simp at ht; omega
      rw [extractLoop]
      exact ih rest hr _ (keys_mapSet_nodup acc _ _ h)

theorem mem_keys_extractLoop (n : Nat) : ∀ (t : List String), t.length ≤ n → ∀ (acc : Args) (k : String),
    k ∈ (extractLoop t acc).map Prod.fst ↔
      k ∈ (tokenPairs t).map Prod.fst ∨ k ∈ acc.map Prod.fst := by
  induction n with
  | zero =>
    intro t ht acc k
    have : t = [] := List.length_eq_zero.mp (Nat.le_zero.mp ht)
    subst this
    simp [extractLoop, tokenPairs]
  | succ n ih =>
    intro t ht acc k
    match t, ht with
    | [], _ => simp [extractLoop, tokenPairs]
    | [a], _ => simp [extractLoop, tokenPairs]
    | a :: b :: rest, ht =>
      have hr : rest.length ≤ n := by simp at ht; omega
      rw [extractLoop, ih rest hr, mem_keys_mapSet, tokenPairs]
      simp only [List.map_cons, List.mem_cons]
      tauto

theorem length_tokenPairs (n : Nat) : ∀ (t : List String), t.length ≤ n →
    (tokenPairs t).length = t.length / 2 := by
  induction n with
  | zero =>
    intro t ht
    have : t = [] := List.length_eq_zero.mp (Nat.le_zero.mp ht)
    subst this
    simp [tokenPairs]
  | succ n ih =>
    intro t ht
    match t, ht with
    | [], _ => simp [tokenPairs]
    | [a], _ => simp [tokenPairs]
    | a :: b :: rest, ht =>
      have hr : rest.length ≤ n := by simp at ht; omega
      rw [tokenPairs, List.length_cons, ih rest hr]
      simp only [List.length_cons]
      omega

theorem extractArgs_even (t : List String) (h : t.length % 2 = 0) :
    extractArgs t = .ok (extractLoop t []) := by
  simp [extractArgs, h]

theorem extractArgs_odd (t : List String) (h : t.length % 2 = 1) :
    extractArgs t = .error ErrInvalidParameterCount := by
  simp [extractArgs, h]

/-- The entries of the mapping built from an even-length token list are, up to
order, the distinct prefix-stripped flag names. -/
theorem keys_extractLoop_perm (t : List String) :
    ((extractLoop t []).map Prod.fst).Perm ((tokenPairs t).map Prod.fst).dedup := by
  apply (List.perm_ext_iff_of_nodup (keys_extractLoop_nodup _ t (le_refl _) [] (by simp))
    (List.nodup_dedup _)).2
  intro k
  rw [mem_keys_extractLoop _ t (le_refl _), List.mem_dedup]
  simp

theorem lookup_eq_none_of {α : Type} (k : String) (l : List (String × α)) :
    List.lookup k l = none ↔ ∀ p ∈ l, p.1 ≠ k := by
  induction l with
  | nil => simp
  | cons p rest ih =>
    obtain ⟨a, b⟩ := p
    by_cases h : k = a
    · subst h
      simp [lookup_cons_eq]
    · have h' : ¬ a = k := fun e => h e.symm
      simp [lookup_cons_eq, h, ih, h']

/-- Looking a key up in the reversed list finds the last entry for it. -/
theorem lookup_reverse_iff (k v : String) (l : List (String × String)) :
    List.lookup k l.reverse = some v ↔
      ∃ i : Nat, l[i]? = some (k, v) ∧
        ∀ (j : Nat) (p : String × String), i < j → l[j]? = some p → p.1 ≠ k := by
  induction l with
  | nil => simp
  | cons p rest ih =>
    obtain ⟨a, b⟩ := p
    rw [List.reverse_cons, lookup_append_eq]
    cases hl : List.lookup k rest.reverse with
    | some v' =>
      simp only [Option.orElse]
      constructor
      · intro hv
        rw [hv] at hl
        obtain ⟨i, hi, hlast⟩ := ih.mp hl
        refine ⟨i + 1, by simpa using hi, ?_⟩
        intro j p hj hp
        obtain ⟨j', rfl⟩ : ∃ j', j = j' + 1 := ⟨j - 1, by omega⟩
        exact hlast j' p (by omega) (by simpa using hp)
      · rintro ⟨i, hi, hlast⟩
        cases i with
        | zero =>
          exfalso
          have hnone : List.lookup k rest.reverse = none := by
            rw [lookup_eq_none_of]
            intro p hp
            obtain ⟨j, hj⟩ := List.mem_iff_getElem?.mp (List.mem_reverse.mp hp)
            exact hlast (j + 1) p (by omega) (by simpa using hj)
          rw [hnone] at hl
          cases hl
        | succ i =>
          have : List.lookup k rest.reverse = some v :=
            ih.mpr ⟨i, by simpa using hi, fun j p hj hp =>
              hlast (j + 1) p (by omega) (by simpa using hp)⟩
          rw [this] at hl
          exact hl.symm
    | none =>
      simp only [Option.orElse, lookup_cons_eq, List.lookup_nil]
      constructor
      · intro hv
        by_cases h : k = a
        · simp [h] at hv
          subst h; subst hv
          refine ⟨0, by simp, ?_⟩
          intro j p hj hp
          obtain ⟨j', rfl⟩ : ∃ j', j = j' + 1 := ⟨j - 1, by omega⟩
          have hp' : rest[j']? = some p := by simpa using hp
          exact (lookup_eq_none_of k rest.reverse).mp hl p
            (List.mem_reverse.mpr (List.mem_iff_getElem?.mpr ⟨j', hp'⟩))
        · simp [h] at hv
      · rintro ⟨i, hi, hlast⟩
        cases i with
        | zero =>
          simp at hi
          obtain ⟨rfl, rfl⟩ := hi
          simp
        | succ i =>
          exfalso
          have hi' : rest[i]? = some (k, v) := by simpa using hi
          exact (lookup_eq_none_of k rest.reverse).mp hl (k, v)
            (List.mem_reverse.mpr (List.mem_iff_getElem?.mpr ⟨i, hi'⟩)) rfl

/-- The `i`-th pair of a token list is made of the tokens `2i` and `2i+1`. -/
theorem tokenPairs_getElem? (n : Nat) : ∀ (t : List String), t.length ≤ n → ∀ (i : Nat) (p : String × String),
    (tokenPairs t)[i]? = some p ↔
      ∃ a, t[2 * i]? = some a ∧ t[2 * i + 1]? = some p.2 ∧ stripPrefix a = p.1 := by
  induction n with
  | zero =>
    intro t ht i p
    have : t = [] := List.length_eq_zero.mp (Nat.le_zero.mp ht)
    subst this
    simp [tokenPairs]
  | succ n ih =>
    intro t ht i p
    match t, ht with
    | [], _ => simp [tokenPairs]
    | [a], _ => simp [tokenPairs]
    | a :: b :: rest, ht =>
      have hr : rest.length ≤ n := by simp at ht; omega
      rw [tokenPairs]
      cases i with
      | zero =>
        obtain ⟨p1, p2⟩ := p
        simp
        constructor
        · rintro ⟨h1, h2⟩; exact ⟨h2, h1⟩
        · rintro ⟨h1, h2⟩; exact ⟨h2, h1⟩
      | succ i =>
        have e1 : 2 * (i + 1) = (2 * i) + 1 + 1 := by ring
        rw [e1]
        simp only [List.getElem?_cons_succ]
        exact ih rest hr i p

/-! ## Lemmas: the traversal -/

theorem runVisits_cons_nil (env : Env) (args : Args) (x x' : Visit) (xs : List Visit)
    (h : visitStep env args x = (x', .nil)) :
    runVisits env args (x :: xs) = (x' :: (runVisits env args xs).1, (runVisits env args xs).2) := by
  simp [runVisits, h]

theorem runVisits_cons_stop (env : Env) (args : Args) (x x' : Visit) (xs : List Visit) (o : Outcome)
    (h : visitStep env args x = (x', o)) (ho : o ≠ .nil) :
    runVisits env args (x :: xs) = (x' :: xs, o) := by
  cases o with
  | nil => exact absurd rfl ho
  | err e => simp [runVisits, h]
  | panic => simp [runVisits, h]

theorem runVisits_append_nil (env : Env) (args : Args) (l1 l1' l2 : List Visit)
    (h : runVisits env args l1 = (l1', .nil)) :
    runVisits env args (l1 ++ l2) = (l1' ++ (runVisits env args l2).1, (runVisits env args l2).2) := by
  induction l1 generalizing l1' with
  | nil =>
    simp [runVisits] at h
    subst h
    simp
  | cons x xs ih =>
    rcases hx : visitStep env args x with ⟨x', o⟩
    cases o with
    | nil =>
      rw [runVisits_cons_nil env args x x' xs hx] at h
      rw [List.cons_append, runVisits_cons_nil env args x x' _ hx]
      rcases hxs : runVisits env args xs with ⟨xs', o'⟩
      rw [hxs] at h
      simp only [Prod.mk.injEq] at h
      obtain ⟨h1, h2⟩ := h
      subst h1; subst h2
      rw [ih xs' hxs]
      simp
    | err e =>
      rw [runVisits_cons_stop env args x x' xs _ hx (by simp)] at h
      simp at h
    | panic =>
      rw [runVisits_cons_stop env args x x' xs _ hx (by simp)] at h
      simp at h

theorem runVisits_append_stop (env : Env) (args : Args) (l1 l1' l2 : List Visit) (o : Outcome)
    (h : runVisits env args l1 = (l1', o)) (ho : o ≠ .nil) :
    runVisits env args (l1 ++ l2) = (l1' ++ l2, o) := by
  induction l1 generalizing l1' with
  | nil =>
    simp [runVisits] at h
    exact absurd h.2.symm ho
  | cons x xs ih =>
    rcases hx : visitStep env args x with ⟨x', o1⟩
    cases o1 with
    | nil =>
      rw [runVisits_cons_nil env args x x' xs hx] at h
      rw [List.cons_append, runVisits_cons_nil env args x x' _ hx]
      rcases hxs : runVisits env args xs with ⟨xs', o'⟩
      rw [hxs] at h
      simp only [Prod.mk.injEq] at h
      obtain ⟨h1, h2⟩ := h
      subst h1; subst h2
      rw [ih xs' hxs]
      simp
    | err e =>
      rw [runVisits_cons_stop env args x x' xs _ hx (by simp)] at h
      rw [List.cons_append, runVisits_cons_stop env args x x' _ _ hx (by simp)]
      simp only [Prod.mk.injEq] at h
      obtain ⟨h1, h2⟩ := h
      subst h1; subst h2
      simp
    | panic =>
      rw [runVisits_cons_stop env args x x' xs _ hx (by simp)] at h
      rw [List.cons_append, runVisits_cons_stop env args x x' _ _ hx (by simp)]
      simp only [Prod.mk.injEq] at h
      obtain ⟨h1, h2⟩ := h
      subst h1; subst h2
      simp

/-- The stops of a field of interface kind followed by other fields. -/
theorem visits_fieldNode (env : Env) (info : FieldInfo) (v : Val) (rest : Struct)
    (hk : info.kindInterface = true) :
    visits env (fieldNode info v rest) = .field info v :: visits env rest := by
  cases v with
  | prim p => simp [fieldNode, visits]
  | struct t => simp [fieldNode, visits, hk]

/-- The loop of `parseArgv` refines the fail-fast run over the stops of the
traversal: same outcome, and the same values at every stop afterwards. -/
theorem parseFields_refines (env : Env) (args : Args) (hargs : args.length ≠ 0) (s : Struct) :
    visits env (parseFields env args s).1 = (runVisits env args (visits env s)).1 ∧
      (parseFields env args s).2 = (runVisits env args (visits env s)).2 := by
  induction s with
  | nil => simp [parseFields, visits, runVisits]
  | leaf info v rest ih =>
    by_cases hk : info.kindInterface = true
    · rcases hx : setInterface (fieldAction env args true info) (.prim v) with ⟨v', o⟩
      have hstep : visitStep env args (.field info (.prim v)) = (.field info v', o) := by
        simp [visitStep, visitAction, hk, hx]
      cases o with
      | nil =>
        rw [visits, runVisits_cons_nil env args _ _ _ hstep]
        simp [parseFields, hk, hx, visits_fieldNode, ih.1, ih.2]
      | err e =>
        rw [visits, runVisits_cons_stop env args _ _ _ _ hstep (by simp)]
        simp [parseFields, hk, hx, visits_fieldNode]
      | panic =>
        rw [visits, runVisits_cons_stop env args _ _ _ _ hstep (by simp)]
        simp [parseFields, hk, hx, visits_fieldNode]
    · have hk' : info.kindInterface = false := by simpa using hk
      rcases hx : setLeaf (fieldAction env args false info) v with ⟨v', o⟩
      have hstep : visitStep env args (.field info (.prim v)) = (.field info (.prim v'), o) := by
        simp [visitStep, visitAction, hk', hx]
      cases o with
      | nil =>
        rw [visits, runVisits_cons_nil env args _ _ _ hstep]
        simp [parseFields, hk', hx, visits, ih.1, ih.2]
      | err e =>
        rw [visits, runVisits_cons_stop env args _ _ _ _ hstep (by simp)]
        simp [parseFields, hk', hx, visits]
      | panic =>
        rw [visits, runVisits_cons_stop env args _ _ _ _ hstep (by simp)]
        simp [parseFields, hk', hx, visits]
  | sub info inner rest ihi ihr =>
    by_cases hk : info.kindInterface = true
    · rcases hx : setInterface (fieldAction env args true info) (.struct inner) with ⟨v', o⟩
      have hstep : visitStep env args (.field info (.struct inner)) = (.field info v', o) := by
        simp [visitStep, visitAction, hk, hx]
      have hv : visits env (.sub info inner rest) = .field info (.struct inner) :: visits env rest := by
        simp [visits, hk]
      cases o with
      | nil =>
        rw [hv, runVisits_cons_nil env args _ _ _ hstep]
        simp [parseFields, hk, hx, visits_fieldNode, ihr.1, ihr.2]
      | err e =>
        rw [hv, runVisits_cons_stop env args _ _ _ _ hstep (by simp)]
        simp [parseFields, hk, hx, visits_fieldNode]
      | panic =>
        rw [hv, runVisits_cons_stop env args _ _ _ _ hstep (by simp)]
        simp [parseFields, hk, hx, visits_fieldNode]
    · have hk' : info.kindInterface = false := by simpa using hk
      by_cases hres : isReserved env info.typ = true
      · rcases hx : setSub (fieldAction env args false info) inner with ⟨v', o⟩
        have hstep : visitStep env args (.field info (.struct inner)) =
            (.field info (.struct v'), o) := by
          simp [visitStep, visitAction, hk', hx]
        have hv : visits env (.sub info inner rest) =
            .field info (.struct inner) :: visits env rest := by
          simp [visits, hres]
        cases o with
        | nil =>
          rw [hv, runVisits_cons_nil env args _ _ _ hstep]
          simp [parseFields, hk', hx, visits, hres, ihr.1, ihr.2]
        | err e =>
          rw [hv, runVisits_cons_stop env args _ _ _ _ hstep (by simp)]
          simp [parseFields, hk', hx, visits, hres]
        | panic =>
          rw [hv, runVisits_cons_stop env args _ _ _ _ hstep (by simp)]
          simp [parseFields, hk', hx, visits, hres]
      · by_cases hci : info.canInterface = true
        · have hv : visits env (.sub info inner rest) = visits env inner ++ visits env rest := by
            simp [visits, hk', hres, hci]
          rcases hi : parseFields env args inner with ⟨inner', o⟩
          rw [hi] at ihi
          simp only at ihi
          obtain ⟨ihi1, ihi2⟩ := ihi
          have hri : runVisits env args (visits env inner) = (visits env inner', o) := by
            rw [ihi1, ihi2]
          cases o with
          | nil =>
            rw [hv, runVisits_append_nil env args _ _ _ hri]
            simp [parseFields, hk', hres, hci, hargs, hi, visits, ihr.1, ihr.2]
          | err e =>
            rw [hv, runVisits_append_stop env args _ _ _ _ hri (by simp)]
            simp [parseFields, hk', hres, hci, hargs, hi, visits]
          | panic =>
            rw [hv, runVisits_append_stop env args _ _ _ _ hri (by simp)]
            simp [parseFields, hk', hres, hci, hargs, hi, visits]
        · have hv : visits env (.sub info inner rest) = .blocked info inner :: visits env rest := by
            simp [visits, hk', hres, hci]
          have hstep : visitStep env args (.blocked info inner) = (.blocked info inner, .panic) := by
            simp [visitStep]
          rw [hv, runVisits_cons_stop env args _ _ _ _ hstep (by simp)]
          simp [parseFields, hk', hres, hci, visits]

/-! ## Lemmas: one field -/

theorem coerce_of_none (env : Env) (fType raw : String) (h : coerceAny env fType raw = none) :
    coerce env fType raw = none := by
  simp [coerce, h]

theorem coerce_of_error (env : Env) (fType raw : String) (c : Cause)
    (h : coerceAny env fType raw = some (.error c)) :
    coerce env fType raw = some (.error c) := by
  simp [coerce, h]

theorem coerce_of_ok (env : Env) (fType raw : String) (a : Any)
    (h : coerceAny env fType raw = some (.ok a)) :
    coerce env fType raw = some (.ok a.val) := by
  simp [coerce, h]

/-- Every way in which the else-branch returns an error. -/
theorem fieldAction_fail (env : Env) (args : Args) (b : Bool) (info : FieldInfo) (e : Error)
    (h : fieldAction env args b info = .fail e) :
    (parseTag info.tag).1.length ≠ 0 ∧ info.canInterface = true ∧
      ((b = false ∧ info.canSet = false ∧ e = ErrReadOnly (parseTag info.tag).1) ∨
       (List.lookup (parseTag info.tag).1 args = none ∧ (parseTag info.tag).2 = false ∧
          e = ErrMissingValue (parseTag info.tag).1) ∨
       (∃ raw, List.lookup (parseTag info.tag).1 args = some raw ∧
          coerce env info.typ raw = none ∧ e = ErrNotSupported (parseTag info.tag).1) ∨
       (∃ raw c, List.lookup (parseTag info.tag).1 args = some raw ∧
          coerce env info.typ raw = some (.error c) ∧ e = ErrInvalidValue (parseTag info.tag).1 c)) := by
  unfold fieldAction at h
  rcases ht : parseTag info.tag with ⟨n, opt⟩
  rw [ht] at h
  simp only at h
  split at h
  · cases h
  · rename_i hn
    split at h
    · cases h
    · rename_i hci
      refine ⟨hn, by simpa using hci, ?_⟩
      split at h
      · rename_i hro
        simp only [Bool.and_eq_true, Bool.not_eq_true'] at hro
        left
        injection h with h
        exact ⟨hro.1, hro.2, h.symm⟩
      · right
        split at h
        · rename_i hl
          split at h
          · injection h with h
            rename_i ho
            left
            exact ⟨hl, by simpa using ho, h.symm⟩
          · cases h
        · rename_i raw hl
          right
          split at h
          · rename_i hc
            injection h with h
            left
            exact ⟨raw, hl, coerce_of_none env _ _ hc, h.symm⟩
          · rename_i c hc
            injection h with h
            right
            exact ⟨raw, c, hl, coerce_of_error env _ _ _ hc, h.symm⟩
          · split at h <;> cases h

/-- The else-branch writes a value only when the argument is present and its
coercion yields that value. -/
theorem fieldAction_set (env : Env) (args : Args) (b : Bool) (info : FieldInfo) (v : Val)
    (h : fieldAction env args b info = .set v) :
    (parseTag info.tag).1.length ≠ 0 ∧ info.canInterface = true ∧ info.canSet = true ∧
      ∃ raw, List.lookup (parseTag info.tag).1 args = some raw ∧
        coerce env info.typ raw = some (.ok v) := by
  unfold fieldAction at h
  rcases ht : parseTag info.tag with ⟨n, opt⟩
  rw [ht] at h
  simp only at h
  split at h
  · cases h
  · rename_i hn
    split at h
    · cases h
    · rename_i hci
      split at h
      · cases h
      · split at h
        · split at h <;> cases h
        · rename_i raw hl
          split at h
          · cases h
          · cases h
          · rename_i v' hc
            split at h
            · rename_i hs
              injection h with h
              subst h
              simp only [Bool.and_eq_true] at hs
              exact ⟨hn, by simpa using hci, hs.1, raw, hl, coerce_of_ok env _ _ _ hc⟩
            · cases h

/-- The else-branch writes a value only when `field.Set` finds it assignable. -/
theorem fieldAction_set_any (env : Env) (args : Args) (b : Bool) (info : FieldInfo) (v : Val)
    (h : fieldAction env args b info = .set v) :
    ∃ raw a, List.lookup (parseTag info.tag).1 args = some raw ∧
      coerceAny env info.typ raw = some (.ok a) ∧ a.val = v ∧
      assignableTo env a.typ info.typ = true := by
  unfold fieldAction at h
  rcases ht : parseTag info.tag with ⟨n, opt⟩
  rw [ht] at h
  simp only at h
  split at h
  · cases h
  · split at h
    · cases h
    · split at h
      · cases h
      · split at h
        · split at h <;> cases h
        · rename_i raw hl
          split at h
          · cases h
          · cases h
          · rename_i v' hc
            split at h
            · rename_i hs
              injection h with h
              simp only [Bool.and_eq_true] at hs
              exact ⟨raw, v', hl, hc, h, hs.2⟩
            · cases h

/-- A participating field whose argument is present is not skipped. -/
theorem fieldAction_present (env : Env) (args : Args) (b : Bool) (info : FieldInfo) (raw : String)
    (hn : (parseTag info.tag).1.length ≠ 0) (hci : info.canInterface = true)
    (hl : List.lookup (parseTag info.tag).1 args = some raw) :
    fieldAction env args b info ≠ .skip := by
  unfold fieldAction
  rcases ht : parseTag info.tag with ⟨n, opt⟩
  rw [ht] at hn hl
  simp only at hn hl ⊢
  rw [if_neg hn, hl]
  simp only [hci, Bool.not_true, Bool.false_eq_true, if_false]
  split
  · simp
  · split
    · simp
    · simp
    · split <;> simp

/-- A required, accessible, writable field whose argument is absent fails with
`ErrMissingValue`; an optional one is skipped. -/
theorem fieldAction_absent (env : Env) (args : Args) (b : Bool) (info : FieldInfo)
    (hn : (parseTag info.tag).1.length ≠ 0) (hci : info.canInterface = true)
    (hcs : b = true ∨ info.canSet = true)
    (hl : List.lookup (parseTag info.tag).1 args = none) :
    fieldAction env args b info =
      if (parseTag info.tag).2 then .skip else .fail (ErrMissingValue (parseTag info.tag).1) := by
  unfold fieldAction
  rcases ht : parseTag info.tag with ⟨n, opt⟩
  rw [ht] at hn hl
  simp only at hn hl ⊢
  have hg : (!b && !info.canSet) = false := by
    rcases hcs with h | h <;> simp [h]
  rw [if_neg hn, hl]
  simp only [hci, hg, Bool.not_true, Bool.false_eq_true, if_false]
  cases opt <;> simp

/-! ## Lemmas: the fail-fast run -/

theorem visitStep_err (env : Env) (args : Args) (x x' : Visit) (e : Error)
    (h : visitStep env args x = (x', .err e)) :
    x' = x ∧ visitAction env args x = .fail e := by
  cases x with
  | blocked info inner => simp [visitStep] at h
  | field info cur =>
    by_cases hk : info.kindInterface = true
    · simp only [visitStep, hk, if_true] at h
      cases ha : visitAction env args (.field info cur) with
      | skip => rw [ha] at h; simp [setInterface] at h
      | set v => rw [ha] at h; simp [setInterface] at h
      | fail e' =>
        rw [ha] at h
        simp [setInterface] at h
        exact ⟨h.1.symm, by rw [h.2]⟩
      | panic => rw [ha] at h; simp [setInterface] at h
    · cases cur with
      | prim p =>
        simp only [visitStep, hk, if_false] at h
        cases ha : visitAction env args (.field info (.prim p)) with
        | skip => rw [ha] at h; simp [setLeaf] at h
        | set v => cases v <;> (rw [ha] at h; simp [setLeaf] at h)
        | fail e' =>
          rw [ha] at h
          simp [setLeaf] at h
          exact ⟨h.1.symm, by rw [h.2]⟩
        | panic => rw [ha] at h; simp [setLeaf] at h
      | struct s =>
        simp only [visitStep, hk, if_false] at h
        cases ha : visitAction env args (.field info (.struct s)) with
        | skip => rw [ha] at h; simp [setSub] at h
        | set v => cases v <;> (rw [ha] at h; simp [setSub] at h)
        | fail e' =>
          rw [ha] at h
          simp [setSub] at h
          exact ⟨h.1.symm, by rw [h.2]⟩
        | panic => rw [ha] at h; simp [setSub] at h

/-- A stop that lets the traversal go on is a field that is skipped (and keeps
its value) or a field that is written with the value of the action. -/
theorem visitStep_nil (env : Env) (args : Args) (x x' : Visit)
    (h : visitStep env args x = (x', .nil)) :
    (visitAction env args x = .skip ∧ x' = x) ∨
      (∃ info cur v, x = .field info cur ∧ visitAction env args x = .set v ∧
        x' = .field info v) := by
  cases x with
  | blocked info inner => simp [visitStep] at h
  | field info cur =>
    by_cases hk : info.kindInterface = true
    · simp only [visitStep, hk, if_true] at h
      cases ha : visitAction env args (.field info cur) with
      | skip =>
        rw [ha] at h; simp [setInterface] at h
        exact Or.inl ⟨rfl, h.symm⟩
      | set v =>
        rw [ha] at h; simp [setInterface] at h
        exact Or.inr ⟨info, cur, v, rfl, rfl, h.symm⟩
      | fail e' => rw [ha] at h; simp [setInterface] at h
      | panic => rw [ha] at h; simp [setInterface] at h
    · cases cur with
      | prim p =>
        simp only [visitStep, hk, if_false] at h
        cases ha : visitAction env args (.field info (.prim p)) with
        | skip =>
          rw [ha] at h; simp [setLeaf] at h
          exact Or.inl ⟨rfl, h.symm⟩
        | set v =>
          cases v with
          | prim q =>
            rw [ha] at h; simp [setLeaf] at h
            exact Or.inr ⟨info, .prim p, .prim q, rfl, rfl, h.symm⟩
          | struct t => rw [ha] at h; simp [setLeaf] at h
        | fail e' => rw [ha] at h; simp [setLeaf] at h
        | panic => rw [ha] at h; simp [setLeaf] at h
      | struct s =>
        simp only [visitStep, hk, if_false] at h
        cases ha : visitAction env args (.field info (.struct s)) with
        | skip =>
          rw [ha] at h; simp [setSub] at h
          exact Or.inl ⟨rfl, h.symm⟩
        | set v =>
          cases v with
          | prim q => rw [ha] at h; simp [setSub] at h
          | struct t =>
            rw [ha] at h; simp [setSub] at h
            exact Or.inr ⟨info, .struct s, .struct t, rfl, rfl, h.symm⟩
        | fail e' => rw [ha] at h; simp [setSub] at h
        | panic => rw [ha] at h; simp [setSub] at h

theorem visitStep_skip (env : Env) (args : Args) (x : Visit)
    (h : visitAction env args x = .skip) : visitStep env args x = (x, .nil) := by
  cases x with
  | blocked info inner => simp [visitAction] at h
  | field info cur =>
    by_cases hk : info.kindInterface = true
    · simp [visitStep, hk, h, setInterface]
    · cases cur with
      | prim p => simp [visitStep, hk, h, setLeaf]
      | struct s => simp [visitStep, hk, h, setSub]

theorem visitStep_fail (env : Env) (args : Args) (x : Visit) (e : Error)
    (h : visitAction env args x = .fail e) : visitStep env args x = (x, .err e) := by
  cases x with
  | blocked info inner => simp [visitAction] at h
  | field info cur =>
    by_cases hk : info.kindInterface = true
    · simp [visitStep, hk, h, setInterface]
    · cases cur with
      | prim p => simp [visitStep, hk, h, setLeaf]
      | struct s => simp [visitStep, hk, h, setSub]

/-- A run that returns an error stopped at the first stop that does not go on:
the stops before it were passed one by one, the failing stop and the stops after
it are as before. -/
theorem runVisits_err (env : Env) (args : Args) (l l' : List Visit) (e : Error)
    (h : runVisits env args l = (l', .err e)) :
    ∃ pre pre' x post, l = pre ++ x :: post ∧ l' = pre' ++ x :: post ∧
      List.Forall₂ (fun y y' => visitStep env args y = (y', .nil)) pre pre' ∧
      visitAction env args x = .fail e := by
  induction l generalizing l' with
  | nil => simp [runVisits] at h
  | cons x xs ih =>
    rcases hx : visitStep env args x with ⟨x', o⟩
    cases o with
    | nil =>
      rw [runVisits_cons_nil env args x x' xs hx] at h
      simp only [Prod.mk.injEq] at h
      obtain ⟨h1, h2⟩ := h
      obtain ⟨pre, pre', y, post, e1, e2, hf, ha⟩ :=
        ih (runVisits env args xs).1 (by rw [← h2])
      refine ⟨x :: pre, x' :: pre', y, post, by simp [e1], by simp [← h1, e2], ?_, ha⟩
      exact List.Forall₂.cons hx hf
    | err e' =>
      rw [runVisits_cons_stop env args x x' xs _ hx (by simp)] at h
      simp only [Prod.mk.injEq, Outcome.err.injEq] at h
      obtain ⟨h1, h2⟩ := h
      subst h2
      obtain ⟨hxx, ha⟩ := visitStep_err env args x x' e' hx
      subst hxx
      exact ⟨[], [], x', xs, by simp, by simp [← h1], List.Forall₂.nil, ha⟩
    | panic =>
      rw [runVisits_cons_stop env args x x' xs _ hx (by simp)] at h
      simp at h

/-- A run that succeeds passed every stop. -/
theorem runVisits_nil (env : Env) (args : Args) (l l' : List Visit)
    (h : runVisits env args l = (l', .nil)) :
    List.Forall₂ (fun y y' => visitStep env args y = (y', .nil)) l l' := by
  induction l generalizing l' with
  | nil =>
    simp [runVisits] at h
    subst h
    exact List.Forall₂.nil
  | cons x xs ih =>
    rcases hx : visitStep env args x with ⟨x', o⟩
    cases o with
    | nil =>
      rw [runVisits_cons_nil env args x x' xs hx] at h
      simp only [Prod.mk.injEq] at h
      obtain ⟨h1, h2⟩ := h
      subst h1
      exact List.Forall₂.cons hx (ih _ (by rw [← h2]))
    | err e' =>
      rw [runVisits_cons_stop env args x x' xs _ hx (by simp)] at h
      simp at h
    | panic =>
      rw [runVisits_cons_stop env args x x' xs _ hx (by simp)] at h
      simp at h

/-- When the stops before `x` are passed and `x` fails, the run returns the error
of `x`. -/
theorem runVisits_first_fail (env : Env) (args : Args) (pre post : List Visit) (x : Visit)
    (e : Error) (hpre : ∀ y ∈ pre, (visitStep env args y).2 = .nil)
    (hx : visitAction env args x = .fail e) :
    (runVisits env args (pre ++ x :: post)).2 = .err e := by
  induction pre with
  | nil =>
    rw [List.nil_append, runVisits_cons_stop env args x x post _ (visitStep_fail env args x e hx)
      (by simp)]
  | cons y ys ih =>
    have hy : visitStep env args y = ((visitStep env args y).1, .nil) := by
      rw [← hpre y (List.mem_cons_self _ _)]
    rw [List.cons_append, runVisits_cons_nil env args y _ _ hy]
    exact ih (fun z hz => hpre z (List.mem_cons_of_mem _ hz))

/-- A stop that is skipped keeps its place and its value, however the run ends. -/
theorem runVisits_skip_kept (env : Env) (args : Args) (pre post : List Visit) (x : Visit)
    (hx : visitAction env args x = .skip) :
    ∃ pre' post', (runVisits env args (pre ++ x :: post)).1 = pre' ++ x :: post' ∧
      pre'.length = pre.length := by
  induction pre with
  | nil =>
    rw [List.nil_append, runVisits_cons_nil env args x x post (visitStep_skip env args x hx)]
    exact ⟨[], _, rfl, rfl⟩
  | cons y ys ih =>
    obtain ⟨pre', post', h1, h2⟩ := ih
    rcases hy : visitStep env args y with ⟨y', o⟩
    cases o with
    | nil =>
      rw [List.cons_append, runVisits_cons_nil env args y y' _ hy]
      exact ⟨y' :: pre', post', by simp [h1], by simp [h2]⟩
    | err e =>
      rw [List.cons_append, runVisits_cons_stop env args y y' _ _ hy (by simp)]
      exact ⟨y' :: ys, post, by simp, by simp⟩
    | panic =>
      rw [List.cons_append, runVisits_cons_stop env args y y' _ _ hy (by simp)]
      exact ⟨y' :: ys, post, by simp, by simp⟩

/-- The loop of `parseArgv` returns `Error.field` errors only. -/
theorem runVisits_err_field (env : Env) (args : Args) (l l' : List Visit) (e : Error)
    (h : runVisits env args l = (l', .err e)) : ∃ fe, e = .field fe := by
  obtain ⟨pre, pre', x, post, -, -, -, ha⟩ := runVisits_err env args l l' e h
  cases x with
  | blocked info inner => simp [visitAction] at ha
  | field info cur =>
    have key : ∀ b, fieldAction env args b info = .fail e → ∃ fe, e = .field fe := by
      intro b hb
      obtain ⟨-, -, h | h | h | h⟩ := fieldAction_fail env args b info e hb
      · exact ⟨_, h.2.2⟩
      · exact ⟨_, h.2.2⟩
      · obtain ⟨raw, -, -, h⟩ := h; exact ⟨_, h⟩
      · obtain ⟨raw, c, -, -, h⟩ := h; exact ⟨_, h⟩
    exact key _ ha

theorem extractLoop_ne_nil (n : Nat) : ∀ (t : List String), t.length ≤ n → ∀ (acc : Args),
    acc.length ≠ 0 → (extractLoop t acc).length ≠ 0 := by
  induction n with
  | zero =>
    intro t ht acc h
    have : t = [] := List.length_eq_zero.mp (Nat.le_zero.mp ht)
    subst this
    simpa [extractLoop] using h
  | succ n ih =>
    intro t ht acc h
    match t, ht with
    | [], _ => simpa [extractLoop] using h
    | [a], _ => simpa [extractLoop] using h
    | a :: b :: rest, ht =>
      have hr : rest.length ≤ n := by simp at ht; omega
      rw [extractLoop]
      apply ih rest hr
      cases acc with
      | nil => simp [mapSet]
      | cons p ps =>
        simp only [mapSet]
        split <;> simp

/-- A non-empty token list of even length yields a non-empty mapping. -/
theorem extractLoop_nonempty (t : List String) (h0 : t.length ≠ 0) (h : t.length % 2 = 0) :
    (extractLoop t []).length ≠ 0 := by
  match t, h0, h with
  | [a], _, h => simp at h
  | a :: b :: rest, _, _ =>
    rw [extractLoop]
    exact extractLoop_ne_nil _ rest (le_refl _) _ (by simp [mapSet])

/-- `ParseArgv` on a record and a non-empty token list of even length is the loop
over the fields with the extracted mapping. -/
theorem ParseArgv_struct (env : Env) (s : Struct) (t : List String) (h0 : t.length ≠ 0)
    (h : t.length % 2 = 0) :
    ParseArgv env (.ptrStruct s) t =
      (.ptrStruct (parseFields env (extractLoop t []) s).1,
        (parseFields env (extractLoop t []) s).2) := by
  simp [ParseArgv, h0, extractArgs_even t h, parseArgv, extractLoop_nonempty t h0 h]

/-! ## Lemmas: `strconv` against decimal literals -/

theorem digitsFrom_cons (n : Nat) (c : Char) (cs : List Char) :
    digitsFrom n (c :: cs) = digitsFrom (10 * n + (c.toNat - 48)) cs := by
  simp [digitsFrom]

theorem le_digitsFrom (cs : List Char) : ∀ n, n ≤ digitsFrom n cs := by
  induction cs with
  | nil => intro n; simp [digitsFrom]
  | cons c cs ih =>
    intro n
    rw [digitsFrom_cons]
    exact le_trans (by omega) (ih _)

theorem cutoff10_eq : cutoff10 = 1844674407370955162 := by decide

/-- The digit loop of `ParseUint` succeeds exactly on strings of digits whose
value does not exceed `maxVal`, and then returns that value; otherwise it returns
a syntax error, or a range error together with `maxVal`. -/
theorem parseUintLoop_spec (s0 : String) (maxVal : Nat) (hmax : maxVal < 2 ^ 64) (cs : List Char) :
    ∀ n, n ≤ maxVal →
      (cs.all isDigit = true ∧ digitsFrom n cs ≤ maxVal →
        parseUintLoop s0 maxVal cs n = (digitsFrom n cs, none)) ∧
      (¬ (cs.all isDigit = true ∧ digitsFrom n cs ≤ maxVal) →
        parseUintLoop s0 maxVal cs n = (0, some (syntaxError "ParseUint" s0)) ∨
        parseUintLoop s0 maxVal cs n = (maxVal, some (rangeError "ParseUint" s0))) := by
  induction cs with
  | nil =>
    intro n hn
    refine ⟨fun _ => by simp [parseUintLoop, digitsFrom], fun h => ?_⟩
    exact absurd ⟨by simp, by simpa [digitsFrom] using hn⟩ h
  | cons c cs ih =>
    intro n hn
    have h64 : (2 : Nat) ^ 64 = 18446744073709551616 := by norm_num
    by_cases hd : 48 ≤ c.toNat ∧ c.toNat ≤ 57
    · have hdig : isDigit c = true := by simp [isDigit, hd]
      by_cases hc : n ≥ cutoff10
      · -- the next digit overflows `uint64`
        have hbig : maxVal < digitsFrom n (c :: cs) := by
          rw [digitsFrom_cons]
          refine lt_of_lt_of_le ?_ (le_digitsFrom cs _)
          rw [cutoff10_eq] at hc
          omega
        refine ⟨fun h => absurd h.2 (by omega), fun _ => Or.inr ?_⟩
        simp [parseUintLoop, hd, hc]
      · have hc' : n < 1844674407370955162 := by rw [cutoff10_eq] at hc; omega
        have e10 : (n * 10) % 2 ^ 64 = n * 10 := Nat.mod_eq_of_lt (by omega)
        by_cases hfit : 10 * n + (c.toNat - 48) ≤ maxVal
        · have e1 : (n * 10 + (c.toNat - 48)) % 2 ^ 64 = 10 * n + (c.toNat - 48) := by
            rw [Nat.mod_eq_of_lt (by omega)]; ring
          have hstep : parseUintLoop s0 maxVal (c :: cs) n =
              parseUintLoop s0 maxVal cs (10 * n + (c.toNat - 48)) := by
            rw [parseUintLoop]
            simp only [hd, and_self, if_true, hc, if_false, e10, e1]
            rw [if_neg (by omega)]
          rw [hstep, digitsFrom_cons]
          have := ih (10 * n + (c.toNat - 48)) hfit
          simpa [hdig] using this
        · have hbig : maxVal < digitsFrom n (c :: cs) := by
            rw [digitsFrom_cons]
            exact lt_of_lt_of_le (by omega) (le_digitsFrom cs _)
          refine ⟨fun h => absurd h.2 (by omega), fun _ => Or.inr ?_⟩
          rw [parseUintLoop]
          simp only [hd, and_self, if_true, hc, if_false, e10]
          rw [if_pos]
          by_cases hw : n * 10 + (c.toNat - 48) < 2 ^ 64
          · right
            rw [Nat.mod_eq_of_lt hw]
            omega
          · left
            have : (n * 10 + (c.toNat - 48)) % 2 ^ 64 = n * 10 + (c.toNat - 48) - 2 ^ 64 := by
              rw [Nat.mod_eq_sub_mod (by omega), Nat.mod_eq_of_lt (by omega)]
            rw [this]
            omega
    · have hdig : isDigit c = false := by simpa [isDigit] using hd
      refine ⟨fun h => ?_, fun _ => Or.inl ?_⟩
      · simp [hdig] at h
      · rw [parseUintLoop, if_neg hd]

/-- `ParseUint(s, 10, bitSize)` returns a value without error exactly when `s`
is a well-formed unsigned literal whose value is below `2^bitSize`. -/
theorem ParseUint_spec (s : String) (bitSize : Nat) (hb : bitSize ≤ 64) :
    (∀ v, unsignedLiteral s = some v → v < 2 ^ bitSize → ParseUint s bitSize = (v, none)) ∧
    ((¬ ∃ v, unsignedLiteral s = some v ∧ v < 2 ^ bitSize) →
      ParseUint s bitSize = (0, some (syntaxError "ParseUint" s)) ∨
      ParseUint s bitSize = (2 ^ bitSize - 1, some (rangeError "ParseUint" s))) := by
  have hpos : 0 < 2 ^ bitSize := Nat.pos_pow_of_pos _ (by norm_num)
  have hle : 2 ^ bitSize ≤ 2 ^ 64 := Nat.pow_le_pow_right (by norm_num) hb
  have hmax : 2 ^ bitSize - 1 < 2 ^ 64 := by omega
  have key := parseUintLoop_spec s (2 ^ bitSize - 1) hmax s.data 0 (Nat.zero_le _)
  by_cases hs : s = ""
  · subst hs
    refine ⟨fun v hv => ?_, fun _ => Or.inl ?_⟩
    · simp [unsignedLiteral] at hv
    · simp [ParseUint]
  · have hdata : s.data ≠ [] := by
      intro h
      apply hs
      cases s
      simp_all
    constructor
    · intro v hv hlt
      unfold unsignedLiteral at hv
      split at hv
      · rename_i hwf
        injection hv with hv
        subst hv
        simp only [ParseUint, hs, if_false]
        exact key.1 ⟨hwf.2, by omega⟩
      · cases hv
    · intro hno
      simp only [ParseUint, hs, if_false]
      apply key.2
      rintro ⟨hall, hval⟩
      exact hno ⟨digitsFrom 0 s.data, by simp [unsignedLiteral, hdata, hall], by omega⟩

theorem signedLiteral_minus (s : String) (cs : List Char) (h : s.data = '-' :: cs) :
    signedLiteral s = Option.map (fun n : Nat => -(n : Int)) (unsignedLiteral ⟨cs⟩) := by
  simp [signedLiteral, h]

theorem signedLiteral_plus (s : String) (cs : List Char) (h : s.data = '+' :: cs) :
    signedLiteral s = Option.map (fun n : Nat => (n : Int)) (unsignedLiteral ⟨cs⟩) := by
  simp [signedLiteral, h]

theorem signedLiteral_unsigned (s : String) (h1 : ∀ cs, s.data ≠ '-' :: cs)
    (h2 : ∀ cs, s.data ≠ '+' :: cs) :
    signedLiteral s = Option.map (fun n : Nat => (n : Int)) (unsignedLiteral s) := by
  unfold signedLiteral
  split
  · rename_i cs h; exact absurd h (h1 cs)
  · rename_i cs h; exact absurd h (h2 cs)
  · rfl

/-- `ParseInt` after the sign is picked off, by the result of `ParseUint` on the
rest. -/
theorem ParseInt_of_ParseUint (s : String) (c : Char) (cs : List Char) (bitSize : Nat)
    (h : s.data = c :: cs) (un : Nat) (r : Option NumError)
    (hu : ParseUint ⟨if c = '+' ∨ c = '-' then cs else c :: cs⟩ bitSize = (un, r))
    (hr : r = none ∨ r = some (rangeError "ParseUint" ⟨if c = '+' ∨ c = '-' then cs else c :: cs⟩)) :
    ParseInt s bitSize =
      if decide (c = '-') = false ∧ un ≥ 2 ^ (bitSize - 1) then
        (((2 ^ (bitSize - 1) : Nat) : Int) - 1, some (rangeError "ParseInt" s))
      else if decide (c = '-') = true ∧ un > 2 ^ (bitSize - 1) then
        (-((2 ^ (bitSize - 1) : Nat) : Int), some (rangeError "ParseInt" s))
      else (if decide (c = '-') then -(un : Int) else (un : Int), none) := by
  unfold ParseInt
  rw [h]
  simp only
  rw [hu]
  rcases hr with hr | hr <;> subst hr <;> simp [rangeError]

theorem ParseInt_of_syntax (s : String) (c : Char) (cs : List Char) (bitSize : Nat)
    (h : s.data = c :: cs)
    (hu : ParseUint ⟨if c = '+' ∨ c = '-' then cs else c :: cs⟩ bitSize =
      (0, some (syntaxError "ParseUint" ⟨if c = '+' ∨ c = '-' then cs else c :: cs⟩))) :
    ParseInt s bitSize = (0, some (syntaxError "ParseInt" s)) := by
  unfold ParseInt
  rw [h]
  simp only
  rw [hu]
  simp [syntaxError]

theorem ParseInt_neg (s : String) (cs : List Char) (bitSize : Nat)
    (h : s.data = '-' :: cs) (un : Nat) (r : Option NumError)
    (hu : ParseUint ⟨cs⟩ bitSize = (un, r))
    (hr : r = none ∨ r = some (rangeError "ParseUint" ⟨cs⟩)) :
    ParseInt s bitSize =
      if un > 2 ^ (bitSize - 1) then
        (-((2 ^ (bitSize - 1) : Nat) : Int), some (rangeError "ParseInt" s))
      else (-(un : Int), none) := by
  rw [ParseInt_of_ParseUint s '-' cs bitSize h un r (by simpa using hu) (by simpa using hr)]
  simp

theorem ParseInt_pos (s : String) (c : Char) (cs : List Char) (bitSize : Nat)
    (h : s.data = c :: cs) (hc : c ≠ '-') (un : Nat) (r : Option NumError)
    (hu : ParseUint ⟨if c = '+' ∨ c = '-' then cs else c :: cs⟩ bitSize = (un, r))
    (hr : r = none ∨ r = some (rangeError "ParseUint" ⟨if c = '+' ∨ c = '-' then cs else c :: cs⟩)) :
    ParseInt s bitSize =
      if un ≥ 2 ^ (bitSize - 1) then
        (((2 ^ (bitSize - 1) : Nat) : Int) - 1, some (rangeError "ParseInt" s))
      else ((un : Int), none) := by
  rw [ParseInt_of_ParseUint s c cs bitSize h un r hu hr]
  simp [hc]

/-- `ParseInt(s, 10, bitSize)` returns a value without error exactly when `s` is
a well-formed signed literal whose value lies in `[-2^(bitSize-1), 2^(bitSize-1))`,
and then returns that value. -/
theorem ParseInt_spec (s : String) (bitSize : Nat) (hb2 : 2 ≤ bitSize) (hb : bitSize ≤ 64) :
    (∀ v : Int, signedLiteral s = some v → -((2 ^ (bitSize - 1) : Nat) : Int) ≤ v →
        v < ((2 ^ (bitSize - 1) : Nat) : Int) → ParseInt s bitSize = (v, none)) ∧
    ((¬ ∃ v : Int, signedLiteral s = some v ∧ -((2 ^ (bitSize - 1) : Nat) : Int) ≤ v ∧
        v < ((2 ^ (bitSize - 1) : Nat) : Int)) →
      ∃ w e, ParseInt s bitSize = (w, some e)) := by
  have hP : 2 ^ bitSize = 2 * 2 ^ (bitSize - 1) := by
    obtain ⟨k, rfl⟩ : ∃ k, bitSize = k + 1 := ⟨bitSize - 1, by omega⟩
    simp [pow_succ, mul_comm]
  have hP2 : 2 ≤ 2 ^ (bitSize - 1) := by
    obtain ⟨k, rfl⟩ : ∃ k, bitSize = k + 2 := ⟨bitSize - 2, by omega⟩
    have : 1 ≤ 2 ^ k := Nat.one_le_two_pow
    simp [pow_succ]
    omega
  cases hdata : s.data with
  | nil =>
    have hlit : signedLiteral s = none := by
      rw [signedLiteral_unsigned s (by simp [hdata]) (by simp [hdata])]
      simp [unsignedLiteral, hdata]
    refine ⟨fun v hv => ?_, fun _ => ⟨0, syntaxError "ParseInt" s, ?_⟩⟩
    · rw [hlit] at hv; cases hv
    · simp [ParseInt, hdata]
  | cons c cs =>
    by_cases hm : c = '-'
    · subst hm
      have hlit := signedLiteral_minus s cs hdata
      have key := ParseUint_spec ⟨cs⟩ bitSize hb
      by_cases hin : ∃ u, unsignedLiteral ⟨cs⟩ = some u ∧ u < 2 ^ bitSize
      · obtain ⟨u, hu, hult⟩ := hin
        have hpi := ParseInt_neg s cs bitSize hdata u none (key.1 u hu hult) (Or.inl rfl)
        rw [hu] at hlit
        simp only [Option.map_some'] at hlit
        constructor
        · intro v hv hlo hhi
          rw [hlit] at hv
          injection hv with hv
          subst hv
          rw [hpi, if_neg (by omega)]
        · intro hno
          rw [hpi]
          by_cases hgt : u > 2 ^ (bitSize - 1)
          · exact ⟨_, _, by rw [if_pos hgt]⟩
          · exact absurd ⟨-(u : Int), hlit, by omega, by omega⟩ hno
      · have hnone : ¬ ∃ v : Int, signedLiteral s = some v ∧
            -((2 ^ (bitSize - 1) : Nat) : Int) ≤ v ∧ v < ((2 ^ (bitSize - 1) : Nat) : Int) := by
          rintro ⟨v, hv, hlo, hhi⟩
          rw [hlit] at hv
          cases hu : unsignedLiteral ⟨cs⟩ with
          | none => rw [hu] at hv; simp at hv
          | some u =>
            rw [hu] at hv
            simp only [Option.map_some', Option.some.injEq] at hv
            have hbig : ¬ u < 2 ^ bitSize := fun h => hin ⟨u, hu, h⟩
            omega
        refine ⟨fun v hv hlo hhi => absurd ⟨v, hv, hlo, hhi⟩ hnone, fun _ => ?_⟩
        rcases key.2 hin with hsyn | hrng
        · exact ⟨0, _, ParseInt_of_syntax s '-' cs bitSize hdata (by simpa using hsyn)⟩
        · rw [ParseInt_neg s cs bitSize hdata _ _ hrng (Or.inr rfl)]
          exact ⟨_, _, by rw [if_pos (by omega)]⟩
    · -- no minus sign: the literal after an optional plus sign
      obtain ⟨B, hB, hlit⟩ : ∃ B : List Char, B = (if c = '+' ∨ c = '-' then cs else c :: cs) ∧
          signedLiteral s = Option.map (fun n : Nat => (n : Int)) (unsignedLiteral ⟨B⟩) := by
        refine ⟨_, rfl, ?_⟩
        by_cases hp : c = '+'
        · subst hp
          rw [signedLiteral_plus s cs hdata]
          simp
        · rw [signedLiteral_unsigned s (by simp [hdata, hm]) (by simp [hdata, hp])]
          simp only [hm, hp, or_self, if_false]
          have : (⟨c :: cs⟩ : String) = s := by rw [← hdata]
          rw [this]
      have key := ParseUint_spec ⟨B⟩ bitSize hb
      by_cases hin : ∃ u, unsignedLiteral ⟨B⟩ = some u ∧ u < 2 ^ bitSize
      · obtain ⟨u, hu, hult⟩ := hin
        have hpi := ParseInt_pos s c cs bitSize hdata hm u none
          (by rw [← hB]; exact key.1 u hu hult) (Or.inl rfl)
        rw [hu] at hlit
        simp only [Option.map_some'] at hlit
        constructor
        · intro v hv hlo hhi
          rw [hlit] at hv
          injection hv with hv
          subst hv
          rw [hpi, if_neg (by omega)]
        · intro hno
          rw [hpi]
          by_cases hge : u ≥ 2 ^ (bitSize - 1)
          · exact ⟨_, _, by rw [if_pos hge]⟩
          · exact absurd ⟨(u : Int), hlit, by omega, by omega⟩ hno
      · have hnone : ¬ ∃ v : Int, signedLiteral s = some v ∧
            -((2 ^ (bitSize - 1) : Nat) : Int) ≤ v ∧ v < ((2 ^ (bitSize - 1) : Nat) : Int) := by
          rintro ⟨v, hv, hlo, hhi⟩
          rw [hlit] at hv
          cases hu : unsignedLiteral ⟨B⟩ with
          | none => rw [hu] at hv; simp at hv
          | some u =>
            rw [hu] at hv
            simp only [Option.map_some', Option.some.injEq] at hv
            have hbig : ¬ u < 2 ^ bitSize := fun h => hin ⟨u, hu, h⟩
            omega
        refine ⟨fun v hv hlo hhi => absurd ⟨v, hv, hlo, hhi⟩ hnone, fun _ => ?_⟩
        rcases key.2 hin with hsyn | hrng
        · exact ⟨0, _, ParseInt_of_syntax s c cs bitSize hdata (by rw [← hB]; exact hsyn)⟩
        · have hpi := ParseInt_pos s c cs bitSize hdata hm (2 ^ bitSize - 1)
            (some (rangeError "ParseUint" ⟨B⟩)) (by rw [← hB]; exact hrng) (Or.inr (by rw [← hB]))
          rw [hpi]
          exact ⟨_, _, by rw [if_pos (by omega)]⟩

/-! ## Lemmas: coercions -/

/-- The coercion of a signed integer type is `parseInt` at the width of
`signedBits`. -/
theorem coerce_signed (env : Env) (fType raw : String) (b : Nat) (h : signedBits fType = some b) :
    coerce env fType raw =
      match parseInt raw b with
      | (v, none) => some (.ok (.prim (.int v)))
      | (_, some err) => some (.error (.num err)) := by
  unfold signedBits at h
  split at h
  · rename_i ht
    injection h with h
    subst h; subst ht
    rcases hp : parseInt raw 8 with ⟨v, _ | e⟩ <;> simp [coerce, coerceAny, hp]
  · split at h
    · rename_i ht
      injection h with h
      subst h
      rcases ht with ht | ht <;> subst ht <;>
        (rcases hp : parseInt raw 32 with ⟨v, _ | e⟩ <;> simp [coerce, coerceAny, hp])
    · split at h
      · rename_i ht
        injection h with h
        subst h; subst ht
        rcases hp : parseInt raw 64 with ⟨v, _ | e⟩ <;> simp [coerce, coerceAny, hp]
      · cases h

/-- The coercion of an unsigned integer type is `parseUint` at the width of
`unsignedBits`. -/
theorem coerce_unsigned (env : Env) (fType raw : String) (b : Nat)
    (h : unsignedBits fType = some b) :
    coerce env fType raw =
      match parseUint raw b with
      | (v, none) => some (.ok (.prim (.uint v)))
      | (_, some err) => some (.error (.num err)) := by
  unfold unsignedBits at h
  split at h
  · rename_i ht
    injection h with h
    subst h
    rcases ht with ht | ht <;> subst ht <;>
      (rcases hp : parseUint raw 8 with ⟨v, _ | e⟩ <;> simp [coerce, coerceAny, hp])
  · split at h
    · rename_i ht
      injection h with h
      subst h
      rcases ht with ht | ht <;> subst ht <;>
        (rcases hp : parseUint raw 32 with ⟨v, _ | e⟩ <;> simp [coerce, coerceAny, hp])
    · split at h
      · rename_i ht
        injection h with h
        subst h; subst ht
        rcases hp : parseUint raw 64 with ⟨v, _ | e⟩ <;> simp [coerce, coerceAny, hp]
      · cases h

theorem signedBits_bounds (fType : String) (b : Nat) (h : signedBits fType = some b) :
    2 ≤ b ∧ b ≤ 64 := by
  unfold signedBits at h
  split at h
  · injection h with h; omega
  · split at h
    · injection h with h; omega
    · split at h
      · injection h with h; omega
      · cases h

theorem unsignedBits_bounds (fType : String) (b : Nat) (h : unsignedBits fType = some b) :
    b ≤ 64 := by
  unfold unsignedBits at h
  split at h
  · injection h with h; omega
  · split at h
    · injection h with h; omega
    · split at h
      · injection h with h; omega
      · cases h

/-- The coercion of a signed integer type succeeds, with the value of the literal,
exactly on the well-formed signed literals in the range of `signedBits`. -/
theorem coerce_signed_spec (env : Env) (fType raw : String) (b : Nat)
    (h : signedBits fType = some b) :
    (∀ v : Int, coerce env fType raw = some (.ok (.prim (.int v))) ↔
      (signedLiteral raw = some v ∧ -((2 ^ (b - 1) : Nat) : Int) ≤ v ∧
        v < ((2 ^ (b - 1) : Nat) : Int))) ∧
    ((¬ ∃ v : Int, signedLiteral raw = some v ∧ -((2 ^ (b - 1) : Nat) : Int) ≤ v ∧
        v < ((2 ^ (b - 1) : Nat) : Int)) →
      ∃ c, coerce env fType raw = some (.error c)) := by
  obtain ⟨hb2, hb⟩ := signedBits_bounds fType b h
  obtain ⟨hok, hbad⟩ := ParseInt_spec raw b hb2 hb
  rw [coerce_signed env fType raw b h]
  by_cases hin : ∃ v : Int, signedLiteral raw = some v ∧ -((2 ^ (b - 1) : Nat) : Int) ≤ v ∧
      v < ((2 ^ (b - 1) : Nat) : Int)
  · obtain ⟨v, hv, hlo, hhi⟩ := hin
    have hp : parseInt raw b = (v, none) := hok v hv hlo hhi
    rw [hp]
    refine ⟨fun w => ⟨fun hw => ?_, fun hw => ?_⟩, fun hno => absurd ⟨v, hv, hlo, hhi⟩ hno⟩
    · simp only [Option.some.injEq, Except.ok.injEq, Val.prim.injEq, Prim.int.injEq] at hw
      subst hw
      exact ⟨hv, hlo, hhi⟩
    · rw [hv] at hw
      injection hw.1 with hw'
      simp [hw']
  · obtain ⟨w, e, hp⟩ := hbad hin
    have hp' : parseInt raw b = (w, some e) := hp
    rw [hp']
    refine ⟨fun v => ⟨fun hv => ?_, fun hv => absurd ⟨v, hv⟩ hin⟩, fun _ => ⟨_, rfl⟩⟩
    simp at hv

/-- The coercion of an unsigned integer type succeeds, with the value of the
literal, exactly on the well-formed unsigned literals below `2^unsignedBits`. -/
theorem coerce_unsigned_spec (env : Env) (fType raw : String) (b : Nat)
    (h : unsignedBits fType = some b) :
    (∀ v : Nat, coerce env fType raw = some (.ok (.prim (.uint v))) ↔
      (unsignedLiteral raw = some v ∧ v < 2 ^ b)) ∧
    ((¬ ∃ v : Nat, unsignedLiteral raw = some v ∧ v < 2 ^ b) →
      ∃ c, coerce env fType raw = some (.error c)) := by
  have hb := unsignedBits_bounds fType b h
  obtain ⟨hok, hbad⟩ := ParseUint_spec raw b hb
  rw [coerce_unsigned env fType raw b h]
  by_cases hin : ∃ v : Nat, unsignedLiteral raw = some v ∧ v < 2 ^ b
  · obtain ⟨v, hv, hlt⟩ := hin
    have hp : parseUint raw b = (v, none) := hok v hv hlt
    rw [hp]
    refine ⟨fun w => ⟨fun hw => ?_, fun hw => ?_⟩, fun hno => absurd ⟨v, hv, hlt⟩ hno⟩
    · simp only [Option.some.injEq, Except.ok.injEq, Val.prim.injEq, Prim.uint.injEq] at hw
      subst hw
      exact ⟨hv, hlt⟩
    · rw [hv] at hw
      injection hw.1 with hw'
      simp [hw']
  · have hp : (∃ e, parseUint raw b = (0, some e)) ∨ (∃ e, parseUint raw b = (2 ^ b - 1, some e)) := by
      rcases hbad hin with h1 | h1
      · exact Or.inl ⟨_, h1⟩
      · exact Or.inr ⟨_, h1⟩
    refine ⟨fun v => ⟨fun hv => ?_, fun hv => absurd ⟨v, hv⟩ hin⟩, fun _ => ?_⟩
    · rcases hp with ⟨e, hp⟩ | ⟨e, hp⟩ <;> (rw [hp] at hv; simp at hv)
    · rcases hp with ⟨e, hp⟩ | ⟨e, hp⟩ <;> (rw [hp]; exact ⟨_, rfl⟩)

/-- The else-branch for a participating, writable field whose argument is
present: the outcome of the coercion decides, and then the test of `field.Set`. -/
theorem fieldAction_present_any (env : Env) (args : Args) (b : Bool) (info : FieldInfo)
    (raw : String) (hn : (parseTag info.tag).1.length ≠ 0) (hci : info.canInterface = true)
    (hcs : info.canSet = true) (hl : List.lookup (parseTag info.tag).1 args = some raw) :
    fieldAction env args b info =
      match coerceAny env info.typ raw with
      | none => .fail (ErrNotSupported (parseTag info.tag).1)
      | some (.error err) => .fail (ErrInvalidValue (parseTag info.tag).1 err)
      | some (.ok a) => if assignableTo env a.typ info.typ then .set a.val else .panic := by
  unfold fieldAction
  rcases ht : parseTag info.tag with ⟨n, opt⟩
  rw [ht] at hn hl
  simp only at hn hl ⊢
  rw [if_neg hn, hl]
  simp only [hci, hcs, Bool.not_true, Bool.false_eq_true, if_false, Bool.and_false,
    Bool.true_and]

/-- A value that the `switch` makes for a built-in type has the type of the
field. -/
theorem coerceAny_builtin_typ (env : Env) (fType raw : String) (a : Any)
    (hb : fType ∈ builtinTypes) (h : coerceAny env fType raw = some (.ok a)) :
    a.typ = some fType := by
  simp only [builtinTypes, List.mem_cons, List.mem_singleton, List.not_mem_nil, or_false] at hb
  rcases hb with rfl | rfl | rfl | rfl | rfl | rfl | rfl | rfl | rfl | rfl | rfl | rfl | rfl |
    rfl | rfl
  all_goals (simp [coerceAny] at h)
  all_goals first
    | (rw [← h])
    | (split at h <;> first
        | (simp only [Option.some.injEq, Except.ok.injEq] at h; rw [← h])
        | (simp at h))

/-- For a field of a built-in type the test of `field.Set` is vacuous: the outcome
of the coercion decides. -/
theorem fieldAction_present_eq (env : Env) (args : Args) (b : Bool) (info : FieldInfo)
    (raw : String) (hn : (parseTag info.tag).1.length ≠ 0) (hci : info.canInterface = true)
    (hcs : info.canSet = true) (hl : List.lookup (parseTag info.tag).1 args = some raw)
    (hb : info.typ ∈ builtinTypes) :
    fieldAction env args b info =
      match coerce env info.typ raw with
      | none => .fail (ErrNotSupported (parseTag info.tag).1)
      | some (.error err) => .fail (ErrInvalidValue (parseTag info.tag).1 err)
      | some (.ok v) => .set v := by
  rw [fieldAction_present_any env args b info raw hn hci hcs hl]
  cases hc : coerceAny env info.typ raw with
  | none => simp [coerce, hc]
  | some r =>
    cases r with
    | error c => simp [coerce, hc]
    | ok a =>
      have ht := coerceAny_builtin_typ env info.typ raw a hb hc
      simp [coerce, hc, ht, assignableTo]

theorem signedBits_builtin (fType : String) (b : Nat) (h : signedBits fType = some b) :
    fType ∈ builtinTypes := by
  unfold signedBits at h
  repeat' split at h
  all_goals first
    | (rename_i ht; rcases ht with ht | ht <;> subst ht <;> decide)
    | (rename_i ht; subst ht; decide)
    | cases h

theorem unsignedBits_builtin (fType : String) (b : Nat) (h : unsignedBits fType = some b) :
    fType ∈ builtinTypes := by
  unfold unsignedBits at h
  repeat' split at h
  all_goals first
    | (rename_i ht; rcases ht with ht | ht <;> subst ht <;> decide)
    | (rename_i ht; subst ht; decide)
    | cases h

theorem lookup_eq_head_filter (k : String) (l : List (String × String)) :
    List.lookup k l = ((l.filter (fun p => decide (p.1 = k))).head?).map Prod.snd := by
  induction l with
  | nil => simp
  | cons p rest ih =>
    obtain ⟨a, b⟩ := p
    by_cases h : k = a
    · subst h
      simp [lookup_cons_eq]
    · have h' : ¬ a = k := fun e => h e.symm
      simp [lookup_cons_eq, h, h', ih]

/-- A flag supplied exactly once is mapped to the value paired with it. -/
theorem lookup_supplied_once (tokens : List String) (k raw : String)
    (h : (tokenPairs tokens).filter (fun p => decide (p.1 = k)) = [(k, raw)]) :
    List.lookup k (extractLoop tokens []) = some raw := by
  rw [lookup_extractLoop _ tokens (le_refl _), lookup_eq_head_filter, List.filter_reverse, h]
  simp

theorem coerce_string (env : Env) (raw : String) :
    coerce env "string" raw = some (.ok (.prim (.str raw))) := by
  simp [coerce, coerceAny]

theorem coerce_bool (env : Env) (raw : String) (b : Bool) (h : boolLiteral raw = some b) :
    coerce env "bool" raw = some (.ok (.prim (.bool b))) := by
  have hp : parseBool raw = .ok b := by
    unfold boolLiteral at h
    unfold parseBool ParseBool
    split at h
    · rename_i hm
      injection h with h
      subst h
      simp only [List.mem_cons, List.mem_singleton, List.not_mem_nil, or_false] at hm
      rw [if_pos hm]
    · rename_i hm
      simp only [List.mem_cons, List.mem_singleton, List.not_mem_nil, or_false] at hm
      split at h
      · rename_i hm2
        injection h with h
        subst h
        simp only [List.mem_cons, List.mem_singleton, List.not_mem_nil, or_false] at hm2
        rw [if_neg hm, if_pos hm2]
      · cases h
  simp [coerce, coerceAny, hp]

/-- A literal that denotes a value is coerced to that value. -/
theorem coerce_of_literalValue (env : Env) (fType raw : String) (v : Prim)
    (h : literalValue fType raw = some v) : coerce env fType raw = some (.ok (.prim v)) := by
  unfold literalValue at h
  split at h
  · rename_i ht
    injection h with h
    subst h; subst ht
    exact coerce_string env raw
  · split at h
    · rename_i ht
      subst ht
      cases hb : boolLiteral raw with
      | none => rw [hb] at h; simp at h
      | some b =>
        rw [hb] at h
        simp only [Option.map_some', Option.some.injEq] at h
        subst h
        exact coerce_bool env raw b hb
    · split at h
      · rename_i _ _ b hsb
        split at h
        · rename_i w hw
          split at h
          · rename_i hr
            injection h with h
            subst h
            exact ((coerce_signed_spec env fType raw b hsb).1 w).mpr ⟨hw, hr.1, hr.2⟩
          · cases h
        · cases h
      · rename_i _ _ b hsb hub
        split at h
        · rename_i w hw
          split at h
          · rename_i hr
            injection h with h
            subst h
            exact ((coerce_unsigned_spec env fType raw b hub).1 w).mpr ⟨hw, hr⟩
          · cases h
        · cases h
      · cases h

/-- A type for which a literal denotes a value is a built-in type. -/
theorem literalValue_builtin (fType raw : String) (v : Prim)
    (h : literalValue fType raw = some v) : fType ∈ builtinTypes := by
  unfold literalValue at h
  split at h
  · rename_i ht
    subst ht
    decide
  · split at h
    · rename_i ht
      subst ht
      decide
    · split at h
      · rename_i _ _ b hsb
        exact signedBits_builtin fType b hsb
      · rename_i _ _ b hsb hub
        exact unsignedBits_builtin fType b hub
      · cases h

/-- The loop over a flat record all of whose fields are written. -/
theorem parseFields_flat_all_set (env : Env) (args : Args) (Q : FieldInfo → Prim → Prop)
    (fs : List (FieldInfo × Prim))
    (h : ∀ f ∈ fs, ∃ v, fieldAction env args f.1.kindInterface f.1 = .set (.prim v) ∧ Q f.1 v) :
    ∃ fs', parseFields env args (flat fs) = (flat fs', .nil) ∧
      List.Forall₂ (fun f f' => f'.1 = f.1 ∧ Q f.1 f'.2) fs fs' := by
  induction fs with
  | nil => exact ⟨[], by simp [flat, parseFields], List.Forall₂.nil⟩
  | cons f rest ih =>
    obtain ⟨info, cur⟩ := f
    obtain ⟨v, hv, hq⟩ := h (info, cur) (List.mem_cons_self _ _)
    obtain ⟨rest', hr, hf⟩ := ih (fun g hg => h g (List.mem_cons_of_mem _ hg))
    refine ⟨(info, v) :: rest', ?_, List.Forall₂.cons ⟨rfl, hq⟩ hf⟩
    simp only at hv
    by_cases hk : info.kindInterface = true
    · rw [hk] at hv
      simp [flat, parseFields, hk, hv, setInterface, fieldNode, hr]
    · have hk' : info.kindInterface = false := by simpa using hk
      rw [hk'] at hv
      simp [flat, parseFields, hk', hv, setLeaf, hr]

/-! ## The claims -/

theorem lookup_absent (t : List String) (n : String)
    (h : n ∉ (tokenPairs t).map Prod.fst) : List.lookup n (extractLoop t []) = none := by
  rw [lookup_extractLoop _ t (le_refl _)]
  have : List.lookup n (tokenPairs t).reverse = none := by
    rw [lookup_eq_none_of]
    intro p hp hpn
    exact h (List.mem_map.mpr ⟨p, List.mem_reverse.mp hp, hpn⟩)
  simp [this]

/-- C1 (amended): for every record and every non-empty token list of even length, if a
tagged, accessible (and writable) leaf field named `n` is required, every field
visited before it in depth-first declaration order is satisfied, and no token
pair supplies the flag `n`, then `ParseArgv` returns `MissingValue(n)`.  If the
field is instead optional, then for every token list whatever the absent argument
makes the mapper skip the field, and the field keeps its place and the value it
had before the call. -/
theorem C1_missing_required_or_optional (env : Env) (s : Struct) (tokens : List String)
    (pre post : List Visit) (info : FieldInfo) (cur : Val)
    (hv : visits env s = pre ++ .field info cur :: post)
    (hn : (parseTag info.tag).1.length ≠ 0)
    (hci : info.canInterface = true) (hcs : info.canSet = true)
    (habs : (parseTag info.tag).1 ∉ (tokenPairs tokens).map Prod.fst) :
    (tokens.length ≠ 0 → tokens.length % 2 = 0 → (parseTag info.tag).2 = false →
      (∀ args, extractArgs tokens = .ok args → ∀ y ∈ pre, (visitStep env args y).2 = .nil) →
      (ParseArgv env (.ptrStruct s) tokens).2 = .err (ErrMissingValue (parseTag info.tag).1)) ∧
    ((parseTag info.tag).2 = true →
      (∀ args, extractArgs tokens = .ok args →
        visitAction env args (.field info cur) = .skip) ∧
      ∃ s' pre' post', (ParseArgv env (.ptrStruct s) tokens).1 = .ptrStruct s' ∧
        visits env s' = pre' ++ .field info cur :: post' ∧ pre'.length = pre.length) := by
  have hlook : List.lookup (parseTag info.tag).1 (extractLoop tokens []) = none :=
    lookup_absent tokens _ habs
  have hact : ∀ b, fieldAction env (extractLoop tokens []) b info =
      if (parseTag info.tag).2 then .skip else .fail (ErrMissingValue (parseTag info.tag).1) :=
    fun b => fieldAction_absent env _ b info hn hci (Or.inr hcs) hlook
  have hva : visitAction env (extractLoop tokens []) (.field info cur) =
      if (parseTag info.tag).2 then .skip else .fail (ErrMissingValue (parseTag info.tag).1) := by
    cases cur with
    | prim p => exact hact _
    | struct t => exact hact _
  constructor
  · intro h0 heven hreq hpre
    rw [ParseArgv_struct env s tokens h0 heven]
    simp only
    rw [(parseFields_refines env _ (extractLoop_nonempty tokens h0 heven) s).2, hv]
    apply runVisits_first_fail
    · exact hpre _ (extractArgs_even tokens heven)
    · rw [hva, hreq]; simp
  · intro hopt
    constructor
    · intro args hargs
      by_cases heven : tokens.length % 2 = 0
      · rw [extractArgs_even tokens heven] at hargs
        injection hargs with hargs
        subst hargs
        rw [hva, hopt]; simp
      · rw [extractArgs_odd tokens (by omega)] at hargs
        cases hargs
    · by_cases h0 : tokens.length = 0
      · exact ⟨s, pre, post, by simp [ParseArgv, h0], hv, rfl⟩
      · by_cases heven : tokens.length % 2 = 0
        · rw [ParseArgv_struct env s tokens h0 heven]
          obtain ⟨pre', post', h1, h2⟩ := runVisits_skip_kept env (extractLoop tokens []) pre post
            (.field info cur) (by rw [hva, hopt]; simp)
          refine ⟨_, pre', post', rfl, ?_, h2⟩
          rw [(parseFields_refines env _ (extractLoop_nonempty tokens h0 heven) s).1, hv, h1]
        · refine ⟨s, pre, post, ?_, hv, rfl⟩
          simp [ParseArgv, h0, extractArgs_odd tokens (by omega)]

/-- C1, as stated, fails on the empty token list and on a token list of odd
length: the first field of `ArgStructInt` is tagged `arg1`, accessible and
required, no field comes before it and no token pair supplies `arg1`, yet
`ParseArgv` returns `ErrEmptyArgs`, respectively `ErrInvalidParameterCount`. -/
theorem C1_counterexample :
    visits startEnv ArgStructInt =
        [] ++ Visit.field (exported "int8" "arg1") (.prim (.int 0)) ::
          (visits startEnv ArgStructInt).tail ∧
      parseTag (exported "int8" "arg1").tag = ("arg1", false) ∧
      "arg1" ∉ (tokenPairs []).map Prod.fst ∧
      (ParseArgv startEnv (.ptrStruct ArgStructInt) []).2 = .err ErrEmptyArgs ∧
      "arg1" ∉ (tokenPairs ["arg2", "2", "arg3"]).map Prod.fst ∧
      (ParseArgv startEnv (.ptrStruct ArgStructInt) ["arg2", "2", "arg3"]).2 =
        .err ErrInvalidParameterCount ∧
      ErrEmptyArgs ≠ ErrMissingValue "arg1" ∧ ErrInvalidParameterCount ≠ ErrMissingValue "arg1" := by
  decide

/-- C1 at `ArgStructInt` with tokens `arg1 2`: the required `arg2` is missing.  And
at `CertInfo` with tokens `CN x OU y`: the optional `O` is absent and keeps its
value. -/
theorem C1_witness :
    (ParseArgv startEnv (.ptrStruct ArgStructInt) ["arg1", "2"]).2 =
        .err (ErrMissingValue "arg2") ∧
      ∃ s' pre' post', (ParseArgv startEnv (.ptrStruct CertInfo) ["CN", "x", "OU", "y"]).1 =
          .ptrStruct s' ∧
        visits startEnv s' = pre' ++ .field (exported "string" "O,optional") (.prim (.str "")) :: post' ∧
        pre'.length = 2 :=
  ⟨(C1_missing_required_or_optional startEnv ArgStructInt ["arg1", "2"]
      [.field (exported "int8" "arg1") (.prim (.int 0))]
      [.field (exported "int" "arg3") (.prim (.int 0)),
        .field (exported "int64" "arg4") (.prim (.int 0))]
      (exported "int32" "arg2") (.prim (.int 0)) (by decide) (by decide) rfl rfl (by decide)).1
      (by decide) (by decide) (by decide)
      (by
        intro args h y hy
        have hargs : args = [("arg1", "2")] := by
          have h' : Except.ok (extractLoop ["arg1", "2"] []) = Except.ok args := h
          injection h' with h'
          rw [← h']
          decide
        subst hargs
        simp only [List.mem_singleton] at hy
        subst hy
        decide),
    ((C1_missing_required_or_optional startEnv CertInfo ["CN", "x", "OU", "y"]
      [.field (exported "string" "CN") (.prim (.str "")),
        .field (exported "string" "OU") (.prim (.str ""))]
      [.field (exported "string" "alg") (.prim (.str "")),
        .field (exported "uint" "bits") (.prim (.uint 0)),
        .field (exported "uint32" "days") (.prim (.uint 0))]
      (exported "string" "O,optional") (.prim (.str "")) (by decide) (by decide) rfl rfl
      (by decide)).2 (by decide)).2⟩

/-- C2, as stated, fails in four ways.  A tagged field that is not exported is
skipped: no error, but the field keeps 0 instead of 127.  A generic `int` field on
a machine with 64-bit words rejects `2147483648`, which is in the range of its
type.  A token list of odd length that supplies the tag once yields
`ErrInvalidParameterCount`.  And for the record without fields the empty token
list yields `ErrEmptyArgs`. -/
theorem C2_counterexample :
    (literalValue "int8" "127" = some (.int 127) ∧
      ParseArgv startEnv (.ptrStruct (flat [(unexported "int8" "arg1", .int 0)])) ["arg1", "127"] =
        (.ptrStruct (flat [(unexported "int8" "arg1", .int 0)]), .nil)) ∧
    (declaredBits 64 "int" = some 64 ∧ signedLiteral "2147483648" = some 2147483648 ∧
      (2147483648 : Int) < ((2 ^ (64 - 1) : Nat) : Int) ∧
      (ParseArgv startEnv (.ptrStruct (flat [(exported "int" "arg3", .int 0)]))
        ["arg3", "2147483648"]).2 =
        .err (ErrInvalidValue "arg3" (.num (rangeError "ParseInt" "2147483648")))) ∧
    ((tokenPairs ["arg1", "127", "x"]).filter (fun p => decide (p.1 = "arg1")) = [("arg1", "127")] ∧
      (ParseArgv startEnv (.ptrStruct (flat [(exported "int8" "arg1", .int 0)]))
        ["arg1", "127", "x"]).2 = .err ErrInvalidParameterCount) ∧
    (ParseArgv startEnv (.ptrStruct (flat [])) []).2 = .err ErrEmptyArgs := by
  decide

/-- C2 (amended): for every flat record whose fields are all tagged, accessible and
writable (exported) and have string, integer or bool type, and for every non-empty
token list of even length that supplies each tag exactly once with a well-formed
literal in the range the mapper gives the type (32 bits for the generic `int` and
`uint`), `ParseArgv` returns no error and afterwards each field equals the value
denoted by its literal; a string field equals the raw value verbatim.  (That the
fields are required and their tag names distinct is not needed.) -/
theorem C2_round_trip (env : Env) (fs : List (FieldInfo × Prim)) (tokens : List String)
    (h0 : tokens.length ≠ 0) (heven : tokens.length % 2 = 0)
    (hfs : ∀ f ∈ fs, f.1.canInterface = true ∧ f.1.canSet = true ∧
      (parseTag f.1.tag).1.length ≠ 0 ∧
      ∃ raw v, (tokenPairs tokens).filter (fun p => decide (p.1 = (parseTag f.1.tag).1)) =
          [((parseTag f.1.tag).1, raw)] ∧
        literalValue f.1.typ raw = some v) :
    ∃ fs', ParseArgv env (.ptrStruct (flat fs)) tokens = (.ptrStruct (flat fs'), .nil) ∧
      List.Forall₂ (fun f f' => f'.1 = f.1 ∧
        ∃ raw, (tokenPairs tokens).filter (fun p => decide (p.1 = (parseTag f.1.tag).1)) =
            [((parseTag f.1.tag).1, raw)] ∧
          literalValue f.1.typ raw = some f'.2) fs fs' := by
  obtain ⟨fs', hrun, hall⟩ := parseFields_flat_all_set env (extractLoop tokens [])
    (fun info v => ∃ raw, (tokenPairs tokens).filter (fun p => decide (p.1 = (parseTag info.tag).1)) =
        [((parseTag info.tag).1, raw)] ∧ literalValue info.typ raw = some v) fs
    (by
      intro f hf
      obtain ⟨hci, hcs, hn, raw, v, hraw, hlit⟩ := hfs f hf
      refine ⟨v, ?_, raw, hraw, hlit⟩
      rw [fieldAction_present_eq env _ _ f.1 raw hn hci hcs (lookup_supplied_once tokens _ raw hraw)
          (literalValue_builtin f.1.typ raw v hlit),
        coerce_of_literalValue env f.1.typ raw v hlit])
  refine ⟨fs', ?_, hall⟩
  rw [ParseArgv_struct env (flat fs) tokens h0 heven, hrun]

/-- C2 (amended) at `ArgStructInt` with the valid test case of `argv_test.go`:
`127`, `37000`, `4532` and `-476800` are stored. -/
theorem C2_witness :
    ∃ fs', ParseArgv startEnv (.ptrStruct ArgStructInt)
        ["arg1", "127", "arg2", "37000", "arg3", "4532", "arg4", "-476800"] =
        (.ptrStruct (flat fs'), .nil) ∧
      List.Forall₂ (fun f f' => f'.1 = f.1 ∧
        ∃ raw, (tokenPairs ["arg1", "127", "arg2", "37000", "arg3", "4532", "arg4", "-476800"]).filter
              (fun p => decide (p.1 = (parseTag f.1.tag).1)) = [((parseTag f.1.tag).1, raw)] ∧
          literalValue f.1.typ raw = some f'.2)
        [(exported "int8" "arg1", Prim.int 0), (exported "int32" "arg2", Prim.int 0),
          (exported "int" "arg3", Prim.int 0), (exported "int64" "arg4", Prim.int 0)] fs' :=
  C2_round_trip startEnv
    [(exported "int8" "arg1", .int 0), (exported "int32" "arg2", .int 0),
      (exported "int" "arg3", .int 0), (exported "int64" "arg4", .int 0)]
    ["arg1", "127", "arg2", "37000", "arg3", "4532", "arg4", "-476800"] (by decide) (by decide)
    (by
      intro f hf
      simp only [List.mem_cons, List.mem_singleton, List.not_mem_nil, or_false] at hf
      rcases hf with rfl | rfl | rfl | rfl
      · exact ⟨rfl, rfl, by decide, "127", .int 127, by decide, by decide⟩
      · exact ⟨rfl, rfl, by decide, "37000", .int 37000, by decide, by decide⟩
      · exact ⟨rfl, rfl, by decide, "4532", .int 4532, by decide, by decide⟩
      · exact ⟨rfl, rfl, by decide, "-476800", .int (-476800), by decide, by decide⟩)

/-- C3, as stated, fails for the generic `int` and `uint` on a machine with 64-bit
words: a literal that fits within the 64 bits of the declared type but not within
32 bits is rejected with `InvalidValue` wrapping a range error.  It also fails for
a tagged field that is not exported: the mapper skips it, and stores nothing
although the literal is well formed and in range. -/
theorem C3_counterexample :
    declaredBits 64 "int" = some 64 ∧
      signedLiteral "2147483648" = some 2147483648 ∧
      (-((2 ^ (64 - 1) : Nat) : Int) ≤ 2147483648 ∧ (2147483648 : Int) < ((2 ^ (64 - 1) : Nat) : Int)) ∧
      fieldAction startEnv [("arg3", "2147483648")] false (exported "int" "arg3") =
        .fail (ErrInvalidValue "arg3" (.num (rangeError "ParseInt" "2147483648"))) ∧
      declaredBits 64 "uint" = some 64 ∧
      unsignedLiteral "4294967296" = some 4294967296 ∧ 4294967296 < 2 ^ 64 ∧
      fieldAction startEnv [("arg3", "4294967296")] false (exported "uint" "arg3") =
        .fail (ErrInvalidValue "arg3" (.num (rangeError "ParseUint" "4294967296"))) ∧
      signedLiteral "127" = some 127 ∧
      fieldAction startEnv [("arg1", "127")] false (unexported "int8" "arg1") = .skip := by
  decide

/-- C3 (amended): for every tagged, accessible, writable field of a signed or
unsigned integer type and every raw value supplied for it, the mapper stores the
number and goes on if and only if the raw value is a well-formed base-10 literal
(no sign for the unsigned types) whose value fits within the width the mapper
gives the type: 8 bits for `int8` and `uint8`, 32 bits for `int32`, `uint32` and
for the generic `int` and `uint`, 64 bits for `int64` and `uint64`.  In every other
case it returns `InvalidValue(name, cause)`. -/
theorem C3_integer_range (env : Env) (args : Args) (isInterface : Bool) (info : FieldInfo)
    (raw : String) (cur : Prim)
    (hn : (parseTag info.tag).1.length ≠ 0) (hci : info.canInterface = true)
    (hcs : info.canSet = true) (hl : List.lookup (parseTag info.tag).1 args = some raw) :
    (∀ b, signedBits info.typ = some b →
      (∀ v : Int, setLeaf (fieldAction env args isInterface info) cur = (.int v, .nil) ∧
          fieldAction env args isInterface info = .set (.prim (.int v)) ↔
        (signedLiteral raw = some v ∧ -((2 ^ (b - 1) : Nat) : Int) ≤ v ∧
          v < ((2 ^ (b - 1) : Nat) : Int))) ∧
      ((¬ ∃ v : Int, signedLiteral raw = some v ∧ -((2 ^ (b - 1) : Nat) : Int) ≤ v ∧
          v < ((2 ^ (b - 1) : Nat) : Int)) →
        ∃ c, fieldAction env args isInterface info =
          .fail (ErrInvalidValue (parseTag info.tag).1 c))) ∧
    (∀ b, unsignedBits info.typ = some b →
      (∀ v : Nat, setLeaf (fieldAction env args isInterface info) cur = (.uint v, .nil) ∧
          fieldAction env args isInterface info = .set (.prim (.uint v)) ↔
        (unsignedLiteral raw = some v ∧ v < 2 ^ b)) ∧
      ((¬ ∃ v : Nat, unsignedLiteral raw = some v ∧ v < 2 ^ b) →
        ∃ c, fieldAction env args isInterface info =
          .fail (ErrInvalidValue (parseTag info.tag).1 c))) := by
  have hact := fieldAction_present_eq env args isInterface info raw hn hci hcs hl
  constructor
  · intro b hb
    have hact := hact (signedBits_builtin info.typ b hb)
    obtain ⟨hiff, hbad⟩ := coerce_signed_spec env info.typ raw b hb
    constructor
    · intro v
      rw [← hiff v]
      constructor
      · rintro ⟨-, hset⟩
        rw [hact] at hset
        split at hset
        · cases hset
        · cases hset
        · rename_i w hw
          injection hset with hset
          rw [hw, hset]
      · intro hc
        rw [hact, hc]
        exact ⟨rfl, rfl⟩
    · intro hno
      obtain ⟨c, hc⟩ := hbad hno
      exact ⟨c, by rw [hact, hc]⟩
  · intro b hb
    have hact := hact (unsignedBits_builtin info.typ b hb)
    obtain ⟨hiff, hbad⟩ := coerce_unsigned_spec env info.typ raw b hb
    constructor
    · intro v
      rw [← hiff v]
      constructor
      · rintro ⟨-, hset⟩
        rw [hact] at hset
        split at hset
        · cases hset
        · cases hset
        · rename_i w hw
          injection hset with hset
          rw [hw, hset]
      · intro hc
        rw [hact, hc]
        exact ⟨rfl, rfl⟩
    · intro hno
      obtain ⟨c, hc⟩ := hbad hno
      exact ⟨c, by rw [hact, hc]⟩

/-- C3 (amended) at a signed 8-bit field given `2000` and at an unsigned 32-bit
field given `-5`: both are rejected, since `2000` lies outside the 8-bit range and
`-5` is not a well-formed unsigned literal. -/
theorem C3_witness :
    signedBits (exported "int8" "arg1").typ = some 8 ∧
      (¬ ∃ v : Int, signedLiteral "2000" = some v ∧ -((2 ^ (8 - 1) : Nat) : Int) ≤ v ∧
        v < ((2 ^ (8 - 1) : Nat) : Int)) ∧
      (∃ c, fieldAction startEnv [("arg1", "2000")] false (exported "int8" "arg1") =
        .fail (ErrInvalidValue "arg1" c)) ∧
      unsignedBits (exported "uint32" "arg2").typ = some 32 ∧
      (¬ ∃ v : Nat, unsignedLiteral "-5" = some v ∧ v < 2 ^ 32) ∧
      ∃ c, fieldAction startEnv [("arg2", "-5")] false (exported "uint32" "arg2") =
        .fail (ErrInvalidValue "arg2" c) :=
  have hno : ¬ ∃ v : Int, signedLiteral "2000" = some v ∧ -((2 ^ (8 - 1) : Nat) : Int) ≤ v ∧
      v < ((2 ^ (8 - 1) : Nat) : Int) := by
    rintro ⟨v, hv, -, hhi⟩
    have h2000 : signedLiteral "2000" = some 2000 := by decide
    rw [h2000] at hv
    injection hv with hv
    subst hv
    revert hhi
    decide
  have hno5 : ¬ ∃ v : Nat, unsignedLiteral "-5" = some v ∧ v < 2 ^ 32 := by
    rintro ⟨v, hv, -⟩
    have h5 : unsignedLiteral "-5" = none := by decide
    rw [h5] at hv
    cases hv
  ⟨by decide, hno,
    ((C3_integer_range startEnv [("arg1", "2000")] false (exported "int8" "arg1") "2000" (.int 0)
      (by decide) rfl rfl (by decide)).1 8 (by decide)).2 hno,
    by decide, hno5,
    ((C3_integer_range startEnv [("arg2", "-5")] false (exported "uint32" "arg2") "-5" (.uint 0)
      (by decide) rfl rfl (by decide)).2 32 (by decide)).2 hno5⟩

theorem forall₂_left_mem {α β : Type} {R : α → β → Prop} {l : List α} {l' : List β}
    (h : List.Forall₂ R l l') {y : α} (hy : y ∈ l) : ∃ y', y' ∈ l' ∧ R y y' := by
  induction h with
  | nil => cases hy
  | cons hab _ ih =>
    rcases List.mem_cons.mp hy with rfl | hy'
    · exact ⟨_, List.mem_cons_self _ _, hab⟩
    · obtain ⟨y', h1, h2⟩ := ih hy'
      exact ⟨y', List.mem_cons_of_mem _ h1, h2⟩

theorem parseArgv_struct (env : Env) (s : Struct) (args : Args) (hargs : args.length ≠ 0) :
    parseArgv env (.ptrStruct s) args =
      (.ptrStruct (parseFields env args s).1, (parseFields env args s).2) := by
  simp [parseArgv, hargs]

/-- From a failing call of the mapper on a record to the failing run over the
stops of the traversal. -/
theorem parseArgv_err_run (env : Env) (s : Struct) (args : Args) (d' : Dest) (e : Error)
    (hargs : args.length ≠ 0) (h : parseArgv env (.ptrStruct s) args = (d', .err e)) :
    d' = .ptrStruct (parseFields env args s).1 ∧
      runVisits env args (visits env s) = (visits env (parseFields env args s).1, .err e) := by
  rw [parseArgv_struct env s args hargs] at h
  simp only [Prod.mk.injEq] at h
  obtain ⟨h1, h2⟩ := h
  obtain ⟨r1, r2⟩ := parseFields_refines env args hargs s
  refine ⟨h1.symm, ?_⟩
  rw [r1, ← h2, r2]

/-! ## Lemmas: the error of a field -/

/-- The error that a field produces, in the words of the specification, is the
error with which the else-branch of the loop fails at the field. -/
theorem errorOf_eq (env : Env) (args : Args) (x : Visit) :
    errorOf env args x =
      match visitAction env args x with
      | .fail e => some e
      | _ => none := by
  cases x with
  | blocked info inner => rfl
  | field info cur =>
    simp only [errorOf, visitAction, fieldAction]
    rcases parseTag info.tag with ⟨n, opt⟩
    simp only
    by_cases hn : n.length = 0
    · simp [hn]
    · cases hci : info.canInterface
      · simp [hn]
      · cases hk : info.kindInterface <;> cases hcs : info.canSet <;>
          cases hl : List.lookup n args <;> cases opt <;> simp [hn, coerce] <;>
          (cases hc : coerceAny env info.typ _ with
            | none => simp
            | some r =>
              cases r with
              | error c => simp
              | ok a => cases hat : assignableTo env a.typ info.typ <;> simp [hat])

theorem errorOf_of_fail (env : Env) (args : Args) (x : Visit) (e : Error)
    (h : visitAction env args x = .fail e) : errorOf env args x = some e := by
  rw [errorOf_eq, h]

theorem fail_of_errorOf (env : Env) (args : Args) (x : Visit) (e : Error)
    (h : errorOf env args x = some e) : visitAction env args x = .fail e := by
  rw [errorOf_eq] at h
  split at h
  · rename_i e' he
    injection h with h
    rw [he, h]
  · cases h

/-- A stop that is passed produces no error. -/
theorem errorOf_of_step_nil (env : Env) (args : Args) (y y' : Visit)
    (h : visitStep env args y = (y', .nil)) : errorOf env args y = none := by
  rw [errorOf_eq]
  rcases visitStep_nil env args y y' h with ⟨hs, _⟩ | ⟨_, _, v, _, hs, _⟩ <;> rw [hs]

/-- A stop that produces no error and does not panic is passed. -/
theorem step_nil_of_errorOf (env : Env) (args : Args) (y : Visit)
    (h : errorOf env args y = none) (hp : (visitStep env args y).2 ≠ .panic) :
    (visitStep env args y).2 = .nil := by
  rcases hs : visitStep env args y with ⟨y', o⟩
  cases o with
  | nil => rfl
  | err e =>
    obtain ⟨_, ha⟩ := visitStep_err env args y y' e hs
    rw [errorOf_of_fail env args y e ha] at h
    cases h
  | panic =>
    rw [hs] at hp
    exact absurd rfl hp

/-! ## C4: the first error wins -/

/-- C4: for every record and every non-empty argument mapping, if the field mapper
fails with error `e`, then `e` is the error produced by the earliest field, in
depth-first declaration order (nested records expanded in place), that is
read-only, missing-and-required, uncoercible or of unsupported type: the traversal
splits into the fields `pre`, that field `x` and the fields `post`, where `x`
produces `e` and no field of `pre` produces an error, whatever errors the fields
of `post` would produce.  Conversely, when `x` is the earliest field that produces
an error and no field before it makes `reflect` panic, the mapper fails with the
error of `x`. -/
theorem C4_first_error_wins (env : Env) (s : Struct) (args : Args) (hargs : args.length ≠ 0) :
    (∀ d' e, parseArgv env (.ptrStruct s) args = (d', .err e) →
      ∃ pre x post, visits env s = pre ++ x :: post ∧
        errorOf env args x = some e ∧ (∀ y ∈ pre, errorOf env args y = none)) ∧
    (∀ pre x post e, visits env s = pre ++ x :: post →
      errorOf env args x = some e → (∀ y ∈ pre, errorOf env args y = none) →
      (∀ y ∈ pre, (visitStep env args y).2 ≠ .panic) →
      (parseArgv env (.ptrStruct s) args).2 = .err e) := by
  constructor
  · intro d' e h
    obtain ⟨-, hrun⟩ := parseArgv_err_run env s args d' e hargs h
    obtain ⟨pre, pre', x, post, e1, -, hf, ha⟩ := runVisits_err env args _ _ e hrun
    refine ⟨pre, x, post, e1, errorOf_of_fail env args x e ha, ?_⟩
    intro y hy
    obtain ⟨y', -, hyy⟩ := forall₂_left_mem hf hy
    exact errorOf_of_step_nil env args y y' hyy
  · intro pre x post e hv hx hpre hpanic
    rw [parseArgv_struct env s args hargs]
    show (parseFields env args s).2 = .err e
    rw [(parseFields_refines env args hargs s).2, hv]
    exact runVisits_first_fail env args pre post x e
      (fun y hy => step_nil_of_errorOf env args y (hpre y hy) (hpanic y hy))
      (fail_of_errorOf env args x e hx)

/-- C4 at `ArgStructInt` (fields `arg1` to `arg4`, all required).  With the mapping
of the tokens `arg1 xxx` the error is `InvalidValue` for `arg1`, not `MissingValue`
for `arg2`.  With the mapping of `arg1 2 arg3 zz` the field `arg1` produces no
error, `arg2` is missing, `arg3` is uncoercible and `arg4` is missing: the error
is `MissingValue` for `arg2`, the earliest of the three. -/
theorem C4_witness :
    parseArgv startEnv (.ptrStruct ArgStructInt) [("arg1", "xxx")] =
        (.ptrStruct ArgStructInt,
          .err (ErrInvalidValue "arg1" (.num (syntaxError "ParseInt" "xxx")))) ∧
    (visits startEnv ArgStructInt).map (errorOf startEnv [("arg1", "2"), ("arg3", "zz")]) =
      [none, some (ErrMissingValue "arg2"),
        some (ErrInvalidValue "arg3" (.num (syntaxError "ParseInt" "zz"))),
        some (ErrMissingValue "arg4")] ∧
    (parseArgv startEnv (.ptrStruct ArgStructInt) [("arg1", "2"), ("arg3", "zz")]).2 =
      .err (ErrMissingValue "arg2") ∧
    ∃ pre x post, visits startEnv ArgStructInt = pre ++ x :: post ∧
      errorOf startEnv [("arg1", "2"), ("arg3", "zz")] x = some (ErrMissingValue "arg2") ∧
      (∀ y ∈ pre, errorOf startEnv [("arg1", "2"), ("arg3", "zz")] y = none) :=
  ⟨by decide, by decide,
    (C4_first_error_wins startEnv ArgStructInt [("arg1", "2"), ("arg3", "zz")] (by decide)).2
      [.field (exported "int8" "arg1") (.prim (.int 0))]
      (.field (exported "int32" "arg2") (.prim (.int 0)))
      [.field (exported "int" "arg3") (.prim (.int 0)),
        .field (exported "int64" "arg4") (.prim (.int 0))]
      (ErrMissingValue "arg2") (by decide) (by decide) (by decide) (by decide),
    (C4_first_error_wins startEnv ArgStructInt [("arg1", "2"), ("arg3", "zz")] (by decide)).1
      (parseArgv startEnv (.ptrStruct ArgStructInt) [("arg1", "2"), ("arg3", "zz")]).1
      (ErrMissingValue "arg2") (Prod.ext rfl (by decide))⟩

theorem passedStop_of_step (env : Env) (args : Args) (y y' : Visit)
    (h : visitStep env args y = (y', .nil)) : PassedStop env args y y' := by
  rcases visitStep_nil env args y y' h with ⟨hskip, hy⟩ | ⟨info, cur, v, hy, hset, hy'⟩
  · subst hy
    cases y' with
    | blocked info inner => simp [visitAction] at hskip
    | field info cur =>
      refine ⟨info, cur, cur, rfl, rfl, ?_, fun _ => rfl⟩
      intro raw hn hci hl
      exfalso
      cases cur with
      | prim p => exact fieldAction_present env args _ info raw hn hci hl hskip
      | struct t => exact fieldAction_present env args _ info raw hn hci hl hskip
  · subst hy; subst hy'
    have hb : ∃ b, fieldAction env args b info = .set v := by
      cases cur with
      | prim p => exact ⟨_, hset⟩
      | struct t => exact ⟨_, hset⟩
    obtain ⟨b, hb⟩ := hb
    obtain ⟨hn, hci, -, raw', hl', hc⟩ := fieldAction_set env args b info v hb
    refine ⟨info, cur, v, rfl, rfl, ?_, ?_⟩
    · intro raw _ _ hl
      rw [hl'] at hl
      injection hl with hl
      subst hl
      exact hc
    · rintro (h0 | h0 | h0)
      · exact absurd h0 hn
      · rw [hci] at h0; cases h0
      · rw [hl'] at h0; cases h0

/-- C5: for every record and argument mapping on which the field mapper fails at
some field `f`: every participating leaf field visited before `f` whose tag name
is present in the arguments holds its coerced value after the call (no rollback;
the other fields visited before `f` keep their values), while `f` itself and every
field after `f` in traversal order hold exactly the values they had before. -/
theorem C5_no_rollback (env : Env) (s : Struct) (args : Args) (d' : Dest) (e : Error)
    (h : parseArgv env (.ptrStruct s) args = (d', .err e)) :
    ∃ s' pre pre' f post, d' = .ptrStruct s' ∧
      visits env s = pre ++ f :: post ∧ visits env s' = pre' ++ f :: post ∧
      visitAction env args f = .fail e ∧
      List.Forall₂ (PassedStop env args) pre pre' := by
  have hargs : args.length ≠ 0 := by
    intro h0
    simp [parseArgv, h0] at h
  obtain ⟨hd, hrun⟩ := parseArgv_err_run env s args d' e hargs h
  obtain ⟨pre, pre', x, post, e1, e2, hf, ha⟩ := runVisits_err env args _ _ e hrun
  exact ⟨_, pre, pre', x, post, hd, e1, e2, ha,
    List.Forall₂.imp (fun y y' hy => passedStop_of_step env args y y' hy) hf⟩

/-- C5 at `ArgStructInt` with the mapping of the tokens `arg1 2`: the mapper fails
at `arg2`, `arg1` holds 2 afterwards, `arg2`, `arg3` and `arg4` are untouched.  And
at a record with a field of type `any` before a required `int` field, with a
registered coercion that returns a struct value: the mapper fails at the missing
`n`, and the interface holds the struct value afterwards. -/
theorem C5_witness :
    parseArgv startEnv (.ptrStruct ArgStructInt) [("arg1", "2")] =
        (.ptrStruct (.leaf (exported "int8" "arg1") (.int 2)
          (.leaf (exported "int32" "arg2") (.int 0)
            (.leaf (exported "int" "arg3") (.int 0)
              (.leaf (exported "int64" "arg4") (.int 0) .nil)))),
          .err (ErrMissingValue "arg2")) ∧
      (∃ s' pre pre' f post, Dest.ptrStruct (.leaf (exported "int8" "arg1") (.int 2)
          (.leaf (exported "int32" "arg2") (.int 0)
            (.leaf (exported "int" "arg3") (.int 0)
              (.leaf (exported "int64" "arg4") (.int 0) .nil)))) = .ptrStruct s' ∧
        visits startEnv ArgStructInt = pre ++ f :: post ∧
        visits startEnv s' = pre' ++ f :: post ∧
        visitAction startEnv [("arg1", "2")] f = .fail (ErrMissingValue "arg2") ∧
        List.Forall₂ (PassedStop startEnv [("arg1", "2")]) pre pre') ∧
    parseArgv pointEnv (.ptrStruct AnyThenInt) [("p", "1,2")] =
      (.ptrStruct (.sub (exportedAny "p") pointValue (.leaf (exported "int" "n") (.int 0) .nil)),
        .err (ErrMissingValue "n")) ∧
    ∃ s' pre pre' f post,
      Dest.ptrStruct (.sub (exportedAny "p") pointValue
        (.leaf (exported "int" "n") (.int 0) .nil)) = .ptrStruct s' ∧
      visits pointEnv AnyThenInt = pre ++ f :: post ∧
      visits pointEnv s' = pre' ++ f :: post ∧
      visitAction pointEnv [("p", "1,2")] f = .fail (ErrMissingValue "n") ∧
      List.Forall₂ (PassedStop pointEnv [("p", "1,2")]) pre pre' :=
  ⟨by decide,
    C5_no_rollback startEnv ArgStructInt [("arg1", "2")] _ (ErrMissingValue "arg2") (by decide),
    by decide,
    C5_no_rollback pointEnv AnyThenInt [("p", "1,2")] _ (ErrMissingValue "n") (by decide)⟩

/-- The field mapper never returns one of the four global errors from the loop
over the fields: it returns `ErrInvalidDest`, `ErrInvalidDestType` or a field
error. -/
theorem parseArgv_err_ne_empty (env : Env) (dest : Dest) (args : Args) :
    (parseArgv env dest args).2 ≠ .err ErrEmptyArgs := by
  by_cases hargs : args.length = 0
  · simp [parseArgv, hargs]
  · cases dest with
    | untypedNil => simp [parseArgv, hargs]
    | notPtr =>
      simp only [parseArgv, hargs, if_false]
      decide
    | ptrNonStruct =>
      simp only [parseArgv, hargs, if_false]
      decide
    | nilPtrStruct n =>
      simp only [parseArgv, hargs, if_false]
      split <;> simp
    | ptrStruct s =>
      rw [parseArgv_struct env s args hargs]
      intro h
      simp only at h
      obtain ⟨r1, r2⟩ := parseFields_refines env args hargs s
      have hrun : runVisits env args (visits env s) =
          ((runVisits env args (visits env s)).1, .err ErrEmptyArgs) := by
        rw [← h, r2]
      obtain ⟨fe, hfe⟩ := runVisits_err_field env args _ _ _ hrun
      simp [ErrEmptyArgs] at hfe

/-- C6: `ParseArgv` returns `EmptyArgs` if and only if the token list is empty; in
that case the result does not depend on the destination (any destination, also an
invalid one, yields `EmptyArgs`) and the destination is left as it was. -/
theorem C6_empty_args (env : Env) (dest : Dest) (tokens : List String) :
    ((ParseArgv env dest tokens).2 = .err ErrEmptyArgs ↔ tokens = []) ∧
      ParseArgv env dest [] = (dest, .err ErrEmptyArgs) := by
  refine ⟨⟨fun h => ?_, fun h => ?_⟩, by simp [ParseArgv]⟩
  · by_contra hne
    have h0 : tokens.length ≠ 0 := fun h0 => hne (List.length_eq_zero.mp h0)
    by_cases heven : tokens.length % 2 = 0
    · simp only [ParseArgv, h0, if_false, extractArgs_even tokens heven] at h
      exact parseArgv_err_ne_empty env dest _ h
    · simp only [ParseArgv, h0, if_false, extractArgs_odd tokens (by omega)] at h
      revert h
      decide
  · subst h
    simp [ParseArgv]

/-- C7: the tokenizer fails if and only if the number of tokens is odd, and then
with `InvalidParameterCount`; for every odd-length token list `ParseArgv` returns
`InvalidParameterCount` and leaves the destination as it was, whatever the
destination and the tokens are. -/
theorem C7_odd_token_count (tokens : List String) :
    (∀ e, extractArgs tokens = .error e ↔
        (tokens.length % 2 = 1 ∧ e = ErrInvalidParameterCount)) ∧
      (tokens.length % 2 = 1 →
        ∀ (env : Env) (dest : Dest),
          ParseArgv env dest tokens = (dest, .err ErrInvalidParameterCount)) := by
  constructor
  · intro e
    by_cases heven : tokens.length % 2 = 0
    · rw [extractArgs_even tokens heven]
      constructor
      · intro h; cases h
      · intro h; omega
    · have hodd : tokens.length % 2 = 1 := by omega
      rw [extractArgs_odd tokens hodd]
      constructor
      · intro h
        injection h with h
        exact ⟨hodd, h.symm⟩
      · rintro ⟨-, rfl⟩; rfl
  · intro hodd env dest
    have h0 : tokens.length ≠ 0 := by intro h; rw [h] at hodd; simp at hodd
    simp [ParseArgv, h0, extractArgs_odd tokens hodd]

/-- C7 at the token list `param1 value1 param2` of `argv_test.go`, on a
destination that is not even a pointer. -/
theorem C7_witness :
    ["param1", "value1", "param2"].length % 2 = 1 ∧
      ParseArgv startEnv .notPtr ["param1", "value1", "param2"] =
        (.notPtr, .err ErrInvalidParameterCount) :=
  ⟨by decide, (C7_odd_token_count ["param1", "value1", "param2"]).2 (by decide) startEnv .notPtr⟩

/-- C8, as stated, fails when a flag is repeated: four tokens, but one entry. -/
theorem C8_counterexample :
    ["a", "1", "a", "2"].length % 2 = 0 ∧
      extractArgs ["a", "1", "a", "2"] = .ok [("a", "2")] ∧
      ([("a", "2")] : Args).length = 1 ∧ ["a", "1", "a", "2"].length / 2 = 2 :=
  ⟨by decide, rfl, by decide, by decide⟩

/-- C8 (amended): for every even-length token list the tokenizer produces a
mapping whose keys are the prefix-stripped flag names, with one entry for each
distinct name: at most `len/2` entries, and exactly `len/2` when the stripped names
are pairwise distinct. -/
theorem C8_entry_count (tokens : List String) (heven : tokens.length % 2 = 0) :
    ∃ m, extractArgs tokens = .ok m ∧
      (∀ k, k ∈ m.map Prod.fst ↔ k ∈ (tokenPairs tokens).map Prod.fst) ∧
      (m.map Prod.fst).Nodup ∧
      m.length = ((tokenPairs tokens).map Prod.fst).dedup.length ∧
      m.length ≤ tokens.length / 2 ∧
      (((tokenPairs tokens).map Prod.fst).Nodup → m.length = tokens.length / 2) := by
  have hlen : (extractLoop tokens []).length =
      ((tokenPairs tokens).map Prod.fst).dedup.length := by
    have := (keys_extractLoop_perm tokens).length_eq
    simpa using this
  have hpairs : ((tokenPairs tokens).map Prod.fst).length = tokens.length / 2 := by
    rw [List.length_map, length_tokenPairs _ tokens (le_refl _)]
  refine ⟨extractLoop tokens [], extractArgs_even tokens heven, ?_, ?_, hlen, ?_, ?_⟩
  · intro k
    rw [mem_keys_extractLoop _ tokens (le_refl _)]
    simp
  · exact keys_extractLoop_nodup _ tokens (le_refl _) [] (by simp)
  · rw [hlen, ← hpairs]
    exact List.Sublist.length_le (List.dedup_sublist _)
  · intro hnd
    rw [hlen, hnd.dedup, hpairs]

/-- C8 (amended) at the eight tokens of the valid test case of `argv_test.go`. -/
theorem C8_witness :
    ["arg1", "127", "arg2", "37000", "arg3", "4532", "arg4", "-476800"].length % 2 = 0 ∧
      ∃ m, extractArgs ["arg1", "127", "arg2", "37000", "arg3", "4532", "arg4", "-476800"] = .ok m ∧
        m.length ≤ 4 :=
  ⟨by decide,
    by
      obtain ⟨m, h1, -, -, -, h2, -⟩ := C8_entry_count
        ["arg1", "127", "arg2", "37000", "arg3", "4532", "arg4", "-476800"] (by decide)
      exact ⟨m, h1, h2⟩⟩

/-- C9: for every even-length token list, the mapping contains a key `k` if and
only if some even-indexed token strips to `k`, and the value stored for `k` is the
token paired with the last even-indexed token that strips to `k`.  `stripPrefix`
removes exactly two leading characters from a token that starts with `--`,
otherwise exactly one from a token that starts with `-`, otherwise nothing. -/
theorem C9_last_occurrence_wins (tokens : List String) (heven : tokens.length % 2 = 0) :
    (∃ m, extractArgs tokens = .ok m ∧
      (∀ k, k ∈ m.map Prod.fst ↔ ∃ i a, tokens[2 * i]? = some a ∧ stripPrefix a = k) ∧
      (∀ k v, List.lookup k m = some v ↔
        ∃ i a, tokens[2 * i]? = some a ∧ tokens[2 * i + 1]? = some v ∧ stripPrefix a = k ∧
          ∀ j a', i < j → tokens[2 * j]? = some a' → stripPrefix a' ≠ k)) ∧
    (∀ r : String, stripPrefix ("--" ++ r) = r) ∧
    (∀ r : String, r.data.head? ≠ some '-' → stripPrefix ("-" ++ r) = r) ∧
    (∀ s : String, s.data.head? ≠ some '-' → stripPrefix s = s) ∧
    stripPrefix "---x" = "-x" ∧ stripPrefix "-" = "" ∧ stripPrefix "--" = "" := by
  -- an even-indexed token of an even-length list has a partner
  have partner : ∀ (j : Nat) (a : String), tokens[2 * j]? = some a → ∃ b, tokens[2 * j + 1]? = some b := by
    intro j a ha
    have hj : 2 * j < tokens.length := by
      by_contra hcon
      rw [List.getElem?_eq_none (by omega)] at ha
      cases ha
    have hj' : 2 * j + 1 < tokens.length := by omega
    exact ⟨tokens[2 * j + 1], List.getElem?_eq_getElem hj'⟩
  refine ⟨⟨extractLoop tokens [], extractArgs_even tokens heven, ?_, ?_⟩, ?_, ?_, ?_, by decide,
    by decide, by decide⟩
  · intro k
    rw [mem_keys_extractLoop _ tokens (le_refl _)]
    simp only [List.map_nil, List.not_mem_nil, or_false, List.mem_map]
    constructor
    · rintro ⟨p, hp, rfl⟩
      obtain ⟨i, hi⟩ := List.mem_iff_getElem?.mp hp
      obtain ⟨a, h1, -, h3⟩ := (tokenPairs_getElem? _ tokens (le_refl _) i p).mp hi
      exact ⟨i, a, h1, h3⟩
    · rintro ⟨i, a, h1, rfl⟩
      obtain ⟨b, hb⟩ := partner i a h1
      exact ⟨(stripPrefix a, b),
        List.mem_iff_getElem?.mpr ⟨i, (tokenPairs_getElem? _ tokens (le_refl _) i _).mpr
          ⟨a, h1, hb, rfl⟩⟩, rfl⟩
  · intro k v
    rw [lookup_extractLoop _ tokens (le_refl _)]
    have : (List.lookup k (tokenPairs tokens).reverse).orElse (fun _ => List.lookup k []) =
        List.lookup k (tokenPairs tokens).reverse := by
      cases List.lookup k (tokenPairs tokens).reverse <;> simp
    rw [this, lookup_reverse_iff]
    constructor
    · rintro ⟨i, hi, hlast⟩
      obtain ⟨a, h1, h2, h3⟩ := (tokenPairs_getElem? _ tokens (le_refl _) i (k, v)).mp hi
      refine ⟨i, a, h1, h2, h3, ?_⟩
      intro j a' hij ha'
      obtain ⟨b, hb⟩ := partner j a' ha'
      exact hlast j (stripPrefix a', b) hij
        ((tokenPairs_getElem? _ tokens (le_refl _) j _).mpr ⟨a', ha', hb, rfl⟩)
    · rintro ⟨i, a, h1, h2, h3, hlast⟩
      refine ⟨i, (tokenPairs_getElem? _ tokens (le_refl _) i (k, v)).mpr ⟨a, h1, h2, h3⟩, ?_⟩
      intro j p hij hp
      obtain ⟨a', h1', -, h3'⟩ := (tokenPairs_getElem? _ tokens (le_refl _) j p).mp hp
      rw [← h3']
      exact hlast j a' hij h1'
  · intro r
    simp [stripPrefix]
  · intro r hr
    cases hd : r.data with
    | nil =>
      have : r = "" := by cases r; simp_all
      subst this
      decide
    | cons c cs =>
      have hc : c ≠ '-' := by
        intro hc
        apply hr
        simp [hd, hc]
      have e : ("-" ++ r).data = '-' :: c :: cs := by simp [hd]
      unfold stripPrefix
      rw [e]
      split
      · rename_i r' heq
        simp at heq
        exact absurd heq.1 hc
      · rename_i r' hne heq
        simp at heq
        rw [← heq, ← hd]
      · rename_i h1 h2
        exact absurd rfl (h2 (c :: cs))
  · intro s hs
    unfold stripPrefix
    split
    · rename_i r' heq
      exact absurd (by simp [heq]) hs
    · rename_i r' hne heq
      exact absurd (by simp [heq]) hs
    · rfl

/-- C9 at a token list in which the flag `a` occurs twice, with different
prefixes: the value of the last occurrence is stored. -/
theorem C9_witness :
    ["-a", "1", "b", "2", "--a", "3"].length % 2 = 0 ∧
      ∃ m, extractArgs ["-a", "1", "b", "2", "--a", "3"] = .ok m ∧
        (∀ k v, List.lookup k m = some v ↔
          ∃ i a, ["-a", "1", "b", "2", "--a", "3"][2 * i]? = some a ∧
            ["-a", "1", "b", "2", "--a", "3"][2 * i + 1]? = some v ∧ stripPrefix a = k ∧
            ∀ j a', i < j → ["-a", "1", "b", "2", "--a", "3"][2 * j]? = some a' →
              stripPrefix a' ≠ k) :=
  ⟨by decide,
    by
      obtain ⟨⟨m, h1, -, h2⟩, -⟩ :=
        C9_last_occurrence_wins ["-a", "1", "b", "2", "--a", "3"] (by decide)
      exact ⟨m, h1, h2⟩⟩

/-- C10, as stated, fails for a flag name that itself starts with `-`: the third
spelling keeps a dash. -/
theorem C10_counterexample :
    extractArgs ["-x", "v"] = .ok [("x", "v")] ∧
      extractArgs ["-" ++ "-x", "v"] = .ok [("x", "v")] ∧
      extractArgs ["--" ++ "-x", "v"] = .ok [("-x", "v")] ∧
      ([("x", "v")] : Args) ≠ [("-x", "v")] :=
  ⟨rfl, rfl, rfl, by decide⟩

/-- C10 (amended): for every flag name `n` that does not start with `-` and every
value `v`, the token lists `[n, v]`, `["-"+n, v]` and `["--"+n, v]` are tokenized to
the same mapping, the one entry `n ↦ v`. -/
theorem C10_dash_cosmetic (n v : String) (hn : n.data.head? ≠ some '-') :
    extractArgs [n, v] = .ok [(n, v)] ∧
      extractArgs ["-" ++ n, v] = .ok [(n, v)] ∧
      extractArgs ["--" ++ n, v] = .ok [(n, v)] := by
  have h0 : stripPrefix n = n := by
    unfold stripPrefix
    split
    · rename_i r' heq
      exact absurd (by simp [heq]) hn
    · rename_i r' hne heq
      exact absurd (by simp [heq]) hn
    · rfl
  have h2 : stripPrefix ("--" ++ n) = n := by simp [stripPrefix]
  have h1 : stripPrefix ("-" ++ n) = n := by
    cases hd : n.data with
    | nil =>
      have : n = "" := by cases n; simp_all
      subst this
      decide
    | cons c cs =>
      have hc : c ≠ '-' := by
        intro hc
        apply hn
        simp [hd, hc]
      have e : ("-" ++ n).data = '-' :: c :: cs := by simp [hd]
      unfold stripPrefix
      rw [e]
      split
      · rename_i r' heq
        simp at heq
        exact absurd heq.1 hc
      · rename_i r' hne heq
        simp at heq
        rw [← heq, ← hd]
      · rename_i h1 h2
        exact absurd rfl (h2 (c :: cs))
  simp [extractArgs, extractLoop, mapSet, h0, h1, h2]

/-- C10 (amended) at the flag name `arg1`. -/
theorem C10_witness :
    extractArgs ["arg1", "127"] = .ok [("arg1", "127")] ∧
      extractArgs ["-" ++ "arg1", "127"] = .ok [("arg1", "127")] ∧
      extractArgs ["--" ++ "arg1", "127"] = .ok [("arg1", "127")] :=
  C10_dash_cosmetic "arg1" "127" (by decide)

/-! ## Lemmas: `strings.Split` -/

theorem dropWhile_head (p : Char → Bool) (l : List Char) :
    l.dropWhile p = [] ∨ ∃ a t, l.dropWhile p = a :: t ∧ p a = false := by
  induction l with
  | nil => simp
  | cons c cs ih =>
    by_cases hc : p c = true
    · simpa [List.dropWhile, hc] using ih
    · right
      exact ⟨c, cs, by simp [List.dropWhile, hc], by simpa using hc⟩

theorem takeWhile_append_stop (p : Char → Bool) (l r : List Char) (hl : ∀ a ∈ l, p a = true)
    (hr : r = [] ∨ ∃ a t, r = a :: t ∧ p a = false) :
    (l ++ r).takeWhile p = l ∧ (l ++ r).dropWhile p = r := by
  induction l with
  | nil =>
    rcases hr with rfl | ⟨a, t, rfl, ha⟩
    · simp
    · simp [List.takeWhile, List.dropWhile, ha]
  | cons c cs ih =>
    have hc : p c = true := hl c (List.mem_cons_self _ _)
    have := ih (fun a ha => hl a (List.mem_cons_of_mem _ ha))
    simp [List.takeWhile, List.dropWhile, hc, this]

/-- The first piece of a split is the text before the first separator; the other
pieces are the split of what follows that separator. -/
theorem splitChars_eq (sep : Char) (cs : List Char) :
    splitChars sep cs =
      cs.takeWhile (fun c => decide (c ≠ sep)) ::
        (match cs.dropWhile (fun c => decide (c ≠ sep)) with
          | [] => []
          | _ :: r => splitChars sep r) := by
  induction cs with
  | nil => simp [splitChars]
  | cons c cs ih =>
    by_cases hc : c = sep
    · subst hc
      simp [splitChars, List.takeWhile, List.dropWhile]
    · rw [splitChars, if_neg hc, ih]
      simp [List.takeWhile, List.dropWhile, hc]

theorem splitComma_eq (tag : String) :
    splitComma tag =
      ⟨tag.data.takeWhile (fun c => decide (c ≠ ','))⟩ ::
        (match tag.data.dropWhile (fun c => decide (c ≠ ',')) with
          | [] => []
          | _ :: r => (splitChars ',' r).map String.mk) := by
  unfold splitComma
  rw [splitChars_eq]
  cases tag.data.dropWhile (fun c => decide (c ≠ ',')) <;> simp

/-- `parseTag` on a non-empty tag, by the text before the first comma and the
text between the first and the second comma. -/
theorem parseTag_eq (tag : String) (h : tag ≠ "") :
    parseTag tag =
      (⟨tag.data.takeWhile (fun c => decide (c ≠ ','))⟩,
        match tag.data.dropWhile (fun c => decide (c ≠ ',')) with
        | [] => false
        | _ :: r => decide (r.takeWhile (fun c => decide (c ≠ ',')) = "optional".data)) := by
  have hlen : tag.length ≠ 0 := by
    intro h0
    apply h
    cases tag with
    | mk data =>
      have : data = [] := List.length_eq_zero.mp h0
      subst this
      rfl
  unfold parseTag
  rw [if_neg hlen, splitComma_eq]
  cases hd : tag.data.dropWhile (fun c => decide (c ≠ ',')) with
  | nil => rfl
  | cons c r =>
    simp only
    rw [splitChars_eq]
    simp only [List.map_cons]
    congr 1
    have key : ((⟨r.takeWhile (fun c => decide (c ≠ ','))⟩ : String) = "optional") ↔
        (r.takeWhile (fun c => decide (c ≠ ',')) = "optional".data) := by
      constructor
      · intro e; rw [← e]
      · intro e; rw [e]
    exact decide_eq_decide.mpr key

/-- C11: `parseTag` of the empty string is `("", false)`; for every other raw tag
the returned name is the text before the first comma, and the field is optional
if and only if a second comma-separated segment exists and is exactly `optional`
(no trimming, case-sensitive), whatever third or later segments follow; any other
second segment leaves the field required. -/
theorem C11_parse_tag (tag : String) :
    parseTag "" = ("", false) ∧
    (tag ≠ "" →
      (parseTag tag).1 = ⟨tag.data.takeWhile (fun c => decide (c ≠ ','))⟩ ∧
      ((parseTag tag).2 = true ↔
        ∃ name rest : List Char, ',' ∉ name ∧
          tag.data = name ++ ',' :: "optional".data ++ rest ∧
          (rest = [] ∨ ∃ more, rest = ',' :: more))) ∧
    parseTag "n,optional" = ("n", true) ∧ parseTag "n,optional,x" = ("n", true) ∧
    parseTag "n" = ("n", false) ∧ parseTag "n,required" = ("n", false) ∧
    parseTag "n, optional" = ("n", false) ∧ parseTag "n,optional " = ("n", false) ∧
    parseTag "n,Optional" = ("n", false) ∧ parseTag "n,x,optional" = ("n", false) ∧
    parseTag "," = ("", false) := by
  refine ⟨by decide, ?_, by decide, by decide, by decide, by decide, by decide, by decide,
    by decide, by decide, by decide⟩
  intro h
  rw [parseTag_eq tag h]
  refine ⟨rfl, ?_⟩
  simp only
  have hsplit := List.takeWhile_append_dropWhile (fun c => decide (c ≠ ',')) tag.data
  constructor
  · intro hopt
    cases hd : tag.data.dropWhile (fun c => decide (c ≠ ',')) with
    | nil => rw [hd] at hopt; cases hopt
    | cons c r =>
      rw [hd] at hopt hsplit
      simp only [decide_eq_true_eq] at hopt
      have hc : c = ',' := by
        rcases dropWhile_head (fun c => decide (c ≠ ',')) tag.data with h0 | ⟨a, t, h1, h2⟩
        · rw [h0] at hd; cases hd
        · rw [hd] at h1
          injection h1 with h1 _
          subst h1
          simpa using h2
      subst hc
      refine ⟨tag.data.takeWhile (fun c => decide (c ≠ ',')),
        r.dropWhile (fun c => decide (c ≠ ',')), ?_, ?_, ?_⟩
      · intro hmem
        have := List.mem_takeWhile_imp hmem
        simp at this
      · have hr := List.takeWhile_append_dropWhile (fun c => decide (c ≠ ',')) r
        rw [hopt] at hr
        rw [List.append_assoc, List.cons_append, hr, hsplit]
      · rcases dropWhile_head (fun c => decide (c ≠ ',')) r with h0 | ⟨a, t, h1, h2⟩
        · exact Or.inl h0
        · right
          have ha : a = ',' := by simpa using h2
          subst ha
          exact ⟨t, h1⟩
  · rintro ⟨name, rest, hname, hdata, hrest⟩
    have hstop : (',' :: ("optional".data ++ rest) = []) ∨
        ∃ a t, ',' :: ("optional".data ++ rest) = a :: t ∧
          (fun c => decide (c ≠ ',')) a = false :=
      Or.inr ⟨',', _, rfl, by simp⟩
    have h1 := takeWhile_append_stop (fun c => decide (c ≠ ',')) name
      (',' :: ("optional".data ++ rest))
      (fun a ha => by
        have : a ≠ ',' := fun e => hname (e ▸ ha)
        simpa using this) hstop
    have hdata' : tag.data = name ++ (',' :: ("optional".data ++ rest)) := by
      rw [hdata, List.append_assoc, List.cons_append]
    rw [hdata', h1.2]
    have hstop2 : rest = [] ∨ ∃ a t, rest = a :: t ∧ (fun c => decide (c ≠ ',')) a = false := by
      rcases hrest with h0 | ⟨more, h0⟩
      · exact Or.inl h0
      · exact Or.inr ⟨',', more, h0, by simp⟩
    have h2 := takeWhile_append_stop (fun c => decide (c ≠ ',')) "optional".data rest
      (by decide) hstop2
    exact decide_eq_true h2.1

theorem splitChars_ne_nil (sep : Char) (cs : List Char) : splitChars sep cs ≠ [] := by
  rw [splitChars_eq]
  simp

theorem splitChars_length (sep : Char) (cs : List Char) :
    (splitChars sep cs).length = cs.count sep + 1 := by
  induction cs with
  | nil => simp [splitChars]
  | cons c cs ih =>
    by_cases hc : c = sep
    · subst hc
      simp [splitChars, ih]
    · rw [splitChars, if_neg hc]
      have hne : (c == sep) = false := by simpa using hc
      cases hs : splitChars sep cs with
      | nil => exact absurd hs (splitChars_ne_nil sep cs)
      | cons h t =>
        rw [hs] at ih
        simp only [List.length_cons] at ih ⊢
        rw [List.count_cons, hne]
        simpa using ih

theorem splitChars_no_sep (sep : Char) (cs : List Char) :
    ∀ p ∈ splitChars sep cs, sep ∉ p := by
  induction cs with
  | nil => simp [splitChars]
  | cons c cs ih =>
    by_cases hc : c = sep
    · subst hc
      intro p hp
      simp only [splitChars, if_true, List.mem_cons] at hp
      rcases hp with rfl | hp
      · simp
      · exact ih p hp
    · rw [splitChars, if_neg hc]
      cases hs : splitChars sep cs with
      | nil => exact absurd hs (splitChars_ne_nil sep cs)
      | cons h t =>
        rw [hs] at ih
        intro p hp
        simp only [List.mem_cons] at hp
        rcases hp with rfl | hp
        · intro hmem
          rcases List.mem_cons.mp hmem with e | hmem'
          · exact hc e.symm
          · exact ih h (List.mem_cons_self _ _) hmem'
        · exact ih p (List.mem_cons_of_mem _ hp)

/-- Joining the pieces of a split with the separator gives the string back. -/
theorem splitChars_intercalate (sep : Char) (cs : List Char) :
    List.intercalate [sep] (splitChars sep cs) = cs := by
  induction cs with
  | nil => simp [splitChars, List.intercalate]
  | cons c cs ih =>
    by_cases hc : c = sep
    · subst hc
      cases hs : splitChars c cs with
      | nil => exact absurd hs (splitChars_ne_nil c cs)
      | cons h t =>
        rw [hs] at ih
        simp only [splitChars, if_true, hs]
        simp only [List.intercalate, List.intersperse, List.flatten_cons, List.nil_append,
          List.singleton_append] at ih ⊢
        rw [ih]
    · rw [splitChars, if_neg hc]
      cases hs : splitChars sep cs with
      | nil => exact absurd hs (splitChars_ne_nil sep cs)
      | cons h t =>
        rw [hs] at ih
        simp only
        cases t with
        | nil =>
          simp only [List.intercalate, List.intersperse, List.flatten_cons, List.flatten_nil,
            List.append_nil] at ih ⊢
          rw [ih]
        | cons h2 t2 =>
          simp only [List.intercalate, List.intersperse, List.flatten_cons, List.cons_append] at ih ⊢
          rw [ih]

/-! ## Lemmas: `strings.TrimSpace` -/

/-- `trimSpace` removes a run of white space at each end, and what is left neither
starts nor ends with white space. -/
theorem trimSpace_spec (s : String) :
    (∃ l r : List Char, s.data = l ++ (trimSpace s).data ++ r ∧
      (∀ c ∈ l, isSpace c = true) ∧ (∀ c ∈ r, isSpace c = true)) ∧
    (∀ c, (trimSpace s).data.head? = some c → isSpace c = false) ∧
    (∀ c, (trimSpace s).data.getLast? = some c → isSpace c = false) := by
  have hA := List.takeWhile_append_dropWhile isSpace s.data
  have hB := List.takeWhile_append_dropWhile isSpace (s.data.dropWhile isSpace).reverse
  have hB' : s.data.dropWhile isSpace =
      ((s.data.dropWhile isSpace).reverse.dropWhile isSpace).reverse ++
        ((s.data.dropWhile isSpace).reverse.takeWhile isSpace).reverse := by
    have h1 := congrArg List.reverse hB
    rw [List.reverse_append, List.reverse_reverse] at h1
    exact h1.symm
  have htrim : (trimSpace s).data =
      ((s.data.dropWhile isSpace).reverse.dropWhile isSpace).reverse := rfl
  refine ⟨⟨s.data.takeWhile isSpace,
    ((s.data.dropWhile isSpace).reverse.takeWhile isSpace).reverse, ?_, ?_, ?_⟩, ?_, ?_⟩
  · rw [htrim, List.append_assoc, ← hB', hA]
  · intro c hc
    exact List.mem_takeWhile_imp hc
  · intro c hc
    exact List.mem_takeWhile_imp (List.mem_reverse.mp hc)
  · intro c hc
    rw [htrim] at hc
    -- the head of the trimmed text is the head of the text after the leading run
    cases hT : ((s.data.dropWhile isSpace).reverse.dropWhile isSpace).reverse with
    | nil => rw [hT] at hc; cases hc
    | cons a t =>
      rw [hT] at hc hB'
      simp only [List.head?_cons, Option.some.injEq] at hc
      subst hc
      rcases dropWhile_head isSpace s.data with h0 | ⟨b, u, h1, h2⟩
      · rw [h0] at hB'; cases hB'
      · rw [h1] at hB'
        simp only [List.cons_append, List.cons.injEq] at hB'
        rw [← hB'.1]
        exact h2
  · intro c hc
    rw [htrim, List.getLast?_reverse] at hc
    rcases dropWhile_head isSpace (s.data.dropWhile isSpace).reverse with h0 | ⟨b, u, h1, h2⟩
    · rw [h0] at hc; cases hc
    · rw [h1] at hc
      simp only [List.head?_cons, Option.some.injEq] at hc
      subst hc
      exact h2

theorem trimSpace_subset (s : String) : ∀ c ∈ (trimSpace s).data, c ∈ s.data := by
  obtain ⟨⟨l, r, h, -, -⟩, -, -⟩ := trimSpace_spec s
  intro c hc
  rw [h]
  simp [hc]

/-- C13: for every raw value `s` the string-list coercion never fails, and its
result is never the nil slice.  It is the empty slice, present, when `s` is empty,
and otherwise the pieces of `s` between its commas (joined with `,` they give `s`
back, and none contains a comma), each trimmed of surrounding white space, in
order.  Hence the result is empty if and only if `s` is empty, a non-empty `s`
yields (number of commas in `s`) + 1 elements, and no element contains a comma or
starts or ends with white space.  On the zero value of `ArgStructString`, whose
slice is nil, the tokens `arg1 xxx arg2 ""` leave the empty slice that is not nil. -/
theorem C13_string_list (env : Env) (s : String) :
    coerce env "[]string" s = some (.ok (.prim (.strs (parseStringArray s)))) ∧
    parseStringArray s ≠ .nil ∧
    parseStringArray "" = .of [] ∧
    (s ≠ "" →
      parseStringArray s = .of ((splitComma s).map trimSpace) ∧
      List.intercalate [','] ((splitComma s).map String.data) = s.data ∧
      (∀ p ∈ splitComma s, ',' ∉ p.data)) ∧
    (∀ p : String, (∃ l r : List Char, p.data = l ++ (trimSpace p).data ++ r ∧
      (∀ c ∈ l, isSpace c = true) ∧ (∀ c ∈ r, isSpace c = true))) ∧
    (parseStringArray s = .of [] ↔ s = "") ∧
    (∃ l, parseStringArray s = .of l ∧
      (s ≠ "" → l.length = s.data.count ',' + 1) ∧
      (∀ e ∈ l, ',' ∉ e.data ∧
        (∀ c, e.data.head? = some c → isSpace c = false) ∧
        (∀ c, e.data.getLast? = some c → isSpace c = false))) ∧
    parseStringArray "a, b,c" = .of ["a", "b", "c"] ∧
    ParseArgv env (.ptrStruct ArgStructString) ["arg1", "xxx", "arg2", ""] =
      (.ptrStruct (.leaf (exported "string" "arg1") (.str "xxx")
        (.leaf (exported "[]string" "arg2") (.strs (.of [])) .nil)), .nil) ∧
    Prim.strs (.of []) ≠ Prim.strs .nil := by
  have hlen : s ≠ "" → s.length ≠ 0 := by
    intro h h0
    apply h
    cases s with
    | mk data =>
      have : data = [] := List.length_eq_zero.mp h0
      subst this
      rfl
  have hmapdata : (splitComma s).map String.data = splitChars ',' s.data := by
    simp [splitComma, Function.comp_def]
  have hne : s ≠ "" → parseStringArray s = .of ((splitComma s).map trimSpace) := by
    intro h
    simp [parseStringArray, hlen h]
  have hnosep : ∀ p ∈ splitComma s, ',' ∉ p.data := by
    intro p hp
    simp only [splitComma, List.mem_map] at hp
    obtain ⟨q, hq, rfl⟩ := hp
    exact splitChars_no_sep ',' s.data q hq
  have hcount : (splitComma s).length = s.data.count ',' + 1 := by
    simp [splitComma, splitChars_length]
  have hrun : ParseArgv env (.ptrStruct ArgStructString) ["arg1", "xxx", "arg2", ""] =
      (.ptrStruct (.leaf (exported "string" "arg1") (.str "xxx")
        (.leaf (exported "[]string" "arg2") (.strs (.of [])) .nil)), .nil) := by
    have h1 : extractArgs ["arg1", "xxx", "arg2", ""] = .ok [("arg1", "xxx"), ("arg2", "")] := rfl
    have ht1 : parseTag "arg1" = ("arg1", false) := by decide
    have ht2 : parseTag "arg2" = ("arg2", false) := by decide
    have hp : parseStringArray "" = .of [] := by decide
    have hl1 : ¬ "arg1".length = 0 := by decide
    have hl2 : ¬ "arg2".length = 0 := by decide
    simp [ParseArgv, h1, parseArgv, ArgStructString, parseFields, exported, fieldAction, ht1, ht2,
      coerceAny, assignableTo, setLeaf, hp, lookup_cons_eq, hl1, hl2]
  refine ⟨by simp [coerce, coerceAny], ?_, by decide, ?_, fun p => (trimSpace_spec p).1, ?_, ?_,
    by decide, hrun, by decide⟩
  · unfold parseStringArray
    split <;> simp
  · intro h
    exact ⟨hne h, by rw [hmapdata, splitChars_intercalate], hnosep⟩
  · constructor
    · intro h
      by_contra hs
      rw [hne hs] at h
      have : (splitComma s).length = 0 := by
        simp only [StrSlice.of.injEq] at h
        have := congrArg List.length h
        simpa using this
      omega
    · rintro rfl
      decide
  · by_cases hs : s = ""
    · subst hs
      exact ⟨[], by decide, fun h => absurd rfl h, fun e he => by cases he⟩
    · refine ⟨_, hne hs, fun _ => by simp [hcount], ?_⟩
      intro e he
      obtain ⟨p, hp, rfl⟩ := List.mem_map.mp he
      obtain ⟨-, h2, h3⟩ := trimSpace_spec p
      exact ⟨fun hc => hnosep p hp (trimSpace_subset p _ hc), h2, h3⟩

theorem coerce_bool_reject (env : Env) (raw : String) (h : boolLiteral raw = none) :
    coerce env "bool" raw = some (.error (.num (syntaxError "ParseBool" raw))) := by
  have hp : parseBool raw = .error (syntaxError "ParseBool" raw) := by
    unfold boolLiteral at h
    unfold parseBool ParseBool
    split at h
    · cases h
    · rename_i hm
      simp only [List.mem_cons, List.mem_singleton, List.not_mem_nil, or_false] at hm
      split at h
      · cases h
      · rename_i hm2
        simp only [List.mem_cons, List.mem_singleton, List.not_mem_nil, or_false] at hm2
        rw [if_neg hm, if_neg hm2]
  simp [coerce, coerceAny, hp]

/-- C12, as stated, fails for a tagged bool field that is not exported: given
`true` the mapper skips the field, which stays `false`, and returns no error. -/
theorem C12_counterexample :
    fieldAction startEnv [("arg1", "true")] false (unexported "bool" "arg1") = .skip ∧
      ParseArgv startEnv (.ptrStruct (flat [(unexported "bool" "arg1", .bool false)]))
          ["arg1", "true"] =
        (.ptrStruct (flat [(unexported "bool" "arg1", .bool false)]), .nil) := by
  decide

/-- A field that is not accessible is skipped, whatever its tag, its type and the
arguments. -/
theorem fieldAction_inaccessible (env : Env) (args : Args) (b : Bool) (info : FieldInfo)
    (hci : info.canInterface = false) : fieldAction env args b info = .skip := by
  unfold fieldAction
  rcases parseTag info.tag with ⟨n, opt⟩
  by_cases hn : n.length = 0
  · simp [hn]
  · simp [hn, hci]

/-- C12 (amended): for every tagged bool field.  When the field is accessible
(exported) and its argument is present, the raw values `true` and `1` set the
field to true, `false` and `0` set it to false, and the raw value `yes`, like any
other token that is not a boolean literal (such as `2.0`), is rejected with
`InvalidValue(name, cause)`, leaving the field unchanged.  A field that is not
accessible is skipped, whatever its type, its tag and the arguments: it keeps its
value and no error is returned. -/
theorem C12_bool_field (env : Env) (args : Args) (isInterface : Bool) (info : FieldInfo)
    (cur : Prim) (hty : info.typ = "bool")
    (hn : (parseTag info.tag).1.length ≠ 0) :
    (∀ raw, List.lookup (parseTag info.tag).1 args = some raw →
      info.canInterface = true → info.canSet = true →
      ((raw = "true" ∨ raw = "1") →
        setLeaf (fieldAction env args isInterface info) cur = (.bool true, .nil)) ∧
      ((raw = "false" ∨ raw = "0") →
        setLeaf (fieldAction env args isInterface info) cur = (.bool false, .nil)) ∧
      (∀ b, boolLiteral raw = some b →
        setLeaf (fieldAction env args isInterface info) cur = (.bool b, .nil)) ∧
      (boolLiteral raw = none →
        fieldAction env args isInterface info =
            .fail (ErrInvalidValue (parseTag info.tag).1 (.num (syntaxError "ParseBool" raw))) ∧
          setLeaf (fieldAction env args isInterface info) cur =
            (cur, .err (ErrInvalidValue (parseTag info.tag).1
              (.num (syntaxError "ParseBool" raw)))))) ∧
    (∀ (other : FieldInfo) (b : Bool) (held : Prim), other.canInterface = false →
      fieldAction env args b other = .skip ∧
      setLeaf (fieldAction env args b other) held = (held, .nil)) ∧
    boolLiteral "yes" = none ∧ boolLiteral "2.0" = none := by
  refine ⟨?_, ?_, by decide, by decide⟩
  · intro raw hl hci hcs
    have hact := fieldAction_present_eq env args isInterface info raw hn hci hcs hl
      (by rw [hty]; decide)
    rw [hty] at hact
    have hlit : ∀ b, boolLiteral raw = some b →
        setLeaf (fieldAction env args isInterface info) cur = (.bool b, .nil) := by
      intro b hb
      rw [hact, coerce_bool env raw b hb]
      rfl
    refine ⟨?_, ?_, hlit, ?_⟩
    · rintro (rfl | rfl) <;> exact hlit true (by decide)
    · rintro (rfl | rfl) <;> exact hlit false (by decide)
    · intro hb
      rw [hact, coerce_bool_reject env raw hb]
      exact ⟨rfl, rfl⟩
  · intro other b held hci
    rw [fieldAction_inaccessible env args b other hci]
    exact ⟨rfl, rfl⟩

/-- C12 (amended) at the field `Arg1 bool "argv:arg1"` of `argv_test.go`, given
`yes`, and at a field `arg1 bool "argv:arg1"` that is not exported, given `true`. -/
theorem C12_witness :
    boolLiteral "yes" = none ∧
      setLeaf (fieldAction startEnv [("arg1", "yes")] false (exported "bool" "arg1")) (.bool false) =
        (.bool false, .err (ErrInvalidValue "arg1" (.num (syntaxError "ParseBool" "yes")))) ∧
      setLeaf (fieldAction startEnv [("arg1", "true")] false (unexported "bool" "arg1"))
        (.bool false) = (.bool false, .nil) :=
  ⟨by decide,
    (((C12_bool_field startEnv [("arg1", "yes")] false (exported "bool" "arg1") (.bool false)
      rfl (by decide)).1 "yes" (by decide) rfl rfl).2.2.2 (by decide)).2,
    ((C12_bool_field startEnv [("arg1", "true")] false (unexported "bool" "arg1")
      (.bool false) rfl (by decide)).2.1 (unexported "bool" "arg1") false (.bool false) rfl).2⟩

/-- C15: for every destination, the field mapper called with an empty argument
mapping returns success and leaves the destination as it was: also for a record
with required tagged fields, for a destination that is not a pointer, for a
pointer to something that is not a record, and for nil. -/
theorem C15_empty_mapping (env : Env) (dest : Dest) :
    parseArgv env dest [] = (dest, .nil) ∧
    parseArgv env (.ptrStruct ArgStructInt) [] = (.ptrStruct ArgStructInt, .nil) ∧
    parseArgv env .notPtr [] = (.notPtr, .nil) ∧
    parseArgv env .ptrNonStruct [] = (.ptrNonStruct, .nil) ∧
    parseArgv env .untypedNil [] = (.untypedNil, .nil) ∧
    parseArgv env .notPtr [("a", "1")] = (.notPtr, .err ErrInvalidDest) ∧
    parseArgv env .ptrNonStruct [("a", "1")] = (.ptrNonStruct, .err ErrInvalidDestType) := by
  refine ⟨?_, ?_, ?_, ?_, ?_, ?_, ?_⟩ <;> simp [parseArgv]

/-- The `default` case of the `switch fType`: for a type that is not built in, the
registry decides. -/
theorem coerceAny_default (env : Env) (fType raw : String) (h : fType ∉ builtinTypes) :
    coerceAny env fType raw =
      match List.lookup fType env.fieldParser with
      | some fn => some (fn raw)
      | none => none := by
  simp only [builtinTypes, List.mem_cons, List.mem_singleton, List.not_mem_nil, or_false,
    not_or] at h
  obtain ⟨h1, h2, h3, h4, h5, h6, h7, h8, h9, h10, h11, h12, h13, h14, h15⟩ := h
  unfold coerceAny
  simp only [h1, h2, h3, h4, h5, h6, h7, h8, h9, h10, h11, h12, h13, h14, h15, or_self, if_false]

/-- A value that is written to a field that can hold it. -/
theorem visitStep_set (env : Env) (args : Args) (info : FieldInfo) (cur v : Val)
    (h : fieldAction env args info.kindInterface info = .set v)
    (hs : info.kindInterface = true ∨ sameSort cur v = true) :
    visitStep env args (.field info cur) = (.field info v, .nil) := by
  by_cases hk : info.kindInterface = true
  · simp [visitStep, visitAction, hk, setInterface, hk ▸ h]
  · have hk' : info.kindInterface = false := by simpa using hk
    rcases hs with hs | hs
    · exact absurd hs hk
    · cases cur with
      | prim p =>
        cases v with
        | prim q => simp [visitStep, visitAction, hk', setLeaf, hk' ▸ h]
        | struct t => simp [sameSort] at hs
      | struct s =>
        cases v with
        | prim q => simp [sameSort] at hs
        | struct t => simp [visitStep, visitAction, hk', setSub, hk' ▸ h]

/-- C18, as stated, fails in two ways.  A tagged field that is not exported is
skipped: for an `int16` field whose argument is present the mapper returns no
error instead of `NotSupported`.  And the result of a registered coercion is not
written when it is not assignable to the field: with a coercion for `int16` that
returns a string, `field.Set` panics. -/
theorem C18_counterexample :
    "int16" ∉ builtinTypes ∧ List.lookup "arg1" [("arg1", "1")] = some "1" ∧
      fieldAction startEnv [("arg1", "1")] false (unexported "int16" "arg1") = .skip ∧
      ParseArgv startEnv (.ptrStruct (flat [(unexported "int16" "arg1", .int 0)])) ["arg1", "1"] =
        (.ptrStruct (flat [(unexported "int16" "arg1", .int 0)]), .nil) ∧
      ParseArgv (AddParser startEnv "int16" oopsParser)
          (.ptrStruct (flat [(exported "int16" "arg1", .int 0)])) ["arg1", "1"] =
        (.ptrStruct (flat [(exported "int16" "arg1", .int 0)]), .panic) := by
  decide

/-- C18 (amended): for every tagged leaf field whose type is not one of the
built-in types.  When the field is accessible and settable (exported) and its
argument is present: if a coercion is registered for the type identifier of the
field, it is invoked on the raw value; on success its result is written to the
field when `reflect` finds it assignable to the field (a field of interface kind
holds a value of either sort, another field a value of its own sort), and
`field.Set` panics when it is not assignable; its error is returned wrapped as
`InvalidValue(name, error)` on failure; if none is registered the mapper fails with
`NotSupported(name)`.  A field that is not accessible is skipped, whatever its
type, its tag and the arguments.  The coercion registered last for an identifier is the registered one, and registering
for another identifier changes nothing. -/
theorem C18_registry (env : Env) (args : Args) (isInterface : Bool) (info : FieldInfo)
    (hty : info.typ ∉ builtinTypes)
    (hn : (parseTag info.tag).1.length ≠ 0) :
    (∀ raw, List.lookup (parseTag info.tag).1 args = some raw →
      info.canInterface = true → info.canSet = true →
      (∀ fn, List.lookup info.typ env.fieldParser = some fn →
        (∀ a, fn raw = .ok a →
          (assignableTo env a.typ info.typ = true →
            fieldAction env args isInterface info = .set a.val ∧
            (∀ cur, (info.kindInterface = true ∨ sameSort cur a.val = true) →
              visitStep env args (.field info cur) = (.field info a.val, .nil))) ∧
          (assignableTo env a.typ info.typ = false →
            fieldAction env args isInterface info = .panic)) ∧
        (∀ err, fn raw = .error err →
          fieldAction env args isInterface info =
            .fail (ErrInvalidValue (parseTag info.tag).1 err))) ∧
      (List.lookup info.typ env.fieldParser = none →
        fieldAction env args isInterface info = .fail (ErrNotSupported (parseTag info.tag).1))) ∧
    (∀ (other : FieldInfo) (b : Bool), other.canInterface = false →
      fieldAction env args b other = .skip) ∧
    (∀ fn0 fn, List.lookup info.typ
      (AddParser (AddParser env info.typ fn0) info.typ fn).fieldParser = some fn) ∧
    (∀ t fn, t ≠ info.typ →
      List.lookup info.typ (AddParser env t fn).fieldParser =
        List.lookup info.typ env.fieldParser) := by
  refine ⟨?_, fun other b hci => fieldAction_inaccessible env args b other hci, ?_, ?_⟩
  · intro raw hl hci hcs
    have hact : ∀ b, fieldAction env args b info = _ :=
      fun b => fieldAction_present_any env args b info raw hn hci hcs hl
    rw [coerceAny_default env info.typ raw hty] at hact
    constructor
    · intro fn hfn
      rw [hfn] at hact
      simp only at hact
      constructor
      · intro a ha
        rw [ha] at hact
        simp only at hact
        constructor
        · intro hat
          rw [hat] at hact
          simp only [if_true] at hact
          exact ⟨hact _, fun cur hs => visitStep_set env args info cur a.val (hact _) hs⟩
        · intro hat
          rw [hat] at hact
          simpa using hact isInterface
      · intro err herr
        rw [herr] at hact
        exact hact _
    · intro hnone
      rw [hnone] at hact
      exact hact _
  · intro fn0 fn
    simp [AddParser, lookup_mapSet]
  · intro t fn ht
    have : ¬ info.typ = t := fun e => ht e.symm
    simp [AddParser, lookup_mapSet, this]

/-- C18 (amended) at an exported `int16` field with no registered coercion, at the
same field after a coercion for `int16` is registered, and at a field of type `any`
for which a registered coercion returns a struct value. -/
theorem C18_witness :
    fieldAction startEnv [("arg1", "1")] false (exported "int16" "arg1") =
        .fail (ErrNotSupported "arg1") ∧
      fieldAction (AddParser startEnv "int16" sevenParser) [("arg1", "1")]
        false (exported "int16" "arg1") = .set (.prim (.int 7)) ∧
      ParseArgv (AddParser startEnv "interface {}" pointParser)
          (.ptrStruct (.leaf (exportedAny "p") (.dyn "nil") .nil)) ["p", "1,2"] =
        (.ptrStruct (.sub (exportedAny "p")
          (.leaf (exported "int" "") (.int 1) (.leaf (exported "int" "") (.int 2) .nil)) .nil),
          .nil) :=
  ⟨((C18_registry startEnv [("arg1", "1")] false (exported "int16" "arg1") (by decide)
      (by decide)).1 "1" (by decide) rfl rfl).2 rfl,
    (((((C18_registry (AddParser startEnv "int16" sevenParser) [("arg1", "1")]
      false (exported "int16" "arg1") (by decide) (by decide)).1 "1" (by decide) rfl rfl).1
        sevenParser rfl).1 ⟨some "int16", .prim (.int 7)⟩ rfl).1 (by decide)).1,
    by decide⟩

/-! ## Lemmas: the name enumerator -/

theorem namesOfFields_leaf (env : Env) (info : FieldInfo) (rest : Struct) :
    (let fieldName := (parseTag info.tag).1
      if fieldName.length = 0 then namesOfFields env rest
      else if !info.canInterface then namesOfFields env rest
      else (namesOfFields env rest).map (fieldName :: ·)) =
      (namesOfFields env rest).map (leafName info ++ ·) := by
  unfold leafName
  by_cases h0 : (parseTag info.tag).1.length = 0
  · cases namesOfFields env rest <;> simp [h0]
  · by_cases hci : info.canInterface = true
    · cases namesOfFields env rest <;> simp [h0, hci]
    · cases namesOfFields env rest <;> simp [h0, hci]

/-- The loop of `ParseNames` returns the enumeration of the specification on a
record that can be entered everywhere, and panics on any other record. -/
theorem namesOfFields_eq (env : Env) (s : Struct) :
    namesOfFields env s = if Enterable env s = true then some (namesSpec env s) else none := by
  induction s with
  | nil => simp [namesOfFields, Enterable, namesSpec]
  | leaf info v rest ih =>
    rw [namesOfFields, namesOfFields_leaf, ih]
    by_cases he : Enterable env rest = true <;> simp [Enterable, namesSpec, he]
  | sub info inner rest ihi ihr =>
    by_cases hlf : (info.kindInterface || isReserved env info.typ) = true
    · have hcond : (!info.kindInterface && !isReserved env info.typ) = false := by
        cases hk : info.kindInterface <;> cases hr : isReserved env info.typ <;> simp_all
      rw [namesOfFields]
      simp only [hcond, Bool.false_eq_true, if_false]
      rw [namesOfFields_leaf, ihr]
      by_cases he : Enterable env rest = true <;> simp [Enterable, namesSpec, he, hlf]
    · have hk : info.kindInterface = false := by
        cases hk : info.kindInterface <;> simp_all
      have hres : isReserved env info.typ = false := by
        cases hr : isReserved env info.typ <;> simp_all
      rw [namesOfFields]
      by_cases hci : info.canInterface = true
      · simp only [hk, hres, hci, Bool.not_true, Bool.false_eq_true, if_false, Bool.not_false,
          if_true, Bool.and_self]
        rw [ihi, ihr]
        by_cases hei : Enterable env inner = true <;>
          by_cases he : Enterable env rest = true <;>
            simp [Enterable, namesSpec, he, hei, hk, hres, hci]
      · simp [hk, hres, hci, Enterable]

/-- On a record that can be entered everywhere, the enumeration of the
specification lists the names of the stops of the depth-first traversal. -/
theorem namesSpec_visits (env : Env) (s : Struct) (h : Enterable env s = true) :
    namesSpec env s = (visits env s).filterMap visitName := by
  induction s with
  | nil => simp [namesSpec, visits]
  | leaf info v rest ih =>
    simp only [Enterable] at h
    rw [namesSpec, visits, ih h]
    by_cases hp : (parseTag info.tag).1.length ≠ 0 ∧ info.canInterface = true
    · simp [leafName, visitName, hp, List.filterMap_cons]
    · simp [leafName, visitName, hp, List.filterMap_cons]
  | sub info inner rest ihi ihr =>
    simp only [Enterable, Bool.and_eq_true, Bool.or_eq_true] at h
    obtain ⟨h1, h2⟩ := h
    by_cases hlf : (info.kindInterface || isReserved env info.typ) = true
    · rw [namesSpec, visits, ihr h2]
      by_cases hp : (parseTag info.tag).1.length ≠ 0 ∧ info.canInterface = true
      · simp [leafName, visitName, hp, hlf, List.filterMap_cons]
      · simp [leafName, visitName, hp, hlf, List.filterMap_cons]
    · rcases h1 with h1 | ⟨hci, hei⟩
      · exact absurd (by simpa using h1) hlf
      · rw [namesSpec, visits, ihr h2, ihi hei]
        simp [hlf, hci, List.filterMap_append]

theorem count_filterMap {α : Type} (f : α → Option String) (n : String) (l : List α) :
    (l.filterMap f).count n = (l.filter (fun y => decide (f y = some n))).length := by
  induction l with
  | nil => simp
  | cons a t ih =>
    cases hf : f a with
    | none => simp [List.filterMap_cons, hf, ih]
    | some m =>
      by_cases hm : m = n
      · subst hm
        simp [List.filterMap_cons, hf, ih]
      · have hne : (m == n) = false := by simpa using hm
        simp [List.filterMap_cons, hf, ih, hm, List.count_cons, hne]

/-- A tag `n,optional` and the tag `n` name the same flag. -/
theorem parseTag_optional (n : String) (h0 : n ≠ "") (hc : ',' ∉ n.data) :
    parseTag (n ++ ",optional") = (n, true) ∧ parseTag n = (n, false) := by
  have p1 : ∀ a ∈ n.data, (fun c => decide (c ≠ ',')) a = true := by
    intro a ha
    have : a ≠ ',' := fun e => hc (e ▸ ha)
    simpa using this
  constructor
  · have hne : n ++ ",optional" ≠ "" := by
      intro e
      have := congrArg String.length e
      simp at this
      exact absurd this.2 (by decide)
    have hd : (n ++ ",optional").data = n.data ++ (',' :: "optional".data) := by
      simp
    have h1 := takeWhile_append_stop (fun c => decide (c ≠ ',')) n.data (',' :: "optional".data)
      p1 (Or.inr ⟨',', _, rfl, by simp⟩)
    rw [parseTag_eq _ hne, hd, h1.1, h1.2]
    rfl
  · have h1 := takeWhile_append_stop (fun c => decide (c ≠ ',')) n.data [] p1 (Or.inl rfl)
    rw [List.append_nil] at h1
    rw [parseTag_eq _ h0, h1.1, h1.2]

/-- On a record that `ParseNames` can enter everywhere (every nested struct whose
type is not reserved is accessible), `ParseNames` returns exactly the
concatenation, over the fields in declaration order, of the enumeration of a
nested record whose type is not reserved, and otherwise of the tag name of the
field when that name is non-empty and the field is accessible.  The result lists
the names of the stops of the depth-first traversal in order, a name occurs as
often as it is declared (no deduplication), and a field tagged `n,optional`
contributes the same name as one tagged `n`.  On every other record `ParseNames`
panics. -/
theorem names_enumeration (env : Env) (s : Struct) :
    (Enterable env s = true →
      ParseNames env (.ptrStruct s) = .names (namesSpec env s) ∧
      namesSpec env s = (visits env s).filterMap visitName ∧
      (∀ n, (namesSpec env s).count n =
        ((visits env s).filter (fun y => decide (visitName y = some n))).length)) ∧
    (Enterable env s = false → ParseNames env (.ptrStruct s) = .panic) ∧
    (∀ (n : String) (info : FieldInfo) (v : Val), n ≠ "" → ',' ∉ n.data →
      visitName (.field { info with tag := n ++ ",optional" } v) =
        visitName (.field { info with tag := n } v)) := by
  refine ⟨fun hvalid => ⟨?_, namesSpec_visits env s hvalid, ?_⟩, ?_, ?_⟩
  · simp [ParseNames, namesOfFields_eq, hvalid]
  · intro n
    rw [namesSpec_visits env s hvalid, count_filterMap]
  · intro h
    simp [ParseNames, namesOfFields_eq, h]
  · intro n info v h0 hc
    obtain ⟨h1, h2⟩ := parseTag_optional n h0 hc
    simp [visitName, h1, h2]

/-- C14 at a record whose nested record sits in an unexported field
(`ConfigPrivate`): the concatenation that the specification describes is
`[name, max]`, the name of the first field followed by the result for the nested
record; `ParseNames` panics instead, at `Addr().Interface()` on the unexported
field.  With the nested record in an exported field the result is `[name, max]`,
and so is it for `CertInfo` of `examples/nested/main.go`, in declaration order and
with the optional `O` among the names. -/
theorem C14_failing_input :
    ParseNames startEnv (.ptrStruct ConfigPrivate) = .panic ∧
    namesSpec startEnv ConfigPrivate = ["name", "max"] ∧
    isReserved startEnv "main.limits" = false ∧
    ParseNames startEnv (.ptrStruct (.leaf (exported "uint32" "max") (.uint 0) .nil)) =
      .names ["max"] ∧
    ParseNames startEnv (.ptrStruct
      (.leaf (exported "string" "name") (.str "")
        (.sub (exported "main.limits" "")
          (.leaf (exported "uint32" "max") (.uint 0) .nil) .nil))) = .names ["name", "max"] ∧
    ParseNames startEnv (.ptrStruct CertInfo) =
      .names ["CN", "OU", "O", "alg", "bits", "days"] := by
  decide

/-- A tagged, accessible field that is not optional is never skipped. -/
theorem fieldAction_required_not_skip (env : Env) (args : Args) (b : Bool) (info : FieldInfo)
    (hn : (parseTag info.tag).1.length ≠ 0) (hci : info.canInterface = true)
    (hreq : (parseTag info.tag).2 = false) : fieldAction env args b info ≠ .skip := by
  unfold fieldAction
  rcases ht : parseTag info.tag with ⟨n, opt⟩
  rw [ht] at hn hreq
  simp only at hn hreq ⊢
  subst hreq
  rw [if_neg hn]
  simp only [hci, Bool.not_true, Bool.false_eq_true, if_false]
  split
  · simp
  · split
    · simp
    · split
      · simp
      · simp
      · split <;> simp

theorem lookup_some_mem {α : Type} (k : String) (v : α) (l : List (String × α))
    (h : List.lookup k l = some v) : k ∈ l.map Prod.fst := by
  by_contra hk
  have : List.lookup k l = none := by
    rw [lookup_eq_none_of]
    intro p hp hpk
    exact hk (List.mem_map.mpr ⟨p, hp, hpk⟩)
  rw [this] at h
  cases h

/-- C16: for every record and every token list on which `ParseArgv` returns no
error, every tagged, accessible leaf field of the record tree (the stops of the
depth-first traversal, at any nesting depth) that is not marked optional has its
tag name among the prefix-stripped flag names of the token list and holds the
coercion of the value supplied for that name. -/
theorem C16_success_means_satisfied (env : Env) (s : Struct) (tokens : List String) (d' : Dest)
    (h : ParseArgv env (.ptrStruct s) tokens = (d', .nil)) :
    ∃ s', d' = .ptrStruct s' ∧
      List.Forall₂ (SatisfiedStop env tokens) (visits env s) (visits env s') := by
  have h0 : tokens.length ≠ 0 := by
    intro h0
    simp [ParseArgv, h0] at h
  have heven : tokens.length % 2 = 0 := by
    by_contra hodd
    simp [ParseArgv, h0, extractArgs_odd tokens (by omega)] at h
  rw [ParseArgv_struct env s tokens h0 heven] at h
  simp only [Prod.mk.injEq] at h
  obtain ⟨hd, ho⟩ := h
  have hargs := extractLoop_nonempty tokens h0 heven
  obtain ⟨r1, r2⟩ := parseFields_refines env (extractLoop tokens []) hargs s
  have hrun : runVisits env (extractLoop tokens []) (visits env s) =
      (visits env (parseFields env (extractLoop tokens []) s).1, .nil) := by
    rw [r1, ← ho, r2]
  refine ⟨_, hd.symm, List.Forall₂.imp ?_ (runVisits_nil env _ _ _ hrun)⟩
  intro y y' hstep
  have hlook : ∀ k, List.lookup k (extractLoop tokens []) =
      List.lookup k (tokenPairs tokens).reverse := by
    intro k
    rw [lookup_extractLoop _ tokens (le_refl _)]
    cases List.lookup k (tokenPairs tokens).reverse <;> simp
  rcases visitStep_nil env _ y y' hstep with ⟨hskip, hy⟩ | ⟨info, cur, v, hy, hset, hy'⟩
  · subst hy
    cases y' with
    | blocked info inner => simp [visitAction] at hskip
    | field info cur =>
      refine ⟨info, cur, cur, rfl, rfl, ?_⟩
      intro hn hci hreq
      exfalso
      cases cur with
      | prim p => exact fieldAction_required_not_skip env _ _ info hn hci hreq hskip
      | struct t => exact fieldAction_required_not_skip env _ _ info hn hci hreq hskip
  · subst hy; subst hy'
    have hb : ∃ b, fieldAction env (extractLoop tokens []) b info = .set v := by
      cases cur with
      | prim p => exact ⟨_, hset⟩
      | struct t => exact ⟨_, hset⟩
    obtain ⟨b, hb⟩ := hb
    obtain ⟨-, -, -, raw, hl, hc⟩ := fieldAction_set env _ b info v hb
    refine ⟨info, cur, v, rfl, rfl, ?_⟩
    intro _ _ _
    rw [hlook] at hl
    refine ⟨?_, raw, hl, hc⟩
    have := lookup_some_mem _ _ _ hl
    simpa using this

/-- C16 at `CertInfo` with tokens that supply every required flag, the nested ones
included; and at a record with a field of type `any`, with a registered coercion
that returns a struct value, which the interface holds afterwards. -/
theorem C16_witness :
    (∃ s', ParseArgv startEnv (.ptrStruct CertInfo)
        ["CN", "x", "--OU", "y", "-alg", "rsa", "bits", "2048", "days", "30"] =
        (.ptrStruct s', .nil) ∧
      List.Forall₂
        (SatisfiedStop startEnv ["CN", "x", "--OU", "y", "-alg", "rsa", "bits", "2048", "days", "30"])
        (visits startEnv CertInfo) (visits startEnv s')) ∧
    ∃ s', ParseArgv pointEnv (.ptrStruct AnyThenInt) ["p", "1,2", "n", "5"] =
        (.ptrStruct s', .nil) ∧
      s' = .sub (exportedAny "p") pointValue (.leaf (exported "int" "n") (.int 5) .nil) ∧
      List.Forall₂ (SatisfiedStop pointEnv ["p", "1,2", "n", "5"])
        (visits pointEnv AnyThenInt) (visits pointEnv s') := by
  have hrun : (ParseArgv startEnv (.ptrStruct CertInfo)
      ["CN", "x", "--OU", "y", "-alg", "rsa", "bits", "2048", "days", "30"]).2 = .nil := by
    decide
  obtain ⟨s', h1, h2⟩ := C16_success_means_satisfied startEnv CertInfo
    ["CN", "x", "--OU", "y", "-alg", "rsa", "bits", "2048", "days", "30"] _
    (Prod.ext rfl hrun)
  have hrun2 : ParseArgv pointEnv (.ptrStruct AnyThenInt) ["p", "1,2", "n", "5"] =
      (.ptrStruct (.sub (exportedAny "p") pointValue (.leaf (exported "int" "n") (.int 5) .nil)),
        .nil) := by
    decide
  obtain ⟨t', k1, k2⟩ := C16_success_means_satisfied pointEnv AnyThenInt
    ["p", "1,2", "n", "5"] _ hrun2
  have k3 : t' = .sub (exportedAny "p") pointValue (.leaf (exported "int" "n") (.int 5) .nil) := by
    injection k1 with k1
    exact k1.symm
  exact ⟨⟨s', by rw [← h1]; exact Prod.ext rfl hrun, h2⟩, t', by rw [k3]; exact hrun2, k3, k2⟩

/-! ## Lemmas: unknown flags -/

theorem mapSet_length_ne_zero {α : Type} (m : List (String × α)) (k : String) (v : α) :
    (mapSet m k v).length ≠ 0 := by
  cases m with
  | nil => simp [mapSet]
  | cons p ps =>
    obtain ⟨a, b⟩ := p
    simp only [mapSet]
    split <;> simp

/-- An entry under a key that is not the name of the field does not change what
the else-branch does with the field. -/
theorem fieldAction_mapSet (env : Env) (args : Args) (b : Bool) (info : FieldInfo)
    (k v : String) (hk : k ∉ leafName info) :
    fieldAction env (mapSet args k v) b info = fieldAction env args b info := by
  unfold fieldAction
  rcases ht : parseTag info.tag with ⟨n, opt⟩
  simp only
  by_cases hn : n.length = 0
  · simp [hn]
  · by_cases hci : info.canInterface = true
    · have hne : ¬ n = k := by
        intro e
        subst e
        apply hk
        simp [leafName, ht, hn, hci]
      rw [lookup_mapSet, if_neg hne]
    · simp [hn, hci]

/-- On a record that `ParseNames` enumerates, an entry under a key that is not
among the enumerated names does not change the loop of `parseArgv`. -/
theorem parseFields_mapSet (env : Env) (args : Args) (k v : String) (hargs : args.length ≠ 0)
    (s : Struct) : ∀ l, namesOfFields env s = some l → k ∉ l →
      parseFields env (mapSet args k v) s = parseFields env args s := by
  have hargs' := mapSet_length_ne_zero args k v
  induction s with
  | nil => intro l _ _; simp [parseFields]
  | leaf info p rest ih =>
    intro l hl hk
    rw [namesOfFields, namesOfFields_leaf] at hl
    cases hr : namesOfFields env rest with
    | none => rw [hr] at hl; cases hl
    | some lr =>
      rw [hr] at hl
      simp only [Option.map_some', Option.some.injEq] at hl
      subst hl
      simp only [List.mem_append, not_or] at hk
      rw [parseFields, parseFields, fieldAction_mapSet env args _ info k v hk.1,
        ih lr hr hk.2]
  | sub info inner rest ihi ihr =>
    intro l hl hk
    by_cases hlf : (info.kindInterface || isReserved env info.typ) = true
    · have hcond : (!info.kindInterface && !isReserved env info.typ) = false := by
        cases hk' : info.kindInterface <;> cases hr : isReserved env info.typ <;> simp_all
      rw [namesOfFields] at hl
      simp only [hcond, Bool.false_eq_true, if_false] at hl
      rw [namesOfFields_leaf] at hl
      cases hr : namesOfFields env rest with
      | none => rw [hr] at hl; cases hl
      | some lr =>
        rw [hr] at hl
        simp only [Option.map_some', Option.some.injEq] at hl
        subst hl
        simp only [List.mem_append, not_or] at hk
        rw [parseFields, parseFields, fieldAction_mapSet env args _ info k v hk.1,
          ihr lr hr hk.2]
        by_cases hki : info.kindInterface = true
        · simp [hki]
        · have hres : isReserved env info.typ = true := by
            cases hk' : info.kindInterface <;> simp_all
          simp [hki, hres]
    · have hki : info.kindInterface = false := by
        cases hk' : info.kindInterface <;> simp_all
      have hres : isReserved env info.typ = false := by
        cases hr : isReserved env info.typ <;> simp_all
      rw [namesOfFields] at hl
      by_cases hci : info.canInterface = true
      · simp only [hki, hres, hci, Bool.not_true, Bool.false_eq_true, if_false, Bool.not_false,
          if_true, Bool.and_self] at hl
        cases hi : namesOfFields env inner with
        | none => rw [hi] at hl; cases hl
        | some li =>
          rw [hi] at hl
          simp only at hl
          cases hr : namesOfFields env rest with
          | none => rw [hr] at hl; cases hl
          | some lr =>
            rw [hr] at hl
            simp only [Option.map_some', Option.some.injEq] at hl
            subst hl
            simp only [List.mem_append, not_or] at hk
            rw [parseFields, parseFields, ihi li hi hk.1, ihr lr hr hk.2]
            simp [hki, hres, hci, hargs, hargs']
      · simp [hki, hres, hci] at hl

/-- C20: unknown flags are ignored.  For every record and every non-empty
argument mapping, adding an entry whose key is not among the tag names that
`ParseNames` returns for the record changes neither the outcome of the field
mapper nor any resulting field value. -/
theorem C20_unknown_flags_ignored (env : Env) (s : Struct) (args : Args) (k v : String)
    (l : List String) (hargs : args.length ≠ 0)
    (hnames : ParseNames env (.ptrStruct s) = .names l) (hk : k ∉ l) :
    parseArgv env (.ptrStruct s) (mapSet args k v) = parseArgv env (.ptrStruct s) args := by
  have hl : namesOfFields env s = some l := by
    simp only [ParseNames] at hnames
    cases hn : namesOfFields env s with
    | none => rw [hn] at hnames; cases hnames
    | some l' =>
      rw [hn] at hnames
      injection hnames with e
      rw [e]
  rw [parseArgv_struct env s _ (mapSet_length_ne_zero args k v), parseArgv_struct env s _ hargs,
    parseFields_mapSet env args k v hargs s l hl hk]

/-- C20 at `ArgStructInt`: with the mapping of `arg1 2`, the extra flag `zzz`
changes nothing.  Added to the empty mapping it turns the immediate success into
`MissingValue`. -/
theorem C20_witness :
    ParseNames startEnv (.ptrStruct ArgStructInt) = .names ["arg1", "arg2", "arg3", "arg4"] ∧
      parseArgv startEnv (.ptrStruct ArgStructInt) (mapSet [("arg1", "2")] "zzz" "1") =
        parseArgv startEnv (.ptrStruct ArgStructInt) [("arg1", "2")] ∧
      (parseArgv startEnv (.ptrStruct ArgStructInt) []).2 = .nil ∧
      (parseArgv startEnv (.ptrStruct ArgStructInt) (mapSet [] "zzz" "1")).2 =
        .err (ErrMissingValue "arg1") :=
  ⟨by decide,
    C20_unknown_flags_ignored startEnv ArgStructInt [("arg1", "2")] "zzz" "1"
      ["arg1", "arg2", "arg3", "arg4"] (by decide) (by decide) (by decide),
    by decide, by decide⟩

/-! ## Lemmas: nested records and reserved types -/

/-- Entering an accessible nested record whose type is not reserved: the field
mapper is applied to the nested record with the same argument mapping, at the
position of the field; an outcome other than success ends the loop. -/
theorem parseFields_sub_enter (env : Env) (args : Args) (info : FieldInfo) (inner rest : Struct)
    (hk : info.kindInterface = false) (hres : isReserved env info.typ = false)
    (hci : info.canInterface = true) :
    parseFields env args (.sub info inner rest) =
      match parseArgv env (.ptrStruct inner) args with
      | (.ptrStruct inner', .nil) =>
        (.sub info inner' (parseFields env args rest).1, (parseFields env args rest).2)
      | (.ptrStruct inner', o) => (.sub info inner' rest, o)
      | (_, o) => (.sub info inner rest, o) := by
  rw [parseFields]
  simp only [hk, hres, hci, Bool.not_false, Bool.not_true, Bool.false_eq_true, if_true, if_false]
  by_cases hargs : args.length = 0
  · simp [parseArgv, hargs]
  · simp only [parseArgv, hargs, if_false]
    rcases parseFields env args inner with ⟨inner', o⟩
    cases o <;> rfl

/-- A nested record whose type is not reserved and that is not accessible makes
the field mapper and the name enumerator panic. -/
theorem sub_blocked_panics (env : Env) (args : Args) (info : FieldInfo) (inner rest : Struct)
    (hk : info.kindInterface = false) (hres : isReserved env info.typ = false)
    (hci : info.canInterface = false) :
    parseFields env args (.sub info inner rest) = (.sub info inner rest, .panic) ∧
      namesOfFields env (.sub info inner rest) = none := by
  constructor
  · rw [parseFields]
    simp [hk, hres, hci]
  · rw [namesOfFields]
    simp [hk, hres, hci]

/-- A field of struct kind whose type is reserved is a single leaf: the mapper
reads its tag and does not look at its inner fields, and the enumerator names
only the field itself. -/
theorem sub_reserved_leaf (env : Env) (args : Args) (info : FieldInfo) (inner rest : Struct)
    (hk : info.kindInterface = false) (hres : isReserved env info.typ = true) :
    visits env (.sub info inner rest) = .field info (.struct inner) :: visits env rest ∧
      namesSpec env (.sub info inner rest) = leafName info ++ namesSpec env rest ∧
      parseFields env args (.sub info inner rest) =
        (match setSub (fieldAction env args false info) inner with
          | (inner', .nil) =>
            (.sub info inner' (parseFields env args rest).1, (parseFields env args rest).2)
          | (inner', o) => (.sub info inner' rest, o)) := by
  refine ⟨by simp [visits, hres], by simp [namesSpec, hres], ?_⟩
  rw [parseFields]
  simp only [hk, hres, Bool.not_true, Bool.false_eq_true, if_false]

theorem isReservedIn_append (l : List String) (t t' : String) :
    isReservedIn (l ++ [t]) t' = (isReservedIn l t' || decide (t = t')) := by
  induction l with
  | nil => by_cases h : t = t' <;> simp [isReservedIn, h]
  | cons a l ih =>
    by_cases h : a = t'
    · simp [isReservedIn, h]
    · simp [isReservedIn, h, ih]

/-- `AddReservedType t` makes `t` reserved and changes the status of no other
type name. -/
theorem isReserved_AddReservedType (env : Env) (t t' : String) :
    isReserved (AddReservedType env t) t' = (isReserved env t' || decide (t = t')) := by
  simp [isReserved, AddReservedType, isReservedIn_append]

/-- C17 at a record whose nested record sits in an unexported field
(`ConfigPrivate`): the type of the nested record is not reserved, yet the field
mapper is not applied to it; the call panics at that field, after `name` has been
written. -/
theorem C17_failing_input :
    isReserved startEnv "main.limits" = false ∧
      ParseArgv startEnv (.ptrStruct ConfigPrivate) ["name", "x", "max", "3"] =
        (.ptrStruct
          (.leaf (exported "string" "name") (.str "x")
            (.sub (unexported "main.limits" "")
              (.leaf (exported "uint32" "max") (.uint 0) .nil) .nil)),
          .panic) := by
  decide

/-- C19 at the same record: the nested record is of a type that is not reserved,
yet its inner field `max` is neither visited by the field mapper nor named by
`ParseNames`; both panic.  With the nested record in an exported field both
succeed. -/
theorem C19_failing_input :
    isReserved startEnv "main.limits" = false ∧
      ParseNames startEnv (.ptrStruct ConfigPrivate) = .panic ∧
      (parseArgv startEnv (.ptrStruct ConfigPrivate) [("name", "x"), ("max", "3")]).2 = .panic ∧
      ParseNames startEnv (.ptrStruct
        (.leaf (exported "string" "name") (.str "")
          (.sub (exported "main.limits" "")
            (.leaf (exported "uint32" "max") (.uint 0) .nil) .nil))) = .names ["name", "max"] ∧
      (parseArgv startEnv (.ptrStruct
        (.leaf (exported "string" "name") (.str "")
          (.sub (exported "main.limits" "")
            (.leaf (exported "uint32" "max") (.uint 0) .nil) .nil)))
        [("name", "x"), ("max", "3")]).2 = .nil := by
  decide

/-! ## Lemmas: the populate path and the discovery path -/

/-- Every stop of a record that can be entered everywhere is a field. -/
theorem visits_field_of_enterable (env : Env) (s : Struct) (h : Enterable env s = true) :
    ∀ y ∈ visits env s, ∃ info cur, y = .field info cur := by
  induction s with
  | nil => intro y hy; simp [visits] at hy
  | leaf info v rest ih =>
    intro y hy
    simp only [visits, List.mem_cons] at hy
    rcases hy with rfl | hy
    · exact ⟨_, _, rfl⟩
    · exact ih (by simpa [Enterable] using h) y hy
  | sub info inner rest ihi ihr =>
    intro y hy
    simp only [Enterable, Bool.and_eq_true, Bool.or_eq_true] at h
    obtain ⟨h1, h2⟩ := h
    by_cases hlf : (info.kindInterface || isReserved env info.typ) = true
    · simp only [visits, hlf, if_true, List.mem_cons] at hy
      rcases hy with rfl | hy
      · exact ⟨_, _, rfl⟩
      · exact ihr h2 y hy
    · rcases h1 with h1 | h1
      · exact absurd (by simpa using h1) hlf
      · simp only [visits, hlf, h1.1, if_true, if_false, List.mem_append, Bool.false_eq_true] at hy
        rcases hy with hy | hy
        · exact ihi h1.2 y hy
        · exact ihr h2 y hy

/-- The name carried by a field error of the else-branch is the tag name of the
field. -/
theorem fieldAction_fail_name (env : Env) (args : Args) (b : Bool) (info : FieldInfo)
    (e : Error) (h : fieldAction env args b info = .fail e) :
    (parseTag info.tag).1.length ≠ 0 ∧ info.canInterface = true ∧
      ∃ fe, e = .field fe ∧ fe.FieldName = (parseTag info.tag).1 := by
  obtain ⟨hn, hci, h1 | h1 | h1 | h1⟩ := fieldAction_fail env args b info e h
  · exact ⟨hn, hci, _, h1.2.2, rfl⟩
  · exact ⟨hn, hci, _, h1.2.2, rfl⟩
  · obtain ⟨raw, _, _, he⟩ := h1
    exact ⟨hn, hci, _, he, rfl⟩
  · obtain ⟨raw, c, _, _, he⟩ := h1
    exact ⟨hn, hci, _, he, rfl⟩

/-- A run over stops each of which goes on ends with success. -/
theorem runVisits_all_nil (env : Env) (args : Args) (l : List Visit)
    (h : ∀ y ∈ l, (visitStep env args y).2 = .nil) : (runVisits env args l).2 = .nil := by
  induction l with
  | nil => rfl
  | cons x xs ih =>
    have hx : visitStep env args x = ((visitStep env args x).1, .nil) :=
      Prod.ext rfl (h x (List.mem_cons_self _ _))
    rw [runVisits_cons_nil env args x _ xs hx]
    exact ih (fun y hy => h y (List.mem_cons_of_mem _ hy))

/-- The argument mapping of a token list looks a flag up at its last occurrence. -/
theorem lookup_extractLoop_nil (tokens : List String) (k : String) :
    List.lookup k (extractLoop tokens []) = List.lookup k (tokenPairs tokens).reverse := by
  rw [lookup_extractLoop _ tokens (le_refl _)]
  cases List.lookup k (tokenPairs tokens).reverse <;> simp

/-- A supplied, writable stop is passed. -/
theorem visitStep_supplied (env : Env) (tokens : List String) (info : FieldInfo) (cur : Val)
    (hs : stopSupplied env tokens (.field info cur) = true)
    (hw : stopWritable (.field info cur) = true) :
    (visitStep env (extractLoop tokens []) (.field info cur)).2 = .nil := by
  by_cases hp : (parseTag info.tag).1.length ≠ 0 ∧ info.canInterface = true
  · obtain ⟨hn, hci⟩ := hp
    have hcs : info.canSet = true := by simpa [stopWritable, hci] using hw
    simp only [stopSupplied, hn, hci, ne_eq, not_false_eq_true, and_self, if_true] at hs
    cases hl : List.lookup (parseTag info.tag).1 (tokenPairs tokens).reverse with
    | none => simp [hl] at hs
    | some raw =>
      simp only [hl] at hs
      have hl' : List.lookup (parseTag info.tag).1 (extractLoop tokens []) = some raw := by
        rw [lookup_extractLoop_nil, hl]
      have hact := fieldAction_present_any env (extractLoop tokens []) info.kindInterface info
        raw hn hci hcs hl'
      cases hc : coerceAny env info.typ raw with
      | none => simp [accepts, hc] at hs
      | some r =>
        cases r with
        | error c => simp [accepts, hc] at hs
        | ok a =>
          simp only [accepts, hc, Bool.and_eq_true, Bool.or_eq_true] at hs
          rw [hc] at hact
          simp only [hs.1, if_true] at hact
          rw [visitStep_set env _ info cur a.val hact hs.2]
  · have hskip : visitAction env (extractLoop tokens []) (.field info cur) = .skip := by
      simp only [visitAction]
      unfold fieldAction
      by_cases hn : (parseTag info.tag).1.length = 0
      · simp [hn]
      · have hci : info.canInterface = false := by
          cases h : info.canInterface
          · rfl
          · exact absurd ⟨hn, h⟩ hp
        simp [hn, hci]
    rw [visitStep_skip env _ _ hskip]

/-- `ParseNames` returns a list exactly on the records that it can enter
everywhere. -/
theorem enterable_of_names (env : Env) (s : Struct) (l : List String)
    (h : ParseNames env (.ptrStruct s) = .names l) :
    Enterable env s = true ∧ l = (visits env s).filterMap visitName := by
  simp only [ParseNames, namesOfFields_eq] at h
  by_cases he : Enterable env s = true
  · simp only [he, if_true, NamesResult.names.injEq] at h
    exact ⟨he, by rw [← h, namesSpec_visits env s he]⟩
  · simp [he] at h

/-! ## C21: the populate path and the discovery path agree -/

/-- C21, as stated, fails in four ways.  For `ArgStructInt`, the token list
`arg1 1 arg2 2 arg3 3 arg4 4 x` pairs every name of `ParseNames` with a value that
the coercion of its field accepts, yet `ParseArgv` returns
`ErrInvalidParameterCount`; so does the list `arg1 1 arg2 2 arg3 3 arg4 4 arg1 x`,
yet `ParseArgv` returns `InvalidValue(arg1)`, because the last value of a repeated
flag is the one that counts; for a record without fields `ParseNames` is empty, so
the empty token list supplies every name, yet `ParseArgv` returns `ErrEmptyArgs`.
And on `ConfigPrivate`, a record with a nested record in an unexported field, the
tokens `x 1` make `ParseArgv` return `MissingValue(name)`, while `ParseNames` of
the same record panics and returns no list of which `name` could be an element. -/
theorem C21_counterexample :
    ParseNames startEnv (.ptrStruct ArgStructInt) = .names ["arg1", "arg2", "arg3", "arg4"] ∧
    (∀ y ∈ visits startEnv ArgStructInt,
      stopSupplied startEnv ["arg1", "1", "arg2", "2", "arg3", "3", "arg4", "4", "x"] y = true) ∧
    (ParseArgv startEnv (.ptrStruct ArgStructInt)
      ["arg1", "1", "arg2", "2", "arg3", "3", "arg4", "4", "x"]).2 =
        .err ErrInvalidParameterCount ∧
    (∀ y ∈ visits startEnv ArgStructInt,
      stopSupplied startEnv ["arg1", "1", "arg2", "2", "arg3", "3", "arg4", "4"] y = true) ∧
    tokenPairs ["arg1", "1", "arg2", "2", "arg3", "3", "arg4", "4", "arg1", "x"] =
      tokenPairs ["arg1", "1", "arg2", "2", "arg3", "3", "arg4", "4"] ++ [("arg1", "x")] ∧
    (ParseArgv startEnv (.ptrStruct ArgStructInt)
      ["arg1", "1", "arg2", "2", "arg3", "3", "arg4", "4", "arg1", "x"]).2 =
        .err (ErrInvalidValue "arg1" (.num (syntaxError "ParseInt" "x"))) ∧
    ParseNames startEnv (.ptrStruct .nil) = .names [] ∧
    (ParseArgv startEnv (.ptrStruct .nil) []).2 = .err ErrEmptyArgs ∧
    ParseArgv startEnv (.ptrStruct ConfigPrivate) ["x", "1"] =
      (.ptrStruct ConfigPrivate, .err (ErrMissingValue "name")) ∧
    ParseNames startEnv (.ptrStruct ConfigPrivate) = .panic := by
  refine ⟨by decide, by decide, by decide, by decide, by decide, by decide, by decide, by decide,
    by decide, by decide⟩

/-- C21 (amended): for every record on which `ParseNames` returns a list of names
(it panics on a record with a nested record, of a type that is not reserved, in a
field that is not accessible) and every token list: the list is the list of the
names of the participating stops of the traversal; whenever `ParseArgv` returns a
field error (ReadOnly, MissingValue, InvalidValue or NotSupported) the field name
carried by that error is an element of the list; and if the token list is
non-empty and of even length and, for every participating field, the value paired
with the last occurrence of its flag is accepted by the coercion of the field and
assignable to it (every accessible field being settable, as `reflect` answers for
a struct reached through a pointer), then `ParseArgv` succeeds. -/
theorem C21_paths_agree (env : Env) (s : Struct) (tokens : List String) (l : List String)
    (hnames : ParseNames env (.ptrStruct s) = .names l) :
    l = (visits env s).filterMap visitName ∧
    (∀ d' fe, ParseArgv env (.ptrStruct s) tokens = (d', .err (.field fe)) →
      (fe.ErrorType = ErrTypeReadOnly ∨ fe.ErrorType = ErrTypeMissingValue ∨
        fe.ErrorType = ErrTypeInvalidValue ∨ fe.ErrorType = ErrTypeNotSupported) ∧
      fe.FieldName ∈ l) ∧
    (tokens.length ≠ 0 → tokens.length % 2 = 0 →
      (∀ y ∈ visits env s, stopWritable y = true) →
      (∀ y ∈ visits env s, stopSupplied env tokens y = true) →
      ∃ s', ParseArgv env (.ptrStruct s) tokens = (.ptrStruct s', .nil)) := by
  obtain ⟨hvalid, hl⟩ := enterable_of_names env s l hnames
  refine ⟨hl, ?_, ?_⟩
  · intro d' fe h
    have h0 : tokens.length ≠ 0 := by
      intro h0
      simp [ParseArgv, h0, ErrEmptyArgs] at h
    have heven : tokens.length % 2 = 0 := by
      by_contra hodd
      simp [ParseArgv, h0, extractArgs_odd tokens (by omega), ErrInvalidParameterCount] at h
    rw [ParseArgv_struct env s tokens h0 heven] at h
    simp only [Prod.mk.injEq] at h
    have hargs := extractLoop_nonempty tokens h0 heven
    obtain ⟨_, r2⟩ := parseFields_refines env (extractLoop tokens []) hargs s
    have hrun : runVisits env (extractLoop tokens []) (visits env s) =
        ((runVisits env (extractLoop tokens []) (visits env s)).1, .err (.field fe)) :=
      Prod.ext rfl (by rw [← r2, h.2])
    obtain ⟨pre, pre', x, post, hv, _, _, hx⟩ := runVisits_err env _ _ _ _ hrun
    cases x with
    | blocked info inner => simp [visitAction] at hx
    | field info cur =>
      simp only [visitAction] at hx
      obtain ⟨hn, hci, fe', he, hname⟩ := fieldAction_fail_name env _ _ info _ hx
      have hfe : fe = fe' := by simpa using he
      subst hfe
      constructor
      · obtain ⟨_, _, h1 | h1 | h1 | h1⟩ := fieldAction_fail env _ _ info _ hx
        · left
          have := h1.2.2
          simp only [ErrReadOnly, Error.field.injEq] at this
          rw [this]
        · right; left
          have := h1.2.2
          simp only [ErrMissingValue, Error.field.injEq] at this
          rw [this]
        · right; right; right
          obtain ⟨raw, _, _, this⟩ := h1
          simp only [ErrNotSupported, Error.field.injEq] at this
          rw [this]
        · right; right; left
          obtain ⟨raw, c, _, _, this⟩ := h1
          simp only [ErrInvalidValue, Error.field.injEq] at this
          rw [this]
      · rw [hl, List.mem_filterMap]
        refine ⟨.field info cur, ?_, ?_⟩
        · rw [hv]
          simp
        · rw [hname]
          simp [visitName, hn, hci]
  · intro h0 heven hw hsup
    rw [ParseArgv_struct env s tokens h0 heven]
    refine ⟨_, Prod.ext rfl ?_⟩
    have hargs := extractLoop_nonempty tokens h0 heven
    obtain ⟨_, r2⟩ := parseFields_refines env (extractLoop tokens []) hargs s
    show (parseFields env (extractLoop tokens []) s).2 = .nil
    rw [r2]
    apply runVisits_all_nil
    intro y hy
    obtain ⟨info, cur, rfl⟩ := visits_field_of_enterable env s hvalid y hy
    exact visitStep_supplied env tokens info cur (hsup _ hy) (hw _ hy)

/-- C21 (amended) at `CertInfo` of `examples/nested/main.go`: the tokens `CN x` are
answered with `MissingValue(OU)`, and `OU` is among the names; tokens that supply
every name, the optional `O` included, are accepted. -/
theorem C21_witness :
    ParseNames startEnv (.ptrStruct CertInfo) =
      .names ["CN", "OU", "O", "alg", "bits", "days"] ∧
    ParseArgv startEnv (.ptrStruct CertInfo) ["CN", "x"] =
      (.ptrStruct (parseFields startEnv [("CN", "x")] CertInfo).1, .err (ErrMissingValue "OU")) ∧
    "OU" ∈ ["CN", "OU", "O", "alg", "bits", "days"] ∧
    (∃ s', ParseArgv startEnv (.ptrStruct CertInfo)
      ["CN", "x", "--OU", "y", "O", "z", "-alg", "rsa", "bits", "2048", "days", "30"] =
        (.ptrStruct s', .nil)) :=
  ⟨by decide, by decide,
    ((C21_paths_agree startEnv CertInfo ["CN", "x"] ["CN", "OU", "O", "alg", "bits", "days"]
      (by decide)).2.1
      (.ptrStruct (parseFields startEnv [("CN", "x")] CertInfo).1)
      { FieldName := "OU", ErrorType := ErrTypeMissingValue, Cause := none } (by decide)).2,
    (C21_paths_agree startEnv CertInfo
      ["CN", "x", "--OU", "y", "O", "z", "-alg", "rsa", "bits", "2048", "days", "30"]
      ["CN", "OU", "O", "alg", "bits", "days"]
      (by decide)).2.2 (by decide) (by decide) (by decide) (by decide)⟩

/-! ## Lemmas: a second run of the field mapper -/

/-- Carrying out the same action again on a field of non-struct kind. -/
theorem setLeaf_idem (a : Action) (p p' : Prim) (h : setLeaf a p = (p', .nil)) :
    setLeaf a p' = (p', .nil) := by
  cases a with
  | skip => simp [setLeaf] at h ⊢
  | set v =>
    cases v with
    | prim q =>
      simp only [setLeaf, Prod.mk.injEq, and_true] at h
      simp [setLeaf, h]
    | struct t => simp [setLeaf] at h
  | fail e => simp [setLeaf] at h
  | panic => simp [setLeaf] at h

/-- Carrying out the same action again on a field of struct kind. -/
theorem setSub_idem (a : Action) (s s' : Struct) (h : setSub a s = (s', .nil)) :
    setSub a s' = (s', .nil) := by
  cases a with
  | skip => simp [setSub] at h ⊢
  | set v =>
    cases v with
    | struct t =>
      simp only [setSub, Prod.mk.injEq, and_true] at h
      simp [setSub, h]
    | prim q => simp [setSub] at h
  | fail e => simp [setSub] at h
  | panic => simp [setSub] at h

/-- Carrying out the same action again on a field of interface kind. -/
theorem setInterface_idem (a : Action) (v v' : Val) (h : setInterface a v = (v', .nil)) :
    setInterface a v' = (v', .nil) := by
  cases a with
  | skip => simp [setInterface] at h ⊢
  | set w =>
    simp only [setInterface, Prod.mk.injEq, and_true] at h
    simp [setInterface, h]
  | fail e => simp [setInterface] at h
  | panic => simp [setInterface] at h

/-- The loop of `parseArgv` at a field of interface kind, whatever sort of value
it holds. -/
theorem parseFields_fieldNode (env : Env) (args : Args) (info : FieldInfo) (v : Val)
    (rest : Struct) (hk : info.kindInterface = true) :
    parseFields env args (fieldNode info v rest) =
      match setInterface (fieldAction env args true info) v with
      | (v', .nil) => (fieldNode info v' (parseFields env args rest).1, (parseFields env args rest).2)
      | (v', o) => (fieldNode info v' rest, o) := by
  cases v with
  | prim p =>
    simp only [fieldNode]
    rw [parseFields]
    simp only [hk, if_true]
    first
      | done
      | (rcases setInterface (fieldAction env args true info) (.prim p) with ⟨v', o⟩
         cases o <;> rfl)
  | struct t =>
    simp only [fieldNode]
    rw [parseFields]
    simp only [hk, if_true]
    first
      | done
      | (rcases setInterface (fieldAction env args true info) (.struct t) with ⟨v', o⟩
         cases o <;> rfl)

/-- A second run at a field of interface kind. -/
theorem parseFields_fieldNode_idem (env : Env) (args : Args) (info : FieldInfo) (v : Val)
    (rest : Struct) (hk : info.kindInterface = true) (s' : Struct)
    (ih : ∀ r', parseFields env args rest = (r', .nil) → parseFields env args r' = (r', .nil))
    (h : parseFields env args (fieldNode info v rest) = (s', .nil)) :
    parseFields env args s' = (s', .nil) := by
  rw [parseFields_fieldNode env args info v rest hk] at h
  rcases hs : setInterface (fieldAction env args true info) v with ⟨v', o⟩
  rw [hs] at h
  cases o with
  | nil =>
    simp only [Prod.mk.injEq] at h
    obtain ⟨h1, h2⟩ := h
    have hrest := ih _ (Prod.ext rfl h2 : parseFields env args rest = (_, .nil))
    subst h1
    rw [parseFields_fieldNode env args info v' _ hk, setInterface_idem _ _ _ hs]
    simp only [hrest]
  | err e => simp at h
  | panic => simp at h

/-- The loop of `parseArgv` never looks at the current value of a field: after a
successful run a second run writes the same values and succeeds. -/
theorem parseFields_idem (env : Env) (args : Args) :
    ∀ s s', parseFields env args s = (s', .nil) → parseFields env args s' = (s', .nil) := by
  intro s
  induction s with
  | nil =>
    intro s' h
    simp only [parseFields, Prod.mk.injEq, and_true] at h
    subst h
    rfl
  | leaf info v rest ih =>
    intro s' h
    by_cases hk : info.kindInterface = true
    · exact parseFields_fieldNode_idem env args info (.prim v) rest hk s' ih h
    · have hk' : info.kindInterface = false := by simpa using hk
      rw [parseFields] at h
      simp only [hk', Bool.false_eq_true, if_false] at h
      rcases hs : setLeaf (fieldAction env args false info) v with ⟨v', o⟩
      rw [hs] at h
      cases o with
      | nil =>
        simp only [Prod.mk.injEq] at h
        obtain ⟨h1, h2⟩ := h
        have hrest := ih _ (Prod.ext rfl h2 : parseFields env args rest = (_, .nil))
        subst h1
        rw [parseFields]
        simp only [hk', Bool.false_eq_true, if_false, setLeaf_idem _ _ _ hs, hrest]
      | err e => simp at h
      | panic => simp at h
  | sub info inner rest ihi ihr =>
    intro s' h
    by_cases hk : info.kindInterface = true
    · exact parseFields_fieldNode_idem env args info (.struct inner) rest hk s' ihr h
    · have hk' : info.kindInterface = false := by simpa using hk
      rw [parseFields] at h
      by_cases hres : isReserved env info.typ = true
      · simp only [hk', hres, Bool.not_true, Bool.false_eq_true, if_false] at h
        rcases hs : setSub (fieldAction env args false info) inner with ⟨inner', o⟩
        rw [hs] at h
        cases o with
        | nil =>
          simp only [Prod.mk.injEq] at h
          obtain ⟨h1, h2⟩ := h
          have hrest := ihr _ (Prod.ext rfl h2 : parseFields env args rest = (_, .nil))
          subst h1
          rw [parseFields]
          simp only [hk', hres, Bool.not_true, Bool.false_eq_true, if_false,
            setSub_idem _ _ _ hs, hrest]
        | err e => simp at h
        | panic => simp at h
      · have hres' : isReserved env info.typ = false := by simpa using hres
        by_cases hci : info.canInterface = true
        · simp only [hk', hres', hci, Bool.not_false, Bool.not_true, Bool.false_eq_true, if_true,
            if_false] at h
          by_cases hargs : args.length = 0
          · simp only [hargs, if_true, Prod.mk.injEq] at h
            obtain ⟨h1, h2⟩ := h
            have hrest := ihr _ (Prod.ext rfl h2 : parseFields env args rest = (_, .nil))
            subst h1
            rw [parseFields]
            simp only [hk', hres', hci, hargs, Bool.not_false, Bool.not_true, Bool.false_eq_true,
              if_true, if_false, hrest]
          · simp only [hargs, if_false] at h
            rcases hs : parseFields env args inner with ⟨inner', o⟩
            rw [hs] at h
            cases o with
            | nil =>
              simp only [Prod.mk.injEq] at h
              obtain ⟨h1, h2⟩ := h
              have hrest := ihr _ (Prod.ext rfl h2 : parseFields env args rest = (_, .nil))
              have hin := ihi _ hs
              subst h1
              rw [parseFields]
              simp only [hk', hres', hci, hargs, Bool.not_false, Bool.not_true,
                Bool.false_eq_true, if_true, if_false, hin, hrest]
            | err e => simp at h
            | panic => simp at h
        · have hci' : info.canInterface = false := by simpa using hci
          simp [hk', hres', hci'] at h

/-- A passed stop is the same field afterwards, and it holds its old value when
it has no tag name or its tag name is not a key of the mapping. -/
theorem keptStop_of_step (env : Env) (args : Args) (y y' : Visit)
    (h : visitStep env args y = (y', .nil)) : KeptStop args y y' := by
  rcases visitStep_nil env args y y' h with ⟨_, rfl⟩ | ⟨info, cur, v, rfl, hset, rfl⟩
  · exact ⟨fun info cur hy => ⟨cur, hy, fun _ => rfl⟩, fun _ _ _ => rfl⟩
  · refine ⟨?_, fun _ _ hy => by simp at hy⟩
    intro info' cur' hy
    simp only [Visit.field.injEq] at hy
    obtain ⟨rfl, rfl⟩ := hy
    refine ⟨v, rfl, ?_⟩
    intro hc
    have hfa : ∃ b, fieldAction env args b info = .set v := by
      cases cur with
      | prim p => exact ⟨_, by simpa [visitAction] using hset⟩
      | struct t => exact ⟨_, by simpa [visitAction] using hset⟩
    obtain ⟨b, hb⟩ := hfa
    obtain ⟨hn, _, _, raw, hl, _⟩ := fieldAction_set env args b info v hb
    rcases hc with hc | hc
    · exact absurd hc hn
    · rw [hl] at hc
      simp at hc

/-- Every stop is kept by a run that changes nothing. -/
theorem keptStop_refl (args : Args) (l : List Visit) : List.Forall₂ (KeptStop args) l l := by
  induction l with
  | nil => exact List.Forall₂.nil
  | cons y l ih =>
    exact List.Forall₂.cons ⟨fun info cur hy => ⟨cur, hy, fun _ => rfl⟩, fun _ _ _ => rfl⟩ ih

/-! ## C22: the field mapper is idempotent on success -/

/-- C22, as stated, fails for a field that is a nested record: in `CertInfo` of
`examples/nested/main.go` the field number 3, `Algorithm AlgorithmDetails`, has no
tag, and after the successful call with `CN x OU y alg rsa bits 2048 days 30` its
value is `(rsa, 2048)`, not the value `("", 0)` it had before. -/
theorem C22_counterexample :
    parseArgv startEnv (.ptrStruct CertInfo) certArgs = (.ptrStruct CertInfoFilled, .nil) ∧
    Field CertInfo 3 =
      some (exported "main.AlgorithmDetails" "",
        .struct (.leaf (exported "string" "alg") (.str "")
          (.leaf (exported "uint" "bits") (.uint 0) .nil))) ∧
    Field CertInfoFilled 3 =
      some (exported "main.AlgorithmDetails" "",
        .struct (.leaf (exported "string" "alg") (.str "rsa")
          (.leaf (exported "uint" "bits") (.uint 2048) .nil))) ∧
    (exported "main.AlgorithmDetails" "").tag = "" ∧
    parseTag (exported "main.AlgorithmDetails" "").tag = ("", false) ∧
    Field CertInfoFilled 3 ≠ Field CertInfo 3 := by
  refine ⟨by decide, by decide, by decide, by decide, by decide, by decide⟩

/-- C22 (amended): for every destination and every argument mapping `a` (the
registered coercions are functions of the raw value), if the field mapper succeeds
on the destination and leaves it as `dest'`, then the field mapper succeeds on
`dest'` with `a` again and leaves it exactly as it is; moreover, for a record,
every leaf field of the record tree (every stop of the depth-first traversal)
that has no tag name, or whose tag name is not a key of `a`, has the same value
afterwards as before.  (A field that is a nested record whose type is not reserved
is not a stop: it changes through its inner fields.) -/
theorem C22_idempotent (env : Env) (dest dest' : Dest) (a : Args)
    (h : parseArgv env dest a = (dest', .nil)) :
    parseArgv env dest' a = (dest', .nil) ∧
    (∀ r, dest = .ptrStruct r →
      ∃ r', dest' = .ptrStruct r' ∧ List.Forall₂ (KeptStop a) (visits env r) (visits env r')) := by
  by_cases hargs : a.length = 0
  · simp only [parseArgv, hargs, if_true, Prod.mk.injEq, and_true] at h
    subst h
    refine ⟨by simp [parseArgv, hargs], ?_⟩
    intro r hr
    exact ⟨r, hr, keptStop_refl a _⟩
  · cases dest with
    | untypedNil => simp [parseArgv, hargs] at h
    | notPtr => simp [parseArgv, hargs] at h
    | ptrNonStruct => simp [parseArgv, hargs] at h
    | nilPtrStruct n =>
      by_cases hn : n = 0
      · simp only [parseArgv, hargs, hn, if_true, if_false, Prod.mk.injEq, and_true] at h
        subst h
        exact ⟨by simp [parseArgv, hargs, hn], fun r hr => by simp at hr⟩
      · simp [parseArgv, hargs, hn] at h
    | ptrStruct s =>
      rw [parseArgv_struct env s a hargs] at h
      simp only [Prod.mk.injEq] at h
      obtain ⟨h1, h2⟩ := h
      have hrun : parseFields env a s = ((parseFields env a s).1, .nil) := Prod.ext rfl h2
      have hidem := parseFields_idem env a s _ hrun
      subst h1
      refine ⟨?_, ?_⟩
      · rw [parseArgv_struct env _ a hargs, hidem]
      · intro r hr
        simp only [Dest.ptrStruct.injEq] at hr
        subst hr
        refine ⟨_, rfl, ?_⟩
        obtain ⟨r1, r2⟩ := parseFields_refines env a hargs s
        have hv : runVisits env a (visits env s) =
            (visits env (parseFields env a s).1, .nil) := by
          rw [r1, ← h2, r2]
        exact List.Forall₂.imp (keptStop_of_step env a) (runVisits_nil env a _ _ hv)

/-- C22 (amended) at `CertInfo` with the mapping of `CN x OU y alg rsa bits 2048
days 30`: the second run leaves the filled record as it is, and the optional field
`O`, whose name is not a key, still holds the empty string.  And at a record with
a field of type `any`, with a registered coercion that returns a struct value: the
interface holds the struct value after the first run and after the second. -/
theorem C22_witness :
    parseArgv startEnv (.ptrStruct CertInfo) certArgs = (.ptrStruct CertInfoFilled, .nil) ∧
    parseArgv startEnv (.ptrStruct CertInfoFilled) certArgs = (.ptrStruct CertInfoFilled, .nil) ∧
    Field CertInfoFilled 2 = Field CertInfo 2 ∧
    parseArgv pointEnv (.ptrStruct AnyThenInt) [("p", "1,2"), ("n", "5")] =
      (.ptrStruct (.sub (exportedAny "p") pointValue (.leaf (exported "int" "n") (.int 5) .nil)),
        .nil) ∧
    parseArgv pointEnv
        (.ptrStruct (.sub (exportedAny "p") pointValue (.leaf (exported "int" "n") (.int 5) .nil)))
        [("p", "1,2"), ("n", "5")] =
      (.ptrStruct (.sub (exportedAny "p") pointValue (.leaf (exported "int" "n") (.int 5) .nil)),
        .nil) :=
  ⟨by decide,
    (C22_idempotent startEnv (.ptrStruct CertInfo) (.ptrStruct CertInfoFilled) certArgs
      (by decide)).1,
    by decide, by decide,
    (C22_idempotent pointEnv (.ptrStruct AnyThenInt)
      (.ptrStruct (.sub (exportedAny "p") pointValue (.leaf (exported "int" "n") (.int 5) .nil)))
      [("p", "1,2"), ("n", "5")] (by decide)).1⟩

end Argv
